import Mathlib

/-!
# CHIP-8 emulator (`chip8emu.c`): shallow embedding and verified properties

The C program keeps the whole virtual machine in one `chip8` struct and mutates
it in `execute_clock_cycle` (one instruction per call) and `update_timers`.

Modelling conventions.

* `unsigned char` and `unsigned short` objects are stored as `Fin 256` and
  `Fin 65536`.  All arithmetic is carried out on `Nat`/`Int` (C's integer
  promotion to `int`), and every store converts back with an explicit `% 256`
  or `% 65536` (`toUChar`, `toUShort`, `intToUChar`).
* The arrays of the struct are functions from the index; only the indices below
  the declared size belong to the object.  The C code checks no index.  An
  access outside the declared size is undefined behaviour in C and is reported
  as `Fault.out_of_bounds`; `exit(EXIT_FAILURE)` is reported as
  `Fault.exit_failure`.  So a call that is `.ok` here is a call that returns
  and keeps every array access inside its array, and on such a call the model
  and the compiled program agree.  The compiled program does not stop at an
  access past an array: it reads or writes whatever the struct holds there and
  returns.  The section on accesses past `memory[]` follows the layout of the
  struct for those, and the results that are restricted to accesses inside
  the arrays say so.  Register accesses `V[..]` are always indexed by a nibble
  of the opcode (or by `0xF`), so they need no check.
* What the function receives from outside the struct is an explicit argument:
  the numeric values of the SDL scancode constants, the array returned by
  `SDL_GetKeyboardState`, and the value returned by `rand()`.
-/

namespace Chip8

/-! ## Constants and the data model -/

def MEMSIZE : Nat := 4096
def DISPLAY : Nat := 2048
def REGISTERS : Nat := 16
def STACKDEPTH : Nat := 16
def OFFSET : Nat := 0x200

/-- An `unsigned char` object. -/
abbrev UChar := Fin 256

/-- An `unsigned short` object. -/
abbrev UShort := Fin 65536

/-- Conversion of a non-negative `int` value to `unsigned char`. -/
def toUChar (n : Nat) : UChar := ⟨n % 256, Nat.mod_lt n (by decide)⟩

/-- Conversion of a non-negative `int` value to `unsigned short`. -/
def toUShort (n : Nat) : UShort := ⟨n % 65536, Nat.mod_lt n (by decide)⟩

/-- Conversion of a possibly negative `int` value to `unsigned char`
(reduction modulo 256). -/
def intToUChar (z : Int) : UChar :=
  ⟨(z % 256).toNat % 256, Nat.mod_lt _ (by decide)⟩

/-- Conversion of a possibly negative `int` value to `unsigned short`
(reduction modulo 65536). -/
def intToUShort (z : Int) : UShort :=
  ⟨(z % 65536).toNat % 65536, Nat.mod_lt _ (by decide)⟩

/-- The table `chip8_fontset[80]`. -/
def chip8_fontset : List Nat := [
  0xF0, 0x90, 0x90, 0x90, 0xF0,
  0x20, 0x60, 0x20, 0x20, 0x70,
  0xF0, 0x10, 0xF0, 0x80, 0xF0,
  0xF0, 0x10, 0xF0, 0x10, 0xF0,
  0x90, 0x90, 0xF0, 0x10, 0x10,
  0xF0, 0x80, 0xF0, 0x10, 0xF0,
  0xF0, 0x80, 0xF0, 0x90, 0xF0,
  0xF0, 0x10, 0x20, 0x40, 0x40,
  0xF0, 0x90, 0xF0, 0x90, 0xF0,
  0xF0, 0x90, 0xF0, 0x10, 0xF0,
  0xF0, 0x90, 0xF0, 0x90, 0x90,
  0xE0, 0x90, 0xE0, 0x90, 0xE0,
  0xF0, 0x80, 0x80, 0x80, 0xF0,
  0xE0, 0x90, 0x90, 0x90, 0xE0,
  0xF0, 0x80, 0xF0, 0x80, 0xF0,
  0xF0, 0x80, 0xF0, 0x80, 0x80]

/-- The numeric values of the sixteen SDL scancode constants that `key_mapping`
names.  They are defined by the SDL2 headers, not by this program, so they are
an argument of the model. -/
structure Scancodes where
  SDL_SCANCODE_X : Nat
  SDL_SCANCODE_1 : Nat
  SDL_SCANCODE_2 : Nat
  SDL_SCANCODE_3 : Nat
  SDL_SCANCODE_Q : Nat
  SDL_SCANCODE_W : Nat
  SDL_SCANCODE_E : Nat
  SDL_SCANCODE_A : Nat
  SDL_SCANCODE_S : Nat
  SDL_SCANCODE_D : Nat
  SDL_SCANCODE_Z : Nat
  SDL_SCANCODE_C : Nat
  SDL_SCANCODE_4 : Nat
  SDL_SCANCODE_R : Nat
  SDL_SCANCODE_F : Nat
  SDL_SCANCODE_V : Nat

/-- The table `key_mapping[16]`: entry `i` is the scancode of the physical key
that stands for logical key `i`. -/
def key_mapping (k : Scancodes) : List Nat := [
  k.SDL_SCANCODE_X,
  k.SDL_SCANCODE_1,
  k.SDL_SCANCODE_2,
  k.SDL_SCANCODE_3,
  k.SDL_SCANCODE_Q,
  k.SDL_SCANCODE_W,
  k.SDL_SCANCODE_E,
  k.SDL_SCANCODE_A,
  k.SDL_SCANCODE_S,
  k.SDL_SCANCODE_D,
  k.SDL_SCANCODE_Z,
  k.SDL_SCANCODE_C,
  k.SDL_SCANCODE_4,
  k.SDL_SCANCODE_R,
  k.SDL_SCANCODE_F,
  k.SDL_SCANCODE_V]

/-- The values the SDL2 header `SDL_scancode.h` gives to the sixteen constants
(they are the USB keyboard usage ids). -/
def sdl2 : Scancodes where
  SDL_SCANCODE_X := 27
  SDL_SCANCODE_1 := 30
  SDL_SCANCODE_2 := 31
  SDL_SCANCODE_3 := 32
  SDL_SCANCODE_Q := 20
  SDL_SCANCODE_W := 26
  SDL_SCANCODE_E := 8
  SDL_SCANCODE_A := 4
  SDL_SCANCODE_S := 22
  SDL_SCANCODE_D := 7
  SDL_SCANCODE_Z := 29
  SDL_SCANCODE_C := 6
  SDL_SCANCODE_4 := 33
  SDL_SCANCODE_R := 21
  SDL_SCANCODE_F := 9
  SDL_SCANCODE_V := 25

/-- The struct `chip8`. -/
structure chip8 where
  opcode : UShort
  stackPointer : UShort
  indexRegister : UShort
  pc : UShort
  delayTimer : UChar
  soundTimer : UChar
  memory : Nat → UChar
  display : Nat → UChar
  V : Nat → UChar
  stack : Nat → UShort
  shouldRender : Bool

/-- How a call can end without returning a state. -/
inductive Fault where
  | exit_failure
  | out_of_bounds
  deriving DecidableEq, Repr

/-! ## Checked array accesses -/

/-- Read `c->memory[i]` for `i` inside the array.  The C code reads without a
check (line 152 and the loops of `Dxyn` and `Fx65`); a read past the array is
reported as `Fault.out_of_bounds`, see `readMemory_laid_out` for what the
compiled program reads there. -/
def readMemory (c : chip8) (i : Nat) : Except Fault Nat :=
  if i < MEMSIZE then .ok (c.memory i).val else .error .out_of_bounds

/-- Assign `c->memory[i] = v` for `i` inside the array.  The C code stores
without a check (lines 466-468 and 476); a store past the array is reported as
`Fault.out_of_bounds`, see `writeMemory_laid_out` for where the compiled
program puts the byte. -/
def writeMemory (c : chip8) (i : Nat) (v : UChar) : Except Fault chip8 :=
  if i < MEMSIZE then .ok { c with memory := Function.update c.memory i v }
  else .error .out_of_bounds

/-- Read `c->display[i]`. -/
def readDisplay (c : chip8) (i : Nat) : Except Fault Nat :=
  if i < DISPLAY then .ok (c.display i).val else .error .out_of_bounds

/-- Assign `c->display[i] = v`. -/
def writeDisplay (c : chip8) (i : Nat) (v : UChar) : Except Fault chip8 :=
  if i < DISPLAY then .ok { c with display := Function.update c.display i v }
  else .error .out_of_bounds

/-- Read `c->stack[i]`. -/
def readStack (c : chip8) (i : Nat) : Except Fault Nat :=
  if i < STACKDEPTH then .ok (c.stack i).val else .error .out_of_bounds

/-- Assign `c->stack[i] = v`. -/
def writeStack (c : chip8) (i : Nat) (v : UShort) : Except Fault chip8 :=
  if i < STACKDEPTH then .ok { c with stack := Function.update c.stack i v }
  else .error .out_of_bounds

/-- Read `key_mapping[i]`. -/
def readKeyMapping (k : Scancodes) (i : Nat) : Except Fault Nat :=
  match (key_mapping k)[i]? with
  | some s => .ok s
  | none => .error .out_of_bounds

/-- Assign `c->V[i] = v`. -/
def setV (c : chip8) (i : Nat) (v : UChar) : chip8 :=
  { c with V := Function.update c.V i v }

/-- The statement `c->pc += n`. -/
def advance (c : chip8) (n : Nat) : chip8 :=
  { c with pc := toUShort (c.pc.val + n) }

/-! ## `execute_clock_cycle` -/

/-- The fetch `c->memory[c->pc] << 8 | c->memory[c->pc+1]` (line 152), as the
`int` value that is then stored in `c->opcode`. -/
def fetch (c : chip8) : Except Fault Nat := do
  let hi ← readMemory c c.pc.val
  let lo ← readMemory c (c.pc.val + 1)
  pure ((hi <<< 8) ||| lo)

/-- The group `case (0x0000)`: `00E0`, `00EE`, and the legacy `0nnn` form that
only prints a message. -/
def case_0x0000 (c : chip8) : Except Fault chip8 :=
  if c.opcode.val = 0x00E0 then
    .ok (advance { c with display := fun i => if i < DISPLAY then 0 else c.display i } 2)
  else if c.opcode.val = 0x00EE then do
    let c1 := { c with stackPointer := intToUShort ((c.stackPointer.val : Int) - 1) }
    let top ← readStack c1 c1.stackPointer.val
    let c2 := { c1 with pc := toUShort top }
    pure (advance c2 2)
  else
    .ok c

/-- The group `case (0x8000)`, dispatched on the low nibble.  The inner switch
has no `default`, so an unlisted low nibble leaves the state as it is. -/
def case_0x8000 (c : chip8) : Except Fault chip8 :=
  let vx := (c.opcode.val &&& 0x0F00) >>> 8
  let vy := (c.opcode.val &&& 0x00F0) >>> 4
  let n := c.opcode.val &&& 0x000F
  if n = 0x0000 then
    .ok (advance (setV c vx (c.V vy)) 2)
  else if n = 0x0001 then
    .ok (advance (setV c vx (toUChar ((c.V vx).val ||| (c.V vy).val))) 2)
  else if n = 0x0002 then
    .ok (advance (setV c vx (toUChar ((c.V vx).val &&& (c.V vy).val))) 2)
  else if n = 0x0003 then
    .ok (advance (setV c vx (toUChar ((c.V vx).val ^^^ (c.V vy).val))) 2)
  else if n = 0x0004 then
    let res := (c.V vx).val + (c.V vy).val
    if res > 255 then
      .ok (advance (setV (setV c 0xF (toUChar 1)) vx (toUChar (res &&& 0xFF))) 2)
    else
      .ok (advance (setV (setV c 0xF (toUChar 0)) vx (toUChar res)) 2)
  else if n = 0x0005 then
    let c1 := if (c.V vx).val > (c.V vy).val then setV c 0xF (toUChar 1)
              else setV c 0xF (toUChar 0)
    .ok (advance (setV c1 vx (intToUChar (((c1.V vx).val : Int) - ((c1.V vy).val : Int)))) 2)
  else if n = 0x0006 then
    let c1 := setV c 0xF (toUChar ((c.V vx).val &&& 0x1))
    .ok (advance (setV c1 vx (toUChar ((c1.V vx).val >>> 1))) 2)
  else if n = 0x0007 then
    let c1 := if (c.V vy).val > (c.V vx).val then setV c 0xF (toUChar 1)
              else setV c 0xF (toUChar 0)
    .ok (advance (setV c1 vx (intToUChar (((c1.V vy).val : Int) - ((c1.V vx).val : Int)))) 2)
  else if n = 0x000E then
    let c1 := setV c 0xF (toUChar (if (c.V vx).val &&& 0x80 ≠ 0 then 1 else 0))
    .ok (advance (setV c1 vx (toUChar ((c1.V vx).val <<< 1))) 2)
  else
    .ok c

/-- Body of the inner loop `for (xline ...)` of `Dxyn` for one `xline`. -/
def draw_pixel (x y yline pixel : Nat) (c : chip8) (xline : Nat) : Except Fault chip8 :=
  if pixel &&& (0x80 >>> xline) ≠ 0 then do
    let d ← readDisplay c (x + xline + ((y + yline) * 64))
    let c1 := if d ≠ 0 then setV c 0xF (toUChar 1) else c
    let d1 ← readDisplay c1 (x + xline + ((y + yline) * 64))
    writeDisplay c1 (x + xline + ((y + yline) * 64)) (toUChar (d1 ^^^ 1))
  else
    .ok c

/-- Body of the outer loop `for (yline ...)` of `Dxyn` for one `yline`. -/
def draw_row (x y : Nat) (c : chip8) (yline : Nat) : Except Fault chip8 := do
  let pixel ← readMemory c (c.indexRegister.val + yline)
  (List.range 8).foldlM (draw_pixel x y yline pixel) c

/-- The case `case (0xD000)`: draw a sprite. -/
def case_0xD000 (c : chip8) : Except Fault chip8 := do
  let x := (c.V ((c.opcode.val &&& 0x0F00) >>> 8)).val
  let y := (c.V ((c.opcode.val &&& 0x00F0) >>> 4)).val
  let height := c.opcode.val &&& 0x000F
  let c1 := setV c 0xF (toUChar 0)
  let c2 ← (List.range height).foldlM (draw_row x y) c1
  pure (advance { c2 with shouldRender := true } 2)

/-- The group `case (0xE000)`: `Ex9E`, `ExA1`, and `exit` for anything else. -/
def case_0xE000 (k : Scancodes) (state : Nat → UChar) (c : chip8) : Except Fault chip8 :=
  let vx := (c.opcode.val &&& 0x0F00) >>> 8
  if c.opcode.val &&& 0x00FF = 0x009E then do
    let s ← readKeyMapping k (c.V vx).val
    if (state s).val ≠ 0 then pure (advance c 4) else pure (advance c 2)
  else if c.opcode.val &&& 0x00FF = 0x00A1 then do
    let s ← readKeyMapping k (c.V vx).val
    if ¬ ((state s).val ≠ 0) then pure (advance c 4) else pure (advance c 2)
  else
    .error .exit_failure

/-- Body of the loop `for (int i = 0; i < 16; i++)` of `Fx0A` for one `i`. -/
def wait_key_step (k : Scancodes) (state : Nat → UChar) (c : chip8) (i : Nat) :
    Except Fault chip8 := do
  let s ← readKeyMapping k i
  if (state s).val ≠ 0 then
    let vx := (c.opcode.val &&& 0x0F00) >>> 8
    pure (advance (setV c vx (toUChar s)) 2)
  else
    pure c

/-- Body of the loop of `Fx55` for one `idx`. -/
def store_step (c : chip8) (idx : Nat) : Except Fault chip8 :=
  writeMemory c (c.indexRegister.val + idx) (c.V idx)

/-- Body of the loop of `Fx65` for one `idx`. -/
def load_step (c : chip8) (idx : Nat) : Except Fault chip8 := do
  let b ← readMemory c (c.indexRegister.val + idx)
  pure (setV c idx (toUChar b))

/-- The group `case (0xF000)`, dispatched on the low byte.  The inner switch
has no `default`, so an unlisted low byte leaves the state as it is. -/
def case_0xF000 (k : Scancodes) (state : Nat → UChar) (c : chip8) : Except Fault chip8 :=
  let vx := (c.opcode.val &&& 0x0F00) >>> 8
  let lo := c.opcode.val &&& 0x00FF
  if lo = 0x0007 then
    .ok (advance (setV c vx c.delayTimer) 2)
  else if lo = 0x000A then
    (List.range 16).foldlM (wait_key_step k state) c
  else if lo = 0x0015 then
    .ok (advance { c with delayTimer := c.V vx } 2)
  else if lo = 0x0018 then
    .ok (advance { c with soundTimer := c.V vx } 2)
  else if lo = 0x001E then
    .ok (advance { c with indexRegister := toUShort (c.indexRegister.val + (c.V vx).val) } 2)
  else if lo = 0x0029 then
    .ok (advance { c with indexRegister := toUShort (0x50 + (c.V vx).val * 5) } 2)
  else if lo = 0x0033 then do
    let c1 ← writeMemory c c.indexRegister.val (toUChar ((c.V vx).val / 100))
    let c2 ← writeMemory c1 (c1.indexRegister.val + 1) (toUChar (((c1.V vx).val / 10) % 10))
    let c3 ← writeMemory c2 (c2.indexRegister.val + 2) (toUChar ((c2.V vx).val % 10))
    pure (advance c3 2)
  else if lo = 0x0055 then do
    let c1 ← (List.range (vx + 1)).foldlM store_step c
    pure (advance c1 2)
  else if lo = 0x0065 then do
    let c1 ← (List.range (vx + 1)).foldlM load_step c
    pure (advance c1 2)
  else
    .ok c

/-- The function `execute_clock_cycle`: fetch the opcode at `pc`, store it in
`c->opcode`, and dispatch on its top nibble.  `k` gives the scancode constants,
`state` is the array returned by `SDL_GetKeyboardState`, and `rand` is the
value `rand()` returns if the instruction calls it. -/
def execute_clock_cycle (k : Scancodes) (state : Nat → UChar) (rand : Nat) (c0 : chip8) :
    Except Fault chip8 := do
  let w ← fetch c0
  let c := { c0 with opcode := toUShort w }
  let op := c.opcode.val
  let top := op &&& 0xF000
  if top = 0x0000 then
    case_0x0000 c
  else if top = 0x1000 then
    pure { c with pc := toUShort (op &&& 0x0FFF) }
  else if top = 0x2000 then do
    let c1 ← writeStack c c.stackPointer.val c.pc
    let c2 := { c1 with stackPointer := toUShort (c1.stackPointer.val + 1) }
    pure { c2 with pc := toUShort (op &&& 0x0FFF) }
  else if top = 0x3000 then
    if (c.V ((op &&& 0x0F00) >>> 8)).val = op &&& 0x00FF then pure (advance c 4)
    else pure (advance c 2)
  else if top = 0x4000 then
    if (c.V ((op &&& 0x0F00) >>> 8)).val ≠ op &&& 0x00FF then pure (advance c 4)
    else pure (advance c 2)
  else if top = 0x5000 then
    if c.V ((op &&& 0x0F00) >>> 8) = c.V ((op &&& 0x00F0) >>> 4) then pure (advance c 4)
    else pure (advance c 2)
  else if top = 0x6000 then
    pure (advance (setV c ((op &&& 0xF00) >>> 8) (toUChar (op &&& 0x00FF))) 2)
  else if top = 0x7000 then
    pure (advance (setV c ((op &&& 0x0F00) >>> 8)
      (toUChar ((c.V ((op &&& 0x0F00) >>> 8)).val + (op &&& 0x00FF)))) 2)
  else if top = 0x8000 then
    case_0x8000 c
  else if top = 0x9000 then
    if c.V ((op &&& 0x0F00) >>> 8) ≠ c.V ((op &&& 0x00F0) >>> 4) then pure (advance c 4)
    else pure (advance c 2)
  else if top = 0xA000 then
    pure (advance { c with indexRegister := toUShort (op &&& 0x0FFF) } 2)
  else if top = 0xB000 then
    pure { c with pc := toUShort ((op &&& 0x0FFF) + (c.V 0).val) }
  else if top = 0xC000 then
    let rndByte := toUChar (rand % 256)
    pure (advance (setV c ((op &&& 0x0F00) >>> 8) (toUChar (rndByte.val &&& (op &&& 0x00FF)))) 2)
  else if top = 0xD000 then
    case_0xD000 c
  else if top = 0xE000 then
    case_0xE000 k state c
  else if top = 0xF000 then
    case_0xF000 k state c
  else
    .error .exit_failure

/-! ## Accesses past `memory[]`

`struct chip8` declares `unsigned char memory[MEMSIZE]` and directly after it
`unsigned char display[DISPLAY]`.  Two arrays of `unsigned char` lie in the
struct without padding between them, so in the compiled program the byte
`memory[MEMSIZE + j]`, for `j < DISPLAY`, is the byte `display[j]`.  The
definitions of this section follow that layout for the fetch and for the
instructions `6xkk` and `Fx55`: they say what the compiled program does where
the checked accesses report `Fault.out_of_bounds`.  What lies past `display[]`
is not modelled. -/

/-- Read `c->memory[i]` through the layout: past `memory[]` lies `display[]`. -/
def readMemory_laid_out (c : chip8) (i : Nat) : Except Fault Nat :=
  if i < MEMSIZE then .ok (c.memory i).val
  else if i < MEMSIZE + DISPLAY then .ok (c.display (i - MEMSIZE)).val
  else .error .out_of_bounds

/-- Assign `c->memory[i] = v` through the layout: past `memory[]` lies
`display[]`. -/
def writeMemory_laid_out (c : chip8) (i : Nat) (v : UChar) : Except Fault chip8 :=
  if i < MEMSIZE then .ok { c with memory := Function.update c.memory i v }
  else if i < MEMSIZE + DISPLAY then
    .ok { c with display := Function.update c.display (i - MEMSIZE) v }
  else .error .out_of_bounds

/-- The fetch of line 152 through the layout. -/
def fetch_laid_out (c : chip8) : Except Fault Nat := do
  let hi ← readMemory_laid_out c c.pc.val
  let lo ← readMemory_laid_out c (c.pc.val + 1)
  pure ((hi <<< 8) ||| lo)

/-- Body of the loop of `Fx55` for one `idx`, through the layout. -/
def store_step_laid_out (c : chip8) (idx : Nat) : Except Fault chip8 :=
  writeMemory_laid_out c (c.indexRegister.val + idx) (c.V idx)

/-- The function `execute_clock_cycle` through the layout.  The fetch, the
case `6xkk` (lines 220-224) and the case `Fx55` (lines 471-479) read and write
`memory[]` through the layout; every other opcode is run by
`execute_clock_cycle`. -/
def execute_clock_cycle_laid_out (k : Scancodes) (state : Nat → UChar) (rand : Nat)
    (c0 : chip8) : Except Fault chip8 := do
  let w ← fetch_laid_out c0
  let c := { c0 with opcode := toUShort w }
  let op := c.opcode.val
  if op &&& 0xF000 = 0x6000 then
    pure (advance (setV c ((op &&& 0xF00) >>> 8) (toUChar (op &&& 0x00FF))) 2)
  else if op &&& 0xF000 = 0xF000 ∧ op &&& 0x00FF = 0x0055 then do
    let c1 ← (List.range (((op &&& 0x0F00) >>> 8) + 1)).foldlM store_step_laid_out c
    pure (advance c1 2)
  else
    execute_clock_cycle k state rand c0

/-- The driving loop through the layout: `n` calls of
`execute_clock_cycle_laid_out`, each on the state the one before returned. -/
def run_laid_out (k : Scancodes) (state : Nat → UChar) (rand : Nat) :
    Nat → chip8 → Except Fault chip8
  | 0, c => .ok c
  | n + 1, c => execute_clock_cycle_laid_out k state rand c >>= run_laid_out k state rand n

/-! ## `initialise_device` and `update_timers` -/

/-- The function `initialise_device`: zero the four arrays, reset the scalar
fields, and copy the font table to `memory + 0x50`. -/
def initialise_device (c : chip8) : chip8 :=
  { opcode := 0
    stackPointer := 0
    indexRegister := 0
    pc := toUShort 0x200
    delayTimer := 0
    soundTimer := 0
    memory := fun i =>
      if 0x50 ≤ i ∧ i < 0x50 + chip8_fontset.length then toUChar (chip8_fontset.getD (i - 0x50) 0)
      else if i < MEMSIZE then 0 else c.memory i
    display := fun i => if i < DISPLAY then 0 else c.display i
    V := fun i => if i < REGISTERS then 0 else c.V i
    stack := fun i => if i < STACKDEPTH then 0 else c.stack i
    shouldRender := false }

/-- The function `update_timers`: each timer is decremented when it is above
zero (the message printed while the sound timer is non-zero is not part of the
state). -/
def update_timers (c : chip8) : chip8 :=
  let c1 := if c.delayTimer.val > 0 then { c with delayTimer := intToUChar ((c.delayTimer.val : Int) - 1) } else c
  if c1.soundTimer.val > 0 then { c1 with soundTimer := intToUChar ((c1.soundTimer.val : Int) - 1) } else c1

/-! ## `load_rom`, the reachable states and the key test -/

/-- The state `c` with the bytes `bytes` stored at `memory[a], memory[a+1], ...`. -/
def place (c : chip8) (a : Nat) (bytes : List Nat) : chip8 :=
  { c with memory := fun i =>
      if a ≤ i ∧ i < a + bytes.length then toUChar (bytes.getD (i - a) 0) else c.memory i }

/-- The function `load_rom` for a file with the bytes `rom` (the `linux`
branch, which checks the size): the bytes are copied to `memory + OFFSET`, and
a file larger than `MEMSIZE - OFFSET` ends the process. -/
def load_rom (c : chip8) (rom : List Nat) : Except Fault chip8 :=
  if rom.length > MEMSIZE - OFFSET then .error .exit_failure
  else .ok (place c OFFSET rom)

/-- The states the driving loop of `main` reaches as long as no array is
indexed outside its declared size: `initialise_device` followed by `load_rom`,
then any sequence of `update_timers` calls and of `execute_clock_cycle` calls
that return with every array access inside its array.  The compiled program
also goes on after a cycle that indexes past an array; the states it reaches
that way are not members. -/
inductive ReachableInBounds : chip8 → Prop where
  | start (c0 : chip8) (rom : List Nat) (c : chip8) :
      load_rom (initialise_device c0) rom = .ok c → ReachableInBounds c
  | cycle (k : Scancodes) (state : Nat → UChar) (rand : Nat) (c t : chip8) :
      ReachableInBounds c → execute_clock_cycle k state rand c = .ok t → ReachableInBounds t
  | timers (c : chip8) : ReachableInBounds c → ReachableInBounds (update_timers c)

/-- The truth value of the test `state[key_mapping[i]]`: logical key `i` is down. -/
def is_key_down (k : Scancodes) (state : Nat → UChar) (i : Nat) : Bool :=
  match (key_mapping k)[i]? with
  | some s => decide ((state s).val ≠ 0)
  | none => false

/-! ## Predicates on opcodes and states -/

/-- The display holds only the values 0 and 1. -/
def display_binary (c : chip8) : Prop :=
  ∀ i, i < 2048 → (c.display i).val = 0 ∨ (c.display i).val = 1

/-- The fields `pc`, `stack`, `delayTimer` and `soundTimer` of `t` are those of `s`. -/
def same_control (s t : chip8) : Prop :=
  t.pc = s.pc ∧ t.stack = s.stack ∧ t.delayTimer = s.delayTimer ∧ t.soundTimer = s.soundTimer

/-- The fields `stack`, `delayTimer`, `soundTimer` and `display` of `t` are
those of `s`. -/
def same_frame (s t : chip8) : Prop :=
  t.stack = s.stack ∧ t.delayTimer = s.delayTimer ∧ t.soundTimer = s.soundTimer ∧
    t.display = s.display

/-- The opcodes the instruction table classes as jump (`1nnn`, `Bnnn`), call
(`2nnn`), return (`00EE`) or skip (`3xkk`, `4xkk`, `5xy0`, `9xy0`, `Ex9E`,
`ExA1`). -/
def jump_call_return_or_skip (w : Nat) : Prop :=
  w &&& 0xF000 = 0x1000 ∨ w &&& 0xF000 = 0xB000 ∨ w &&& 0xF000 = 0x2000 ∨ w = 0x00EE ∨
  w &&& 0xF000 = 0x3000 ∨ w &&& 0xF000 = 0x4000 ∨ w &&& 0xF00F = 0x5000 ∨
  w &&& 0xF00F = 0x9000 ∨ w &&& 0xF0FF = 0xE09E ∨ w &&& 0xF0FF = 0xE0A1

instance (w : Nat) : Decidable (jump_call_return_or_skip w) := by
  unfold jump_call_return_or_skip
  infer_instance

/-- The opcodes of the table forms `00E0`, `6xkk`, `7xkk`, `8xy0`..`8xy7`,
`8xyE`, `Annn`, `Cxkk`, `Dxyn`, `Fx07`, `Fx15`, `Fx18`, `Fx1E`, `Fx29`, `Fx33`,
`Fx55`, `Fx65`. -/
def plain_instruction (w : Nat) : Prop :=
  w = 0x00E0 ∨ w &&& 0xF000 = 0x6000 ∨ w &&& 0xF000 = 0x7000 ∨ w &&& 0xF000 = 0xA000 ∨
  w &&& 0xF000 = 0xC000 ∨ w &&& 0xF000 = 0xD000 ∨
  (w &&& 0xF000 = 0x8000 ∧ (w &&& 0x000F ≤ 7 ∨ w &&& 0x000F = 0xE)) ∨
  (w &&& 0xF000 = 0xF000 ∧
    (w &&& 0x00FF = 0x07 ∨ w &&& 0x00FF = 0x15 ∨ w &&& 0x00FF = 0x18 ∨ w &&& 0x00FF = 0x1E ∨
      w &&& 0x00FF = 0x29 ∨ w &&& 0x00FF = 0x33 ∨ w &&& 0x00FF = 0x55 ∨ w &&& 0x00FF = 0x65))

instance (w : Nat) : Decidable (plain_instruction w) := by
  unfold plain_instruction
  infer_instance

/-! ## Closed forms of the draw loops -/

/-- Closed form of the inner loop of `Dxyn` after the bits `xline < m` of the
sprite row `pixel`, drawn in display row `y + yline` from column `x`. -/
def row_drawn (x y yline pixel m : Nat) (s : chip8) : chip8 :=
  { s with
    display := fun i =>
      if ∃ b, b < m ∧ (pixel &&& (0x80 >>> b) ≠ 0 ∧ i = x + b + ((y + yline) * 64))
      then toUChar ((s.display i).val ^^^ 1) else s.display i
    V := fun j =>
      if j = 0xF ∧ ∃ b, b < m ∧ (pixel &&& (0x80 >>> b) ≠ 0 ∧
        (s.display (x + b + ((y + yline) * 64))).val ≠ 0)
      then toUChar 1 else s.V j }

/-- Closed form of the outer loop of `Dxyn` after the sprite rows
`yline < n`, read from `memory[I + yline]`. -/
def sprite_drawn (x y n : Nat) (s : chip8) : chip8 :=
  { s with
    display := fun i =>
      if ∃ r, r < n ∧ ∃ b, b < 8 ∧
        ((s.memory (s.indexRegister.val + r)).val &&& (0x80 >>> b) ≠ 0 ∧
          i = x + b + ((y + r) * 64))
      then toUChar ((s.display i).val ^^^ 1) else s.display i
    V := fun j =>
      if j = 0xF ∧ ∃ r, r < n ∧ ∃ b, b < 8 ∧
        ((s.memory (s.indexRegister.val + r)).val &&& (0x80 >>> b) ≠ 0 ∧
          (s.display (x + b + ((y + r) * 64))).val ≠ 0)
      then toUChar 1 else s.V j }

/-! ## Concrete states used to instantiate the theorems -/

/-- A state with every array and field zero and `pc = 0x200`. -/
def zero_state : chip8 :=
  { opcode := 0
    stackPointer := 0
    indexRegister := 0
    pc := toUShort 0x200
    delayTimer := 0
    soundTimer := 0
    memory := fun _ => 0
    display := fun _ => 0
    V := fun _ => 0
    stack := fun _ => 0
    shouldRender := false }

/-- A keyboard on which no key is down. -/
def no_keys : Nat → UChar := fun _ => 0

/-- A keyboard on which exactly the physical keys `X` and `1` (logical keys 0
and 1) are down, under the SDL2 scancodes. -/
def keys_X_and_1 : Nat → UChar := fun s => if s = 27 ∨ s = 30 then 1 else 0

/-- A keyboard on which exactly the physical key `X` (logical key 0) is down,
under the SDL2 scancodes. -/
def keys_X : Nat → UChar := fun s => if s = 27 then 1 else 0

/-- State for the C1 witness: `8014` at `0x200`, `V[0] = 200`, `V[1] = 100`. -/
def c1_state : chip8 :=
  setV (setV (place zero_state 0x200 [0x80, 0x14]) 0 (toUChar 200)) 1 (toUChar 100)

/-- State for the C2 witness: `8015` at `0x200`, `V[0] = 3`, `V[1] = 5`. -/
def c2_state : chip8 :=
  setV (setV (place zero_state 0x200 [0x80, 0x15]) 0 (toUChar 3)) 1 (toUChar 5)

/-- State for C5: `00E0` at `0x200`, display cell 0 lit, `shouldRender` false. -/
def c5_state : chip8 :=
  { place zero_state 0x200 [0x00, 0xE0] with display := fun i => if i = 0 then 1 else 0 }

/-- State for the `Fx0A` instances: `F00A` at `0x200`. -/
def c6_state : chip8 := place zero_state 0x200 [0xF0, 0x0A]

/-- State for the C8 witness: `F033` at `0x200`, `V[0] = 234`, `I = 0x300`. -/
def c8_state : chip8 :=
  { setV (place zero_state 0x200 [0xF0, 0x33]) 0 (toUChar 234) with
    indexRegister := toUShort 0x300 }

/-- State for the C9 witness: `F255` at `0x200`, `F265` at `0x202`,
`V[0..3] = 1, 2, 3, 9`, `I = 0x300`. -/
def c9_state : chip8 :=
  { setV (setV (setV (setV (place zero_state 0x200 [0xF2, 0x55, 0xF2, 0x65])
      0 (toUChar 1)) 1 (toUChar 2)) 2 (toUChar 3)) 3 (toUChar 9) with
    indexRegister := toUShort 0x300 }

/-- State for the C10 witness: the call `2300` at `0x200` and the return `00EE`
at `0x300`. -/
def c10_state : chip8 :=
  place (place zero_state 0x200 [0x23, 0x00]) 0x300 [0x00, 0xEE]

/-- State for the `Dxyn` witnesses: `D012` at `0x200`, `V[0] = 3`, `V[1] = 2`,
`I = 0x300`, sprite rows `0xC0`, `0x80` at `0x300`, display cell 131 lit. -/
def draw_state : chip8 :=
  { setV (setV (place (place zero_state 0x200 [0xD0, 0x12]) 0x300 [0xC0, 0x80])
      0 (toUChar 3)) 1 (toUChar 2) with
    indexRegister := toUShort 0x300
    display := fun i => if i = 131 then 1 else 0 }

/-- State for the C17 witness: `F029` at `0x200` in the initial state, with
`V[0] = 0xA`. -/
def c17_state : chip8 :=
  setV (place (initialise_device zero_state) 0x200 [0xF0, 0x29]) 0 (toUChar 0xA)

/-- State for the C18 witness: `E09E` at `0x200`, `V[0] = 0`. -/
def c18_state_9E : chip8 := place zero_state 0x200 [0xE0, 0x9E]

/-- State for the C18 witness: `E0A1` at `0x200`, `V[0] = 0`. -/
def c18_state_A1 : chip8 := place zero_state 0x200 [0xE0, 0xA1]

/-- State for the C20 witness: `F015` at `0x200`, `V[0] = 7`, `delayTimer = 3`,
`soundTimer = 5`. -/
def c20_state : chip8 :=
  { setV (place zero_state 0x200 [0xF0, 0x15]) 0 (toUChar 7) with
    delayTimer := toUChar 3
    soundTimer := toUChar 5 }

/-- State for the C21 witness: `80F5` at `0x200`, `V[0] = 7`, `V[0xF] = 3`. -/
def c21_state : chip8 :=
  setV (setV (place zero_state 0x200 [0x80, 0xF5]) 0 (toUChar 7)) 0xF (toUChar 3)

/-- The program `AF FF 61 09 F1 55`: set `I = 0xFFF` and `V[1] = 9`, then
store `V[0..1]` at `memory[I..I+1]`. -/
def store_past_memory_rom : List Nat := [0xAF, 0xFF, 0x61, 0x09, 0xF1, 0x55]

/-- The program `AF FF 60 FF F0 1E 60 60 61 00 F1 55 60 FF BF FF`: set
`I = 0xFFF + 0xFF`, store the bytes `60 00` at `memory[I..I+1]`, then jump to
`0xFFF + 0xFF`. -/
def run_past_memory_rom : List Nat :=
  [0xAF, 0xFF, 0x60, 0xFF, 0xF0, 0x1E, 0x60, 0x60, 0x61, 0x00, 0xF1, 0x55, 0x60, 0xFF, 0xBF, 0xFF]

/-! ## Decoding lemmas -/

theorem toUShort_val_of_lt {n : Nat} (h : n < 65536) : (toUShort n).val = n := by
  simp [toUShort, Nat.mod_eq_of_lt h]

theorem toUChar_val (n : Nat) : (toUChar n).val = n % 256 := rfl

theorem fetch_lt {c : chip8} {w : Nat} (h : fetch c = .ok w) : w < 65536 := by
  unfold fetch readMemory at h
  by_cases h1 : c.pc.val < MEMSIZE <;> by_cases h2 : c.pc.val + 1 < MEMSIZE <;>
    simp [h1, h2, bind, Except.bind, pure, Except.pure] at h
  subst h
  have a := (c.memory c.pc.val).isLt
  have b := (c.memory (c.pc.val + 1)).isLt
  have : (c.memory c.pc.val).val <<< 8 < 2 ^ 16 := by
    rw [Nat.shiftLeft_eq]; omega
  exact Nat.or_lt_two_pow this (by omega)

theorem fetch_pc {c : chip8} {w : Nat} (h : fetch c = .ok w) : c.pc.val + 1 < 4096 := by
  unfold fetch readMemory at h
  by_cases h2 : c.pc.val + 1 < MEMSIZE
  · exact h2
  · by_cases h1 : c.pc.val < MEMSIZE <;>
      simp [h1, h2, bind, Except.bind, pure, Except.pure] at h

theorem nibbles_8 : ∀ x < 16, ∀ y < 16, ∀ n < 16,
    (0x8000 + 0x100 * x + 0x10 * y + n) &&& 0xF000 = 0x8000 ∧
    ((0x8000 + 0x100 * x + 0x10 * y + n) &&& 0x0F00) >>> 8 = x ∧
    ((0x8000 + 0x100 * x + 0x10 * y + n) &&& 0x00F0) >>> 4 = y ∧
    (0x8000 + 0x100 * x + 0x10 * y + n) &&& 0x000F = n := by
  decide

theorem execute_8 (k : Scancodes) (state : Nat → UChar) (rand : Nat) (c : chip8) (w : Nat)
    (h : fetch c = .ok w) (hw : w &&& 0xF000 = 0x8000) :
    execute_clock_cycle k state rand c = case_0x8000 { c with opcode := toUShort w } := by
  have hlt := fetch_lt h
  simp [execute_clock_cycle, h, bind, Except.bind, toUShort_val_of_lt hlt, hw]

theorem and_255 (m : Nat) : m &&& 255 = m % 256 := Nat.and_pow_two_sub_one_eq_mod m 8

/-! ## `8xy4` and `8xy5` -/

/-- Closed form of the `8xy4` case. -/
theorem case_8xy4 (c : chip8) (hn : c.opcode.val &&& 0x000F = 4) :
    case_0x8000 c = .ok (advance (setV
      (setV c 0xF (toUChar (if (c.V ((c.opcode.val &&& 0x0F00) >>> 8)).val +
        (c.V ((c.opcode.val &&& 0x00F0) >>> 4)).val > 255 then 1 else 0)))
      ((c.opcode.val &&& 0x0F00) >>> 8)
      (toUChar ((c.V ((c.opcode.val &&& 0x0F00) >>> 8)).val +
        (c.V ((c.opcode.val &&& 0x00F0) >>> 4)).val))) 2) := by
  simp only [case_0x8000, hn]
  split_ifs <;> simp_all [toUChar, and_255]

/-- Closed form of the `8xy5` case. -/
theorem case_8xy5 (c : chip8) (hn : c.opcode.val &&& 0x000F = 5) :
    case_0x8000 c = .ok (advance (setV
      (setV c 0xF (toUChar (if (c.V ((c.opcode.val &&& 0x0F00) >>> 8)).val >
        (c.V ((c.opcode.val &&& 0x00F0) >>> 4)).val then 1 else 0)))
      ((c.opcode.val &&& 0x0F00) >>> 8)
      (intToUChar
        ((((setV c 0xF (toUChar (if (c.V ((c.opcode.val &&& 0x0F00) >>> 8)).val >
          (c.V ((c.opcode.val &&& 0x00F0) >>> 4)).val then 1 else 0))).V
            ((c.opcode.val &&& 0x0F00) >>> 8)).val : Int) -
         (((setV c 0xF (toUChar (if (c.V ((c.opcode.val &&& 0x0F00) >>> 8)).val >
          (c.V ((c.opcode.val &&& 0x00F0) >>> 4)).val then 1 else 0))).V
            ((c.opcode.val &&& 0x00F0) >>> 4)).val : Int)))) 2) := by
  simp only [case_0x8000, hn]
  split_ifs <;> simp_all

/-- C1. When the fetched opcode is `8xy4` with `x ≠ 0xF` (a successful fetch
already forces `pc ≤ 4094`), one `execute_clock_cycle` returns a state in which
`V[x]` is the sum of the old `V[x]` and `V[y]` modulo 256, `V[0xF]` is 1 exactly
when that sum exceeds 255, every other register is unchanged, and `pc` is the
old `pc` plus 2. -/
theorem C1_add_with_carry (k : Scancodes) (state : Nat → UChar) (rand : Nat) (c : chip8)
    (x y : Nat) (hx : x < 16) (hy : y < 16) (hxF : x ≠ 0xF)
    (hop : fetch c = .ok (0x8004 + 0x100 * x + 0x10 * y)) :
    ∃ c1, execute_clock_cycle k state rand c = .ok c1 ∧
      (c1.V x).val = ((c.V x).val + (c.V y).val) % 256 ∧
      (c1.V 0xF).val = (if (c.V x).val + (c.V y).val > 255 then 1 else 0) ∧
      (∀ i, i ≠ x → i ≠ 0xF → c1.V i = c.V i) ∧
      c1.pc.val = c.pc.val + 2 := by
  have hn := nibbles_8 x hx y hy 4 (by decide)
  have hw : 0x8004 + 0x100 * x + 0x10 * y = 0x8000 + 0x100 * x + 0x10 * y + 4 := by omega
  rw [hw] at hop
  have hlt := fetch_lt hop
  have hpc := fetch_pc hop
  have hFx : (15 : Nat) ≠ x := fun h => hxF h.symm
  rw [execute_8 k state rand c _ hop hn.1,
    case_8xy4 _ (by simpa [toUShort_val_of_lt hlt] using hn.2.2.2)]
  simp only [toUShort_val_of_lt hlt, hn.2.1, hn.2.2.1]
  refine ⟨_, rfl, ?_, ?_, ?_, ?_⟩
  · simp [advance, setV, toUChar_val]
  · simp [advance, setV, toUChar_val, Function.update_noteq hFx]
    split_ifs <;> decide
  · intro i hi hiF
    simp [advance, setV, Function.update_noteq hi, Function.update_noteq hiF]
  · simp [advance, toUShort, setV]
    omega

/-- Witness for C1: `200 + 100` leaves `V[0] = 44` with the carry set. -/
theorem C1_add_with_carry_witness :
    fetch c1_state = .ok (0x8004 + 0x100 * 0 + 0x10 * 1) ∧
    ∃ c1, execute_clock_cycle sdl2 no_keys 0 c1_state = .ok c1 ∧
      (c1.V 0).val = ((c1_state.V 0).val + (c1_state.V 1).val) % 256 ∧
      (c1.V 0xF).val = (if (c1_state.V 0).val + (c1_state.V 1).val > 255 then 1 else 0) ∧
      (∀ i, i ≠ 0 → i ≠ 0xF → c1.V i = c1_state.V i) ∧
      c1.pc.val = c1_state.pc.val + 2 :=
  ⟨rfl, C1_add_with_carry sdl2 no_keys 0 c1_state 0 1 (by decide) (by decide) (by decide) rfl⟩

/-- C2. When the fetched opcode is `8xy5` with `x ≠ 0xF` and `y ≠ 0xF`, one
`execute_clock_cycle` returns a state in which `V[x]` is the old `V[x] - V[y]`
reduced modulo 256 into `0..255`, `V[0xF]` is 1 exactly when the old `V[x]` was
greater than the old `V[y]` (0 when they are equal), and `pc` is the old `pc`
plus 2; with `V[x] = 3` and `V[y] = 5` the result is `V[x] = 254`, `V[0xF] = 0`. -/
theorem C2_sub_with_borrow (k : Scancodes) (state : Nat → UChar) (rand : Nat) (c : chip8)
    (x y : Nat) (hx : x < 16) (hy : y < 16) (hxF : x ≠ 0xF) (hyF : y ≠ 0xF)
    (hop : fetch c = .ok (0x8005 + 0x100 * x + 0x10 * y)) :
    ∃ c1, execute_clock_cycle k state rand c = .ok c1 ∧
      ((c1.V x).val : Int) = (((c.V x).val : Int) - ((c.V y).val : Int)) % 256 ∧
      (c1.V x).val ≤ 255 ∧
      (c1.V 0xF).val = (if (c.V x).val > (c.V y).val then 1 else 0) ∧
      ((c.V x).val = (c.V y).val → (c1.V 0xF).val = 0) ∧
      c1.pc.val = c.pc.val + 2 ∧
      ((c.V x).val = 3 → (c.V y).val = 5 → (c1.V x).val = 254 ∧ (c1.V 0xF).val = 0) := by
  have hn := nibbles_8 x hx y hy 5 (by decide)
  have hw : 0x8005 + 0x100 * x + 0x10 * y = 0x8000 + 0x100 * x + 0x10 * y + 5 := by omega
  rw [hw] at hop
  have hlt := fetch_lt hop
  have hpc := fetch_pc hop
  have hFx : (15 : Nat) ≠ x := fun h => hxF h.symm
  have hFy : (15 : Nat) ≠ y := fun h => hyF h.symm
  rw [execute_8 k state rand c _ hop hn.1,
    case_8xy5 _ (by simpa [toUShort_val_of_lt hlt] using hn.2.2.2)]
  simp only [toUShort_val_of_lt hlt, hn.2.1, hn.2.2.1]
  have hvx := (c.V x).isLt
  have hvy := (c.V y).isLt
  have key : ((advance (setV (setV { c with opcode := toUShort (0x8000 + 0x100 * x + 0x10 * y + 5) }
      0xF (toUChar (if (c.V x).val > (c.V y).val then 1 else 0))) x
      (intToUChar (((c.V x).val : Int) - ((c.V y).val : Int)))) 2).V x).val
      = ((((c.V x).val : Int) - ((c.V y).val : Int)) % 256).toNat := by
    simp [advance, setV, intToUChar]
    omega
  have flag : ((advance (setV (setV { c with opcode := toUShort (0x8000 + 0x100 * x + 0x10 * y + 5) }
      0xF (toUChar (if (c.V x).val > (c.V y).val then 1 else 0))) x
      (intToUChar (((c.V x).val : Int) - ((c.V y).val : Int)))) 2).V 0xF).val
      = (if (c.V x).val > (c.V y).val then 1 else 0) := by
    simp [advance, setV, toUChar_val, Function.update_noteq hFx]
    split_ifs <;> decide
  simp only [setV, Function.update_noteq hxF, Function.update_noteq hyF] at key flag ⊢
  refine ⟨_, rfl, ?_, ?_, ?_, ?_, ?_, ?_⟩
  · rw [key]; omega
  · omega
  · exact flag
  · intro h; rw [flag, h]; simp
  · simp [advance, toUShort]
    omega
  · intro h3 h5
    rw [key, flag, h3, h5]
    decide

/-- Witness for C2: `3 - 5` leaves `V[0] = 254` with `V[0xF] = 0`. -/
theorem C2_sub_with_borrow_witness :
    fetch c2_state = .ok (0x8005 + 0x100 * 0 + 0x10 * 1) ∧
    ∃ c1, execute_clock_cycle sdl2 no_keys 0 c2_state = .ok c1 ∧
      ((c1.V 0).val : Int) = (((c2_state.V 0).val : Int) - ((c2_state.V 1).val : Int)) % 256 ∧
      (c1.V 0).val ≤ 255 ∧
      (c1.V 0xF).val = (if (c2_state.V 0).val > (c2_state.V 1).val then 1 else 0) ∧
      ((c2_state.V 0).val = (c2_state.V 1).val → (c1.V 0xF).val = 0) ∧
      c1.pc.val = c2_state.pc.val + 2 ∧
      ((c2_state.V 0).val = 3 → (c2_state.V 1).val = 5 →
        (c1.V 0).val = 254 ∧ (c1.V 0xF).val = 0) :=
  ⟨rfl, C2_sub_with_borrow sdl2 no_keys 0 c2_state 0 1 (by decide) (by decide) (by decide)
    (by decide) rfl⟩

/-! ## `Dxyn` -/

theorem row_drawn_zero (x y yline pixel : Nat) (s : chip8) :
    row_drawn x y yline pixel 0 s = s := by
  simp [row_drawn]

theorem exists_lt_succ_iff (P : Nat → Prop) (m : Nat) :
    (∃ b, b < m + 1 ∧ P b) ↔ (∃ b, b < m ∧ P b) ∨ P m := by
  constructor
  · rintro ⟨b, hb, h⟩
    by_cases e : b = m
    · exact Or.inr (e ▸ h)
    · exact Or.inl ⟨b, by omega, h⟩
  · rintro (⟨b, hb, h⟩ | h)
    · exact ⟨b, by omega, h⟩
    · exact ⟨m, by omega, h⟩

theorem draw_pixel_step (x y yline pixel m : Nat) (s : chip8)
    (hb : x + m + ((y + yline) * 64) < 2048) :
    draw_pixel x y yline pixel (row_drawn x y yline pixel m s) m
      = .ok (row_drawn x y yline pixel (m + 1) s) := by
  have hd : x + m + ((y + yline) * 64) < DISPLAY := hb
  have hfresh : ¬ ∃ b, b < m ∧ (pixel &&& (0x80 >>> b) ≠ 0 ∧
      x + m + ((y + yline) * 64) = x + b + ((y + yline) * 64)) := by
    rintro ⟨b, hbm, -, e⟩
    omega
  have hcur : (row_drawn x y yline pixel m s).display (x + m + ((y + yline) * 64))
      = s.display (x + m + ((y + yline) * 64)) := by
    simp only [row_drawn]
    rw [if_neg hfresh]
  by_cases hp : pixel &&& (0x80 >>> m) ≠ 0
  · simp only [draw_pixel, if_pos hp, readDisplay, hd, if_true, bind, Except.bind, writeDisplay]
    by_cases hz : (s.display (x + m + ((y + yline) * 64))).val ≠ 0
    · simp only [hcur, if_pos hz, setV]
      simp only [row_drawn, exists_lt_succ_iff]
      congr 2
      · funext i
        by_cases hi : i = x + m + ((y + yline) * 64)
        · subst hi
          simp [hp, hfresh]
        · rw [Function.update_noteq hi]
          simp [hi]
      · funext j
        by_cases hj : j = 15
        · subst hj
          simp [hp, hz]
        · rw [Function.update_noteq hj]
          simp [hj]
    · simp only [hcur, if_neg hz]
      simp only [row_drawn, exists_lt_succ_iff]
      congr 2
      · funext i
        by_cases hi : i = x + m + ((y + yline) * 64)
        · subst hi
          simp [hp, hfresh]
        · rw [Function.update_noteq hi]
          simp [hi]
      · funext j
        simp [hz]
  · simp only [draw_pixel, if_neg hp]
    simp only [row_drawn, exists_lt_succ_iff]
    congr 2
    · funext i
      simp [hp]
    · funext j
      simp [hp]

/-- The inner loop of `Dxyn` over `xline < m` produces `row_drawn`. -/
theorem draw_row_loop (x y yline pixel : Nat) (s : chip8) :
    ∀ m, (∀ b, b < m → x + b + ((y + yline) * 64) < 2048) →
      (List.range m).foldlM (draw_pixel x y yline pixel) s
        = .ok (row_drawn x y yline pixel m s)
  | 0, _ => by
    rw [row_drawn_zero]
    rfl
  | m + 1, h => by
    rw [List.range_succ, List.foldlM_append,
      draw_row_loop x y yline pixel s m (fun b hb => h b (by omega))]
    simp only [bind, Except.bind, List.foldlM_cons, List.foldlM_nil,
      draw_pixel_step x y yline pixel m s (h m (by omega)), pure, Except.pure]

theorem sprite_drawn_zero (x y : Nat) (s : chip8) : sprite_drawn x y 0 s = s := by
  simp [sprite_drawn]

theorem draw_row_step (x y n : Nat) (s : chip8)
    (hI : s.indexRegister.val + n < 4096)
    (hb : ∀ b, b < 8 → x + b + ((y + n) * 64) < 2048) :
    draw_row x y (sprite_drawn x y n s) n = .ok (sprite_drawn x y (n + 1) s) := by
  have hm : (sprite_drawn x y n s).indexRegister.val + n < MEMSIZE := hI
  have hfresh : ∀ b, b < 8 → ¬ ∃ r, r < n ∧ ∃ b', b' < 8 ∧
      ((s.memory (s.indexRegister.val + r)).val &&& (0x80 >>> b') ≠ 0 ∧
        x + b + ((y + n) * 64) = x + b' + ((y + r) * 64)) := by
    rintro b hb8 ⟨r, hr, b', hb', -, e⟩
    omega
  simp only [draw_row, readMemory, hm, if_true, bind, Except.bind]
  rw [draw_row_loop x y n _ _ 8 hb]
  show Except.ok (row_drawn x y n (s.memory (s.indexRegister.val + n)).val 8
    (sprite_drawn x y n s)) = _
  simp only [row_drawn, sprite_drawn, exists_lt_succ_iff _ n]
  congr 2
  · funext i
    by_cases hA : ∃ b, b < 8 ∧ ((s.memory (s.indexRegister.val + n)).val &&& (0x80 >>> b) ≠ 0 ∧
        i = x + b + ((y + n) * 64))
    · obtain ⟨b, hb8, hbit, rfl⟩ := hA
      have hA' : ∃ b', b' < 8 ∧ ((s.memory (s.indexRegister.val + n)).val &&& (0x80 >>> b') ≠ 0 ∧
          x + b + ((y + n) * 64) = x + b' + ((y + n) * 64)) := ⟨b, hb8, hbit, rfl⟩
      rw [if_pos hA', if_neg (hfresh b hb8), if_pos (Or.inr hA')]
    · rw [if_neg hA]
      by_cases hB : ∃ r, r < n ∧ ∃ b, b < 8 ∧
          ((s.memory (s.indexRegister.val + r)).val &&& (0x80 >>> b) ≠ 0 ∧
            i = x + b + ((y + r) * 64))
      · rw [if_pos hB, if_pos (Or.inl hB)]
      · rw [if_neg hB, if_neg (by rintro (h | h); exact hB h; exact hA h)]
  · funext j
    have hsame : ∀ b, b < 8 →
        (if ∃ r, r < n ∧ ∃ b', b' < 8 ∧
          ((s.memory (s.indexRegister.val + r)).val &&& (0x80 >>> b') ≠ 0 ∧
            x + b + ((y + n) * 64) = x + b' + ((y + r) * 64))
        then toUChar ((s.display (x + b + ((y + n) * 64))).val ^^^ 1)
        else s.display (x + b + ((y + n) * 64))) = s.display (x + b + ((y + n) * 64)) :=
      fun b hb8 => if_neg (hfresh b hb8)
    by_cases hj : j = 15
    · subst hj
      by_cases hA : ∃ b, b < 8 ∧ ((s.memory (s.indexRegister.val + n)).val &&& (0x80 >>> b) ≠ 0 ∧
          (s.display (x + b + ((y + n) * 64))).val ≠ 0)
      · obtain ⟨b, hb8, hbit, hlit⟩ := hA
        rw [if_pos ⟨rfl, b, hb8, hbit, by rw [hsame b hb8]; exact hlit⟩,
          if_pos ⟨rfl, Or.inr ⟨b, hb8, hbit, hlit⟩⟩]
      · rw [if_neg (by
          rintro ⟨-, b, hb8, hbit, hlit⟩
          rw [hsame b hb8] at hlit
          exact hA ⟨b, hb8, hbit, hlit⟩)]
        by_cases hB : ∃ r, r < n ∧ ∃ b, b < 8 ∧
            ((s.memory (s.indexRegister.val + r)).val &&& (0x80 >>> b) ≠ 0 ∧
              (s.display (x + b + ((y + r) * 64))).val ≠ 0)
        · rw [if_pos ⟨rfl, hB⟩, if_pos ⟨rfl, Or.inl hB⟩]
        · rw [if_neg (by rintro ⟨-, h⟩; exact hB h),
            if_neg (by rintro ⟨-, h | h⟩; exact hB h; exact hA h)]
    · rw [if_neg (by rintro ⟨h, -⟩; exact hj h), if_neg (by rintro ⟨h, -⟩; exact hj h),
        if_neg (by rintro ⟨h, -⟩; exact hj h)]

/-- The outer loop of `Dxyn` over `yline < n` produces `sprite_drawn`. -/
theorem draw_sprite_loop (x y : Nat) (s : chip8) :
    ∀ n, s.indexRegister.val + n ≤ 4096 →
      (∀ r, r < n → ∀ b, b < 8 → x + b + ((y + r) * 64) < 2048) →
      (List.range n).foldlM (draw_row x y) s = .ok (sprite_drawn x y n s)
  | 0, _, _ => by
    rw [sprite_drawn_zero]
    rfl
  | n + 1, hI, h => by
    rw [List.range_succ, List.foldlM_append,
      draw_sprite_loop x y s n (by omega) (fun r hr => h r (by omega))]
    simp only [bind, Except.bind, List.foldlM_cons, List.foldlM_nil,
      draw_row_step x y n s (by omega) (h n (by omega)), pure, Except.pure]

theorem nibbles_D : ∀ x < 16, ∀ y < 16, ∀ n < 16,
    (0xD000 + 0x100 * x + 0x10 * y + n) &&& 0xF000 = 0xD000 ∧
    ((0xD000 + 0x100 * x + 0x10 * y + n) &&& 0x0F00) >>> 8 = x ∧
    ((0xD000 + 0x100 * x + 0x10 * y + n) &&& 0x00F0) >>> 4 = y ∧
    (0xD000 + 0x100 * x + 0x10 * y + n) &&& 0x000F = n := by
  decide

set_option maxRecDepth 20000 in
/-- The test `pixel & (0x80 >> xline)` of the draw loop reads bit `7 - xline`
of the sprite byte. -/
theorem sprite_bit_iff : ∀ p < 256, ∀ b < 8,
    (p &&& (0x80 >>> b) ≠ 0 ↔ p.testBit (7 - b) = true) := by
  decide

theorem xor_one_val (d : UChar) : (toUChar (d.val ^^^ 1)).val = d.val ^^^ 1 := by
  rw [toUChar_val]
  exact Nat.mod_eq_of_lt (Nat.xor_lt_two_pow (n := 8) d.isLt (by decide))

/-- Closed form of one cycle whose fetched opcode is `Dxyn`, when the sprite
rows lie inside memory and every addressed display index is below 2048. -/
theorem execute_Dxyn (k : Scancodes) (state : Nat → UChar) (rand : Nat) (c : chip8)
    (x y n : Nat) (hx : x < 16) (hy : y < 16) (hn : n < 16)
    (hop : fetch c = .ok (0xD000 + 0x100 * x + 0x10 * y + n))
    (hI : c.indexRegister.val + n ≤ 4096)
    (hidx : ∀ r, r < n → ∀ b, b < 8 → (c.V x).val + b + (((c.V y).val + r) * 64) < 2048) :
    execute_clock_cycle k state rand c = .ok (advance
      { sprite_drawn (c.V x).val (c.V y).val n
          (setV { c with opcode := toUShort (0xD000 + 0x100 * x + 0x10 * y + n) } 0xF (toUChar 0))
        with shouldRender := true } 2) := by
  have hd := nibbles_D x hx y hy n hn
  have hlt := fetch_lt hop
  have hloop := draw_sprite_loop (c.V x).val (c.V y).val
    (setV { c with opcode := toUShort (0xD000 + 0x100 * x + 0x10 * y + n) } 0xF (toUChar 0))
    n hI hidx
  simp only [execute_clock_cycle, hop, bind, Except.bind, toUShort_val_of_lt hlt, hd.1,
    case_0xD000, hd.2.1, hd.2.2.1, hd.2.2.2]
  simp only [show (0xD000 : Nat) = 53248 from rfl, show (0x100 : Nat) = 256 from rfl,
    show (0x10 : Nat) = 16 from rfl] at hloop
  simp [hloop, pure, Except.pure]

/-- C4. When the fetched opcode is `Dxyn`, `I + n ≤ 4096` and every addressed
index `V[x] + b + (V[y] + r) * 64` (`r < n`, `b < 8`) is below 2048, one
`execute_clock_cycle` returns a state in which display cell `i` is its old
value XOR 1 when `i` is such an index with bit `7 - b` of `memory[I + r]` set,
and is unchanged otherwise; `shouldRender` is true, `pc` is the old `pc` plus 2,
and memory and `I` are unchanged. -/
theorem C4_draw_xors_sprite (k : Scancodes) (state : Nat → UChar) (rand : Nat) (c : chip8)
    (x y n : Nat) (hx : x < 16) (hy : y < 16) (hn : n < 16)
    (hop : fetch c = .ok (0xD000 + 0x100 * x + 0x10 * y + n))
    (hI : c.indexRegister.val + n ≤ 4096)
    (hidx : ∀ r, r < n → ∀ b, b < 8 → (c.V x).val + b + (((c.V y).val + r) * 64) < 2048) :
    ∃ c1, execute_clock_cycle k state rand c = .ok c1 ∧
      (∀ i, (∃ r, r < n ∧ ∃ b, b < 8 ∧
          ((c.memory (c.indexRegister.val + r)).val.testBit (7 - b) = true ∧
            i = (c.V x).val + b + (((c.V y).val + r) * 64)) ) →
        (c1.display i).val = (c.display i).val ^^^ 1) ∧
      (∀ i, (¬ ∃ r, r < n ∧ ∃ b, b < 8 ∧
          ((c.memory (c.indexRegister.val + r)).val.testBit (7 - b) = true ∧
            i = (c.V x).val + b + (((c.V y).val + r) * 64)) ) →
        c1.display i = c.display i) ∧
      c1.shouldRender = true ∧ c1.pc.val = c.pc.val + 2 ∧
      c1.memory = c.memory ∧ c1.indexRegister = c.indexRegister := by
  have hpc := fetch_pc hop
  rw [execute_Dxyn k state rand c x y n hx hy hn hop hI hidx]
  refine ⟨_, rfl, ?_, ?_, rfl, ?_, rfl, rfl⟩
  · rintro i ⟨r, hr, b, hb, hbit, hi⟩
    have hcode := (sprite_bit_iff _ (c.memory (c.indexRegister.val + r)).isLt b hb).mpr hbit
    simp only [advance, sprite_drawn, setV]
    rw [if_pos ⟨r, hr, b, hb, hcode, hi⟩]
    exact xor_one_val _
  · intro i hno
    simp only [advance, sprite_drawn, setV]
    rw [if_neg]
    rintro ⟨r, hr, b, hb, hcode, hi⟩
    exact hno ⟨r, hr, b, hb,
      (sprite_bit_iff _ (c.memory (c.indexRegister.val + r)).isLt b hb).mp hcode, hi⟩
  · simp [advance, sprite_drawn, setV, toUShort]
    omega

/-- C3. When the fetched opcode is `Dxyn`, `I + n ≤ 4096`, every addressed
index is below 2048 and every display cell holds 0 or 1, one
`execute_clock_cycle` returns a state in which `V[0xF] = 1` if and only if for
some `r < n` and `b < 8` bit `7 - b` of `memory[I + r]` is set and the display
cell at `V[x] + b + (V[y] + r) * 64` was 1 before the cycle; otherwise
`V[0xF] = 0`. -/
theorem C3_draw_collision_flag (k : Scancodes) (state : Nat → UChar) (rand : Nat) (c : chip8)
    (x y n : Nat) (hx : x < 16) (hy : y < 16) (hn : n < 16)
    (hop : fetch c = .ok (0xD000 + 0x100 * x + 0x10 * y + n))
    (hI : c.indexRegister.val + n ≤ 4096)
    (hidx : ∀ r, r < n → ∀ b, b < 8 → (c.V x).val + b + (((c.V y).val + r) * 64) < 2048)
    (hcells : ∀ i, i < 2048 → (c.display i).val = 0 ∨ (c.display i).val = 1) :
    ∃ c1, execute_clock_cycle k state rand c = .ok c1 ∧
      ((c1.V 0xF).val = 1 ↔ ∃ r, r < n ∧ ∃ b, b < 8 ∧
          ((c.memory (c.indexRegister.val + r)).val.testBit (7 - b) = true ∧
            (c.display ((c.V x).val + b + (((c.V y).val + r) * 64))).val = 1)) ∧
      ((¬ ∃ r, r < n ∧ ∃ b, b < 8 ∧
          ((c.memory (c.indexRegister.val + r)).val.testBit (7 - b) = true ∧
            (c.display ((c.V x).val + b + (((c.V y).val + r) * 64))).val = 1)) →
        (c1.V 0xF).val = 0) := by
  rw [execute_Dxyn k state rand c x y n hx hy hn hop hI hidx]
  have hiff : (∃ r, r < n ∧ ∃ b, b < 8 ∧
        ((c.memory (c.indexRegister.val + r)).val &&& (0x80 >>> b) ≠ 0 ∧
          (c.display ((c.V x).val + b + (((c.V y).val + r) * 64))).val ≠ 0)) ↔
      ∃ r, r < n ∧ ∃ b, b < 8 ∧
        ((c.memory (c.indexRegister.val + r)).val.testBit (7 - b) = true ∧
          (c.display ((c.V x).val + b + (((c.V y).val + r) * 64))).val = 1) := by
    constructor
    · rintro ⟨r, hr, b, hb, hcode, hlit⟩
      refine ⟨r, hr, b, hb,
        (sprite_bit_iff _ (c.memory (c.indexRegister.val + r)).isLt b hb).mp hcode, ?_⟩
      rcases hcells _ (hidx r hr b hb) with h0 | h1
      · exact absurd h0 hlit
      · exact h1
    · rintro ⟨r, hr, b, hb, hbit, hlit⟩
      refine ⟨r, hr, b, hb,
        (sprite_bit_iff _ (c.memory (c.indexRegister.val + r)).isLt b hb).mpr hbit, ?_⟩
      rw [hlit]
      decide
  refine ⟨_, rfl, ?_, ?_⟩
  · simp only [advance, sprite_drawn, setV]
    constructor
    · intro h1
      by_contra hno
      rw [if_neg (by rintro ⟨-, h⟩; exact hno (hiff.mp h))] at h1
      simp [toUChar] at h1
    · intro h
      rw [if_pos ⟨trivial, hiff.mpr h⟩]
      rfl
  · intro hno
    simp only [advance, sprite_drawn, setV]
    rw [if_neg (by rintro ⟨-, h⟩; exact hno (hiff.mp h))]
    simp [toUChar]

theorem draw_state_in_bounds :
    ∀ r, r < 2 → ∀ b, b < 8 →
      (draw_state.V 0).val + b + (((draw_state.V 1).val + r) * 64) < 2048 := by
  intro r hr b hb
  have h0 : (draw_state.V 0).val = 3 := by decide
  have h1 : (draw_state.V 1).val = 2 := by decide
  rw [h0, h1]
  omega

theorem draw_state_cells :
    ∀ i, i < 2048 → (draw_state.display i).val = 0 ∨ (draw_state.display i).val = 1 := by
  intro i _
  by_cases h : i = 131
  · right
    simp [draw_state, h]
  · left
    simp [draw_state, h]

/-- Witness for C4: the sprite `C0 80` drawn at column 3, row 2 turns the lit
cell 131 off, turns cells 132 and 195 on, and leaves cell 133 as it was. -/
theorem C4_draw_xors_sprite_witness :
    fetch draw_state = .ok (0xD000 + 0x100 * 0 + 0x10 * 1 + 2) ∧
    draw_state.indexRegister.val + 2 ≤ 4096 ∧
    ∃ c1, execute_clock_cycle sdl2 no_keys 0 draw_state = .ok c1 ∧
      (c1.display 131).val = 0 ∧ (c1.display 132).val = 1 ∧ (c1.display 195).val = 1 ∧
      c1.display 133 = draw_state.display 133 ∧
      c1.shouldRender = true ∧ c1.pc.val = draw_state.pc.val + 2 := by
  refine ⟨rfl, by decide, ?_⟩
  obtain ⟨c1, h, hhit, hmiss, hr, hpc, -, -⟩ :=
    C4_draw_xors_sprite sdl2 no_keys 0 draw_state 0 1 2 (by decide) (by decide) (by decide)
      rfl (by decide) draw_state_in_bounds
  refine ⟨c1, h, ?_, ?_, ?_, ?_, hr, hpc⟩
  · rw [hhit 131 ⟨0, by decide, 0, by decide, by decide, by decide⟩]
    decide
  · rw [hhit 132 ⟨0, by decide, 1, by decide, by decide, by decide⟩]
    decide
  · rw [hhit 195 ⟨1, by decide, 0, by decide, by decide, by decide⟩]
    decide
  · apply hmiss
    decide

/-- Witness for C3: the same draw hits the lit cell 131, so `V[0xF] = 1`. -/
theorem C3_draw_collision_flag_witness :
    fetch draw_state = .ok (0xD000 + 0x100 * 0 + 0x10 * 1 + 2) ∧
    draw_state.indexRegister.val + 2 ≤ 4096 ∧
    ∃ c1, execute_clock_cycle sdl2 no_keys 0 draw_state = .ok c1 ∧ (c1.V 0xF).val = 1 := by
  refine ⟨rfl, by decide, ?_⟩
  obtain ⟨c1, h, hflag, -⟩ :=
    C3_draw_collision_flag sdl2 no_keys 0 draw_state 0 1 2 (by decide) (by decide) (by decide)
      rfl (by decide) draw_state_in_bounds draw_state_cells
  exact ⟨c1, h, hflag.mpr ⟨0, by decide, 0, by decide, by decide, by decide⟩⟩

/-! ## `00E0` -/

theorem execute_0 (k : Scancodes) (state : Nat → UChar) (rand : Nat) (c : chip8) (w : Nat)
    (h : fetch c = .ok w) (hw : w &&& 0xF000 = 0x0000) :
    execute_clock_cycle k state rand c = case_0x0000 { c with opcode := toUShort w } := by
  have hlt := fetch_lt h
  simp [execute_clock_cycle, h, bind, Except.bind, toUShort_val_of_lt hlt, hw]

/-- What `00E0` does in every state: the 2048 display cells become 0 and `pc`
advances by 2, while `shouldRender` keeps the value it had. -/
theorem clear_screen_effect (k : Scancodes) (state : Nat → UChar) (rand : Nat) (c : chip8)
    (hop : fetch c = .ok 0x00E0) :
    ∃ c1, execute_clock_cycle k state rand c = .ok c1 ∧
      (∀ i, i < 2048 → c1.display i = 0) ∧
      c1.pc.val = c.pc.val + 2 ∧
      c1.shouldRender = c.shouldRender := by
  have hpc := fetch_pc hop
  rw [execute_0 k state rand c _ hop (by decide)]
  refine ⟨_, rfl, ?_, ?_, ?_⟩
  · intro i hi
    simp [advance, DISPLAY, hi]
  · simp [advance, toUShort]
    omega
  · rfl

/-- C5 (the code departs from the claim). From a state whose `shouldRender` is
false and whose display has a lit cell, executing `00E0` zeroes all 2048 display
cells and advances `pc` by 2, but `shouldRender` is still false afterwards: the
clear is never announced to the renderer. -/
theorem C5_clear_does_not_set_render_flag :
    fetch c5_state = .ok 0x00E0 ∧ c5_state.display 0 = 1 ∧ c5_state.shouldRender = false ∧
    ∃ c1, execute_clock_cycle sdl2 no_keys 0 c5_state = .ok c1 ∧
      (∀ i, i < 2048 → c1.display i = 0) ∧
      c1.pc.val = c5_state.pc.val + 2 ∧
      c1.shouldRender = false :=
  ⟨rfl, rfl, rfl, clear_screen_effect sdl2 no_keys 0 c5_state rfl⟩

/-! ## `Fx0A` -/

set_option maxRecDepth 20000 in
theorem nibbles_F : ∀ x < 16, ∀ lo < 256,
    (0xF000 + 0x100 * x + lo) &&& 0xF000 = 0xF000 ∧
    ((0xF000 + 0x100 * x + lo) &&& 0x0F00) >>> 8 = x ∧
    (0xF000 + 0x100 * x + lo) &&& 0x00FF = lo := by
  decide

theorem execute_F (k : Scancodes) (state : Nat → UChar) (rand : Nat) (c : chip8) (w : Nat)
    (h : fetch c = .ok w) (hw : w &&& 0xF000 = 0xF000) :
    execute_clock_cycle k state rand c = case_0xF000 k state { c with opcode := toUShort w } := by
  have hlt := fetch_lt h
  simp [execute_clock_cycle, h, bind, Except.bind, toUShort_val_of_lt hlt, hw]

/-- Closed form of the `Fx0A` case. -/
theorem case_Fx0A (k : Scancodes) (state : Nat → UChar) (c : chip8)
    (hlo : c.opcode.val &&& 0x00FF = 0x0A) :
    case_0xF000 k state c = (List.range 16).foldlM (wait_key_step k state) c := by
  simp [case_0xF000, hlo]

/-- The fetch reads only `pc` and `memory`. -/
theorem fetch_congr {c d : chip8} (hpc : d.pc = c.pc) (hm : d.memory = c.memory) :
    fetch d = fetch c := by
  simp [fetch, readMemory, hpc, hm]

/-- A loop body that returns its state unchanged at every index leaves the
state unchanged. -/
theorem foldlM_fixed {f : chip8 → Nat → Except Fault chip8} {c : chip8} :
    ∀ (l : List Nat), (∀ i ∈ l, f c i = .ok c) → l.foldlM f c = .ok c
  | [], _ => rfl
  | i :: l, h => by
    rw [List.foldlM_cons, h i (List.mem_cons_self i l)]
    exact foldlM_fixed l (fun j hj => h j (List.mem_cons_of_mem i hj))

theorem wait_key_step_up (k : Scancodes) (state : Nat → UChar) (c : chip8) (i : Nat)
    (hi : i < 16) (h : is_key_down k state i = false) :
    wait_key_step k state c i = .ok c := by
  have hlen : i < (key_mapping k).length := by simpa [key_mapping] using hi
  simp only [is_key_down, List.getElem?_eq_getElem hlen] at h
  simp only [wait_key_step, readKeyMapping, List.getElem?_eq_getElem hlen]
  simp at h
  simp [bind, Except.bind, h, pure, Except.pure]

/-- C7. When the fetched opcode is `Fx0A` and none of the 16 logical keys is
down, one `execute_clock_cycle` returns a state with `pc`, the registers, `I`,
memory, stack, `stackPointer`, display, both timers and `shouldRender` all
unchanged, and the fetch in that state yields the same `Fx0A` opcode again. -/
theorem C7_wait_key_no_key (k : Scancodes) (state : Nat → UChar) (rand : Nat) (c : chip8)
    (x : Nat) (hx : x < 16)
    (hop : fetch c = .ok (0xF00A + 0x100 * x))
    (hkeys : ∀ i, i < 16 → is_key_down k state i = false) :
    ∃ c1, execute_clock_cycle k state rand c = .ok c1 ∧
      c1.pc = c.pc ∧ c1.V = c.V ∧ c1.indexRegister = c.indexRegister ∧
      c1.memory = c.memory ∧ c1.stack = c.stack ∧ c1.stackPointer = c.stackPointer ∧
      c1.display = c.display ∧ c1.delayTimer = c.delayTimer ∧
      c1.soundTimer = c.soundTimer ∧ c1.shouldRender = c.shouldRender ∧
      fetch c1 = .ok (0xF00A + 0x100 * x) := by
  have hn := nibbles_F x hx 0x0A (by decide)
  have hw : 0xF00A + 0x100 * x = 0xF000 + 0x100 * x + 0x0A := by omega
  rw [hw] at hop ⊢
  have hlt := fetch_lt hop
  rw [execute_F k state rand c _ hop hn.1]
  have hlo : ({ c with opcode := toUShort (0xF000 + 0x100 * x + 0x0A) } : chip8).opcode.val
      &&& 0x00FF = 0x0A := by
    simpa [toUShort_val_of_lt hlt] using hn.2.2
  rw [case_Fx0A k state _ hlo]
  rw [foldlM_fixed (List.range 16)
    (fun i hi => wait_key_step_up k state _ i (List.mem_range.mp hi) (hkeys i (List.mem_range.mp hi)))]
  exact ⟨_, rfl, rfl, rfl, rfl, rfl, rfl, rfl, rfl, rfl, rfl, rfl,
    (fetch_congr rfl rfl).trans hop⟩

/-- Witness for C7: `F00A` with no key down. -/
theorem C7_wait_key_no_key_witness :
    fetch c6_state = .ok (0xF00A + 0x100 * 0) ∧
    (∀ i, i < 16 → is_key_down sdl2 no_keys i = false) ∧
    ∃ c1, execute_clock_cycle sdl2 no_keys 0 c6_state = .ok c1 ∧
      c1.pc = c6_state.pc ∧ c1.V = c6_state.V ∧ c1.indexRegister = c6_state.indexRegister ∧
      c1.memory = c6_state.memory ∧ c1.stack = c6_state.stack ∧
      c1.stackPointer = c6_state.stackPointer ∧
      c1.display = c6_state.display ∧ c1.delayTimer = c6_state.delayTimer ∧
      c1.soundTimer = c6_state.soundTimer ∧ c1.shouldRender = c6_state.shouldRender ∧
      fetch c1 = .ok (0xF00A + 0x100 * 0) :=
  ⟨rfl, by decide,
    C7_wait_key_no_key sdl2 no_keys 0 c6_state 0 (by decide) rfl (by decide)⟩

/-- With the SDL2 scancodes and only the physical key `X` (logical key 0) down,
`F00A` stores 27, the scancode of `X`, in `V[0]`; the logical code is 0. -/
theorem wait_key_stores_scancode :
    (∀ i, i < 16 → (is_key_down sdl2 keys_X i = true ↔ i = 0)) ∧
    ∃ c1, execute_clock_cycle sdl2 keys_X 0 c6_state = .ok c1 ∧
      (c1.V 0).val = 27 ∧ c1.pc.val = c6_state.pc.val + 2 :=
  ⟨by decide, _, rfl, by decide, by decide⟩

/-- C6 (the code departs from the claim). With the SDL2 scancodes and exactly
the logical keys 0 and 1 down (physical keys `X` and `1`), executing `F00A`
leaves `V[0] = 30`, which is the scancode of the physical key `1` and not a
logical key code, and advances `pc` by 4, once for each key that is down. -/
theorem C6_wait_key_two_keys_down :
    fetch c6_state = .ok 0xF00A ∧
    (∀ i, i < 16 → (is_key_down sdl2 keys_X_and_1 i = true ↔ i = 0 ∨ i = 1)) ∧
    ∃ c1, execute_clock_cycle sdl2 keys_X_and_1 0 c6_state = .ok c1 ∧
      (c1.V 0).val = 30 ∧ c1.pc.val = c6_state.pc.val + 4 :=
  ⟨rfl, by decide, _, rfl, by decide, by decide⟩

/-! ## `Fx33` -/

/-- Closed form of the `Fx33` case when the three bytes at `I` are inside memory. -/
theorem case_Fx33 (k : Scancodes) (state : Nat → UChar) (c : chip8)
    (hlo : c.opcode.val &&& 0x00FF = 0x33) (hI : c.indexRegister.val + 2 < 4096) :
    case_0xF000 k state c = .ok (advance { c with memory :=
      (Function.update (Function.update (Function.update c.memory c.indexRegister.val
        (toUChar ((c.V ((c.opcode.val &&& 0x0F00) >>> 8)).val / 100)))
        (c.indexRegister.val + 1)
        (toUChar (((c.V ((c.opcode.val &&& 0x0F00) >>> 8)).val / 10) % 10)))
        (c.indexRegister.val + 2)
        (toUChar ((c.V ((c.opcode.val &&& 0x0F00) >>> 8)).val % 10))) } 2) := by
  have h0 : c.indexRegister.val < MEMSIZE := by simp only [MEMSIZE]; omega
  have h1 : c.indexRegister.val + 1 < MEMSIZE := by simp only [MEMSIZE]; omega
  have h2 : c.indexRegister.val + 2 < MEMSIZE := by simp only [MEMSIZE]; omega
  simp [case_0xF000, hlo, writeMemory, h0, h1, h2, bind, Except.bind, pure, Except.pure]

/-- C8. When the fetched opcode is `Fx33` and `I + 2 ≤ 4095`, one
`execute_clock_cycle` returns a state in which `memory[I]`, `memory[I+1]`,
`memory[I+2]` are the hundreds, tens and ones digits of `V[x]` (each at most 9,
and `100*memory[I] + 10*memory[I+1] + memory[I+2] = V[x]`), every other memory
byte is unchanged, and `pc` is the old `pc` plus 2; `V[x] = 234` writes 2, 3, 4
and `V[x] = 7` writes 0, 0, 7. -/
theorem C8_bcd_store (k : Scancodes) (state : Nat → UChar) (rand : Nat) (c : chip8)
    (x : Nat) (hx : x < 16) (hI : c.indexRegister.val + 2 ≤ 4095)
    (hop : fetch c = .ok (0xF033 + 0x100 * x)) :
    ∃ c1, execute_clock_cycle k state rand c = .ok c1 ∧
      (c1.memory c.indexRegister.val).val = (c.V x).val / 100 ∧
      (c1.memory (c.indexRegister.val + 1)).val = (c.V x).val / 10 % 10 ∧
      (c1.memory (c.indexRegister.val + 2)).val = (c.V x).val % 10 ∧
      (c1.memory c.indexRegister.val).val ≤ 9 ∧
      (c1.memory (c.indexRegister.val + 1)).val ≤ 9 ∧
      (c1.memory (c.indexRegister.val + 2)).val ≤ 9 ∧
      100 * (c1.memory c.indexRegister.val).val + 10 * (c1.memory (c.indexRegister.val + 1)).val
        + (c1.memory (c.indexRegister.val + 2)).val = (c.V x).val ∧
      (∀ j, j ≠ c.indexRegister.val → j ≠ c.indexRegister.val + 1 →
        j ≠ c.indexRegister.val + 2 → c1.memory j = c.memory j) ∧
      c1.pc.val = c.pc.val + 2 ∧
      ((c.V x).val = 234 → (c1.memory c.indexRegister.val).val = 2 ∧
        (c1.memory (c.indexRegister.val + 1)).val = 3 ∧
        (c1.memory (c.indexRegister.val + 2)).val = 4) ∧
      ((c.V x).val = 7 → (c1.memory c.indexRegister.val).val = 0 ∧
        (c1.memory (c.indexRegister.val + 1)).val = 0 ∧
        (c1.memory (c.indexRegister.val + 2)).val = 7) := by
  have hn := nibbles_F x hx 0x33 (by decide)
  have hw : 0xF033 + 0x100 * x = 0xF000 + 0x100 * x + 0x33 := by omega
  rw [hw] at hop
  have hlt := fetch_lt hop
  have hpc := fetch_pc hop
  have hlo : ({ c with opcode := toUShort (0xF000 + 0x100 * x + 0x33) } : chip8).opcode.val
      &&& 0x00FF = 0x33 := by
    simpa [toUShort_val_of_lt hlt] using hn.2.2
  rw [execute_F k state rand c _ hop hn.1, case_Fx33 k state _ hlo (by simpa using by omega)]
  simp only [toUShort_val_of_lt hlt, hn.2.1]
  have hv := (c.V x).isLt
  have m0 : (Function.update (Function.update (Function.update c.memory c.indexRegister.val
      (toUChar ((c.V x).val / 100))) (c.indexRegister.val + 1)
      (toUChar (((c.V x).val / 10) % 10))) (c.indexRegister.val + 2)
      (toUChar ((c.V x).val % 10)) c.indexRegister.val).val = (c.V x).val / 100 := by
    rw [Function.update_noteq (by omega), Function.update_noteq (by omega),
      Function.update_same, toUChar_val]
    omega
  have m1 : (Function.update (Function.update (Function.update c.memory c.indexRegister.val
      (toUChar ((c.V x).val / 100))) (c.indexRegister.val + 1)
      (toUChar (((c.V x).val / 10) % 10))) (c.indexRegister.val + 2)
      (toUChar ((c.V x).val % 10)) (c.indexRegister.val + 1)).val = (c.V x).val / 10 % 10 := by
    rw [Function.update_noteq (by omega), Function.update_same, toUChar_val]
    omega
  have m2 : (Function.update (Function.update (Function.update c.memory c.indexRegister.val
      (toUChar ((c.V x).val / 100))) (c.indexRegister.val + 1)
      (toUChar (((c.V x).val / 10) % 10))) (c.indexRegister.val + 2)
      (toUChar ((c.V x).val % 10)) (c.indexRegister.val + 2)).val = (c.V x).val % 10 := by
    rw [Function.update_same, toUChar_val]
    omega
  refine ⟨_, rfl, m0, m1, m2, ?_, ?_, ?_, ?_, ?_, ?_, ?_, ?_⟩
  · simp only [advance, m0]; omega
  · simp only [advance, m1]; omega
  · simp only [advance, m2]; omega
  · simp only [advance, m0, m1, m2]; omega
  · intro j h0 h1 h2
    simp only [advance]
    rw [Function.update_noteq h2, Function.update_noteq h1, Function.update_noteq h0]
  · simp [advance, toUShort]
    omega
  · intro h
    simp only [advance, m0, m1, m2]
    refine ⟨?_, ?_, ?_⟩ <;> omega
  · intro h
    simp only [advance, m0, m1, m2]
    refine ⟨?_, ?_, ?_⟩ <;> omega

/-- Witness for C8: `V[0] = 234` is stored as 2, 3, 4 at `0x300..0x302`. -/
theorem C8_bcd_store_witness :
    c8_state.indexRegister.val + 2 ≤ 4095 ∧ fetch c8_state = .ok (0xF033 + 0x100 * 0) ∧
    ∃ c1, execute_clock_cycle sdl2 no_keys 0 c8_state = .ok c1 ∧
      (c1.memory 0x300).val = 2 ∧ (c1.memory 0x301).val = 3 ∧ (c1.memory 0x302).val = 4 := by
  refine ⟨by decide, rfl, ?_⟩
  obtain ⟨c1, h, -, -, -, -, -, -, -, -, -, h234, -⟩ :=
    C8_bcd_store sdl2 no_keys 0 c8_state 0 (by decide) (by decide) rfl
  exact ⟨c1, h, h234 (by decide)⟩

/-! ## `Fx55` and `Fx65` -/

theorem toUChar_val_self (b : UChar) : toUChar b.val = b := by
  apply Fin.ext
  simp [toUChar, Nat.mod_eq_of_lt b.isLt]

/-- The store loop of `Fx55` over `idx < n`, when `I + n` stays inside memory. -/
theorem store_loop (c : chip8) :
    ∀ n, c.indexRegister.val + n ≤ 4096 →
      (List.range n).foldlM store_step c = .ok { c with memory := (fun a =>
        if c.indexRegister.val ≤ a ∧ a < c.indexRegister.val + n
        then c.V (a - c.indexRegister.val) else c.memory a) }
  | 0, _ => by
    have hm : (fun a => if c.indexRegister.val ≤ a ∧ a < c.indexRegister.val + 0
        then c.V (a - c.indexRegister.val) else c.memory a) = c.memory := by
      funext a
      rw [if_neg (by omega)]
    rw [hm]
    rfl
  | n + 1, h => by
    rw [List.range_succ, List.foldlM_append, store_loop c n (by omega)]
    have hb : c.indexRegister.val + n < MEMSIZE := by simp only [MEMSIZE]; omega
    simp only [bind, Except.bind, List.foldlM_cons, List.foldlM_nil, store_step, writeMemory, hb,
      if_true, pure, Except.pure]
    congr 2
    funext a
    by_cases ha : a = c.indexRegister.val + n
    · subst ha
      simp
    · rw [Function.update_noteq ha]
      by_cases h1 : c.indexRegister.val ≤ a ∧ a < c.indexRegister.val + n
      · rw [if_pos h1, if_pos ⟨h1.1, by omega⟩]
      · rw [if_neg h1, if_neg (by omega)]

/-- The load loop of `Fx65` over `idx < n`, when `I + n` stays inside memory. -/
theorem load_loop (c : chip8) :
    ∀ n, c.indexRegister.val + n ≤ 4096 →
      (List.range n).foldlM load_step c = .ok { c with V := (fun i =>
        if i < n then c.memory (c.indexRegister.val + i) else c.V i) }
  | 0, _ => by
    simp [pure, Except.pure]
  | n + 1, h => by
    rw [List.range_succ, List.foldlM_append, load_loop c n (by omega)]
    have hb : c.indexRegister.val + n < MEMSIZE := by simp only [MEMSIZE]; omega
    simp only [bind, Except.bind, List.foldlM_cons, List.foldlM_nil, load_step, readMemory, hb,
      if_true, pure, Except.pure, setV, toUChar_val_self]
    congr 2
    funext i
    by_cases hi : i = n
    · subst hi
      simp
    · rw [Function.update_noteq hi]
      by_cases h1 : i < n
      · rw [if_pos h1, if_pos (by omega)]
      · rw [if_neg h1, if_neg (by omega)]


/-- Closed form of the `Fx55` case when `I + x` is inside memory. -/
theorem case_Fx55 (k : Scancodes) (state : Nat → UChar) (c : chip8)
    (hlo : c.opcode.val &&& 0x00FF = 0x55)
    (hI : c.indexRegister.val + (((c.opcode.val &&& 0x0F00) >>> 8) + 1) ≤ 4096) :
    case_0xF000 k state c = .ok (advance { c with memory := (fun a =>
      if c.indexRegister.val ≤ a ∧
        a < c.indexRegister.val + (((c.opcode.val &&& 0x0F00) >>> 8) + 1)
      then c.V (a - c.indexRegister.val) else c.memory a) } 2) := by
  simp [case_0xF000, hlo, store_loop c _ hI, bind, Except.bind, pure, Except.pure]

/-- Closed form of the `Fx65` case when `I + x` is inside memory. -/
theorem case_Fx65 (k : Scancodes) (state : Nat → UChar) (c : chip8)
    (hlo : c.opcode.val &&& 0x00FF = 0x65)
    (hI : c.indexRegister.val + (((c.opcode.val &&& 0x0F00) >>> 8) + 1) ≤ 4096) :
    case_0xF000 k state c = .ok (advance { c with V := (fun i =>
      if i < ((c.opcode.val &&& 0x0F00) >>> 8) + 1
      then c.memory (c.indexRegister.val + i) else c.V i) } 2) := by
  simp [case_0xF000, hlo, load_loop c _ hI, bind, Except.bind, pure, Except.pure]

/-- C9. For `x < 16` and `I + x ≤ 4095`: executing `Fx55` returns a state `c1`
with `I` unchanged; and for every state `c2` whose 16 registers are 0, whose `I`
is that of `c1`, whose memory agrees with that of `c1` on `I..I+x` (so the two
bytes of the `Fx65` instruction may sit anywhere outside that range) and whose
fetched opcode is `Fx65`, executing it returns a state with `V[0..x]` equal to
the registers before the `Fx55`, `V[x+1..15]` equal to 0 and `I` unchanged. -/
theorem C9_store_load_round_trip (k : Scancodes) (state : Nat → UChar) (rand : Nat)
    (c : chip8) (x : Nat) (hx : x < 16) (hI : c.indexRegister.val + x ≤ 4095)
    (hop : fetch c = .ok (0xF055 + 0x100 * x)) :
    ∃ c1, execute_clock_cycle k state rand c = .ok c1 ∧
      c1.indexRegister = c.indexRegister ∧
      ∀ (k2 : Scancodes) (state2 : Nat → UChar) (rand2 : Nat) (c2 : chip8),
        (∀ i, i < 16 → c2.V i = 0) →
        c2.indexRegister = c1.indexRegister →
        (∀ j, j ≤ x → c2.memory (c.indexRegister.val + j) = c1.memory (c.indexRegister.val + j)) →
        fetch c2 = .ok (0xF065 + 0x100 * x) →
        ∃ c3, execute_clock_cycle k2 state2 rand2 c2 = .ok c3 ∧
          (∀ i, i ≤ x → c3.V i = c.V i) ∧
          (∀ i, x < i → i < 16 → c3.V i = 0) ∧
          c3.indexRegister = c2.indexRegister := by
  have hn := nibbles_F x hx 0x55 (by decide)
  have hw : 0xF055 + 0x100 * x = 0xF000 + 0x100 * x + 0x55 := by omega
  rw [hw] at hop
  have hlt := fetch_lt hop
  have hlo : ({ c with opcode := toUShort (0xF000 + 0x100 * x + 0x55) } : chip8).opcode.val
      &&& 0x00FF = 0x55 := by
    simpa [toUShort_val_of_lt hlt] using hn.2.2
  have hvx : (({ c with opcode := toUShort (0xF000 + 0x100 * x + 0x55) } : chip8).opcode.val
      &&& 0x0F00) >>> 8 = x := by
    simpa [toUShort_val_of_lt hlt] using hn.2.1
  rw [execute_F k state rand c _ hop hn.1,
    case_Fx55 k state _ hlo (by rw [hvx]; show c.indexRegister.val + (x + 1) ≤ 4096; omega)]
  refine ⟨_, rfl, rfl, ?_⟩
  intro k2 state2 rand2 c2 hz hI2 hmem hop2
  have hn2 := nibbles_F x hx 0x65 (by decide)
  have hw2 : 0xF065 + 0x100 * x = 0xF000 + 0x100 * x + 0x65 := by omega
  rw [hw2] at hop2
  have hlt2 := fetch_lt hop2
  have hlo2 : ({ c2 with opcode := toUShort (0xF000 + 0x100 * x + 0x65) } : chip8).opcode.val
      &&& 0x00FF = 0x65 := by
    simpa [toUShort_val_of_lt hlt2] using hn2.2.2
  have hvx2 : (({ c2 with opcode := toUShort (0xF000 + 0x100 * x + 0x65) } : chip8).opcode.val
      &&& 0x0F00) >>> 8 = x := by
    simpa [toUShort_val_of_lt hlt2] using hn2.2.1
  have hI2v : c2.indexRegister.val = c.indexRegister.val := by rw [hI2]; rfl
  rw [execute_F k2 state2 rand2 c2 _ hop2 hn2.1,
    case_Fx65 k2 state2 _ hlo2
      (by rw [hvx2]; show c2.indexRegister.val + (x + 1) ≤ 4096; omega)]
  refine ⟨_, rfl, ?_, ?_, rfl⟩
  · intro i hi
    simp only [advance, hvx2]
    rw [if_pos (by omega)]
    show c2.memory (c2.indexRegister.val + i) = c.V i
    rw [hI2v, hmem i hi]
    simp only [advance, hvx]
    rw [if_pos (by omega)]
    congr 1
    omega
  · intro i hxi hi
    simp only [advance, hvx2]
    rw [if_neg (by omega)]
    exact hz i hi

/-- Witness for C9 with `x = 2`: after `F255`, zeroing the registers and
`F265`, `V[0..2]` are 1, 2, 3 again and `V[3]` is 0. -/
theorem C9_store_load_round_trip_witness :
    c9_state.indexRegister.val + 2 ≤ 4095 ∧ fetch c9_state = .ok (0xF055 + 0x100 * 2) ∧
    ∃ c1, execute_clock_cycle sdl2 no_keys 0 c9_state = .ok c1 ∧
      ∃ c3, execute_clock_cycle sdl2 no_keys 0 { c1 with V := fun _ => 0 } = .ok c3 ∧
        c3.V 0 = toUChar 1 ∧ c3.V 1 = toUChar 2 ∧ c3.V 2 = toUChar 3 ∧ c3.V 3 = 0 := by
  refine ⟨by decide, rfl, ?_⟩
  obtain ⟨c1, h1, -, h⟩ :=
    C9_store_load_round_trip sdl2 no_keys 0 c9_state 2 (by decide) (by decide) rfl
  have e : c1 = _ := Except.ok.inj (h1.symm.trans rfl)
  obtain ⟨c3, h3, hv, hz, -⟩ := h sdl2 no_keys 0 { c1 with V := fun _ => 0 }
    (fun _ _ => rfl) rfl (fun _ _ => rfl) (by rw [e]; rfl)
  exact ⟨c1, h1, c3, h3, hv 0 (by decide), hv 1 (by decide), hv 2 (by decide),
    hz 3 (by decide) (by decide)⟩


/-! ## `2nnn` and `00EE` -/

set_option maxRecDepth 20000 in
theorem nibbles_2_split : ∀ x < 16, ∀ lo < 256,
    (0x2000 + (0x100 * x + lo)) &&& 0xF000 = 0x2000 ∧
    (0x2000 + (0x100 * x + lo)) &&& 0x0FFF = 0x100 * x + lo := by
  decide

theorem nibbles_2 (nnn : Nat) (h : nnn < 4096) :
    (0x2000 + nnn) &&& 0xF000 = 0x2000 ∧ (0x2000 + nnn) &&& 0x0FFF = nnn := by
  have e : nnn = 0x100 * (nnn / 256) + nnn % 256 := by omega
  rw [e]
  exact nibbles_2_split (nnn / 256) (by omega) (nnn % 256) (by omega)

/-- Closed form of the `2nnn` case when the stack slot is inside the stack. -/
theorem execute_2 (k : Scancodes) (state : Nat → UChar) (rand : Nat) (c : chip8) (w : Nat)
    (h : fetch c = .ok w) (hw : w &&& 0xF000 = 0x2000) (hsp : c.stackPointer.val < 16) :
    execute_clock_cycle k state rand c = .ok
      { c with opcode := toUShort w
               stack := Function.update c.stack c.stackPointer.val c.pc
               stackPointer := toUShort (c.stackPointer.val + 1)
               pc := toUShort (w &&& 0x0FFF) } := by
  have hlt := fetch_lt h
  have hs : c.stackPointer.val < STACKDEPTH := hsp
  simp [execute_clock_cycle, h, bind, Except.bind, toUShort_val_of_lt hlt, hw, writeStack, hs,
    pure, Except.pure]

/-- Closed form of the `00EE` case when the slot below the stack pointer is
inside the stack. -/
theorem case_00EE (c : chip8) (hop : c.opcode.val = 0x00EE)
    (hsp : (intToUShort ((c.stackPointer.val : Int) - 1)).val < 16) :
    case_0x0000 c = .ok (advance
      { c with stackPointer := intToUShort ((c.stackPointer.val : Int) - 1)
               pc := toUShort (c.stack (intToUShort ((c.stackPointer.val : Int) - 1)).val).val } 2) := by
  have hs : (intToUShort ((c.stackPointer.val : Int) - 1)).val < STACKDEPTH := hsp
  simp [case_0x0000, hop, readStack, hs, bind, Except.bind, pure, Except.pure]

/-- C10. From a state with `stackPointer < 16` and `pc = p ≤ 4094` whose
fetched opcode is the call `2nnn` with `nnn ≤ 4094`, and whose memory holds the
return `00EE` at `nnn`: the first `execute_clock_cycle` returns a state with
`stack[old stackPointer] = p` and `pc = nnn`, and the second returns a state
with `pc = p + 2`, `stackPointer`, registers, `I`, memory, display and both
timers as before the call. -/
theorem C10_call_then_return (k : Scancodes) (state : Nat → UChar) (rand : Nat)
    (k2 : Scancodes) (state2 : Nat → UChar) (rand2 : Nat) (c : chip8) (nnn : Nat)
    (hsp : c.stackPointer.val < 16) (hpc : c.pc.val ≤ 4094) (hnnn : nnn ≤ 4094)
    (hop : fetch c = .ok (0x2000 + nnn))
    (hret0 : (c.memory nnn).val = 0x00) (hret1 : (c.memory (nnn + 1)).val = 0xEE) :
    ∃ c1 c2, execute_clock_cycle k state rand c = .ok c1 ∧
      execute_clock_cycle k2 state2 rand2 c1 = .ok c2 ∧
      (c1.stack c.stackPointer.val).val = c.pc.val ∧ c1.pc.val = nnn ∧
      c2.pc.val = c.pc.val + 2 ∧ c2.stackPointer = c.stackPointer ∧
      c2.V = c.V ∧ c2.indexRegister = c.indexRegister ∧ c2.memory = c.memory ∧
      c2.display = c.display ∧ c2.delayTimer = c.delayTimer ∧
      c2.soundTimer = c.soundTimer := by
  have hn := nibbles_2 nnn (by omega)
  have hlt := fetch_lt hop
  rw [execute_2 k state rand c _ hop hn.1 hsp, hn.2]
  have hpcv : (toUShort nnn).val = nnn := toUShort_val_of_lt (by omega)
  have hspv : (toUShort (c.stackPointer.val + 1)).val = c.stackPointer.val + 1 :=
    toUShort_val_of_lt (by omega)
  have hback : intToUShort (((toUShort (c.stackPointer.val + 1)).val : Int) - 1)
      = c.stackPointer := by
    apply Fin.ext
    rw [hspv]
    simp only [intToUShort]
    have := c.stackPointer.isLt
    omega
  have hf : fetch ({ c with opcode := toUShort (0x2000 + nnn)
                            stack := Function.update c.stack c.stackPointer.val c.pc
                            stackPointer := toUShort (c.stackPointer.val + 1)
                            pc := toUShort nnn } : chip8) = .ok 0x00EE := by
    have h0 : nnn < MEMSIZE := by simp only [MEMSIZE]; omega
    have h1 : nnn + 1 < MEMSIZE := by simp only [MEMSIZE]; omega
    simp [fetch, readMemory, hpcv, h0, h1, hret0, hret1, bind, Except.bind, pure, Except.pure]
  have h2 := execute_0 k2 state2 rand2 _ _ hf (by decide)
  rw [case_00EE _ rfl (by
      show (intToUShort (((toUShort (c.stackPointer.val + 1)).val : Int) - 1)).val < 16
      rw [hback]; exact hsp)] at h2
  refine ⟨_, _, rfl, h2, ?_, hpcv, ?_, ?_, rfl, rfl, rfl, rfl, rfl, rfl⟩
  · simp
  · show (toUShort ((toUShort (Function.update c.stack c.stackPointer.val c.pc
      (intToUShort (((toUShort (c.stackPointer.val + 1)).val : Int) - 1)).val).val).val + 2)).val
      = c.pc.val + 2
    rw [hback, Function.update_same]
    simp only [toUShort]
    have := c.pc.isLt
    omega
  · show intToUShort (((toUShort (c.stackPointer.val + 1)).val : Int) - 1) = c.stackPointer
    exact hback

/-- Witness for C10: call to `0x300` and return to `0x202`. -/
theorem C10_call_then_return_witness :
    c10_state.stackPointer.val < 16 ∧ c10_state.pc.val ≤ 4094 ∧ 0x300 ≤ 4094 ∧
    fetch c10_state = .ok (0x2000 + 0x300) ∧
    (c10_state.memory 0x300).val = 0x00 ∧ (c10_state.memory (0x300 + 1)).val = 0xEE ∧
    ∃ c1 c2, execute_clock_cycle sdl2 no_keys 0 c10_state = .ok c1 ∧
      execute_clock_cycle sdl2 no_keys 0 c1 = .ok c2 ∧
      (c1.stack c10_state.stackPointer.val).val = c10_state.pc.val ∧ c1.pc.val = 0x300 ∧
      c2.pc.val = c10_state.pc.val + 2 ∧ c2.stackPointer = c10_state.stackPointer ∧
      c2.V = c10_state.V ∧ c2.indexRegister = c10_state.indexRegister ∧
      c2.memory = c10_state.memory ∧
      c2.display = c10_state.display ∧ c2.delayTimer = c10_state.delayTimer ∧
      c2.soundTimer = c10_state.soundTimer :=
  ⟨by decide, by decide, by decide, rfl, by decide, by decide,
    C10_call_then_return sdl2 no_keys 0 sdl2 no_keys 0 c10_state 0x300
      (by decide) (by decide) (by decide) rfl (by decide) (by decide)⟩

/-! ## `update_timers` -/

/-- C11. `update_timers` maps `delayTimer` `d` to `d - 1` when `d > 0` and to 0
when `d = 0`, does the same to `soundTimer` (so neither timer goes below 0 or
wraps to 255), and leaves every other field of the state unchanged. -/
theorem C11_update_timers (c : chip8) :
    ((update_timers c).delayTimer.val =
        if c.delayTimer.val > 0 then c.delayTimer.val - 1 else 0) ∧
    ((update_timers c).soundTimer.val =
        if c.soundTimer.val > 0 then c.soundTimer.val - 1 else 0) ∧
    (update_timers c).delayTimer.val ≤ c.delayTimer.val ∧
    (update_timers c).soundTimer.val ≤ c.soundTimer.val ∧
    (update_timers c).pc = c.pc ∧ (update_timers c).indexRegister = c.indexRegister ∧
    (update_timers c).V = c.V ∧ (update_timers c).stack = c.stack ∧
    (update_timers c).stackPointer = c.stackPointer ∧ (update_timers c).memory = c.memory ∧
    (update_timers c).display = c.display ∧ (update_timers c).shouldRender = c.shouldRender ∧
    (update_timers c).opcode = c.opcode := by
  have hd := c.delayTimer.isLt
  have hs := c.soundTimer.isLt
  unfold update_timers
  by_cases h1 : c.delayTimer.val > 0 <;> by_cases h2 : c.soundTimer.val > 0 <;>
    simp only [h1, h2, if_true, if_false, intToUChar] <;>
    refine ⟨?_, ?_, ?_, ?_, ?_, ?_, ?_, ?_, ?_, ?_, ?_, ?_, ?_⟩ <;>
    (first | trivial | omega)

/-! ## `initialise_device` -/

theorem fontset_length : chip8_fontset.length = 80 := rfl

theorem fontset_bytes : ∀ k, k < 80 → chip8_fontset.getD k 0 < 256 := by
  decide

/-- The memory `initialise_device` leaves at `0x50 + k`, for `k < 80`. -/
theorem initialise_device_font (c : chip8) (k : Nat) (hk : k < 80) :
    ((initialise_device c).memory (0x50 + k)).val = chip8_fontset.getD k 0 := by
  have hb := fontset_bytes k hk
  have hc : 0x50 ≤ 0x50 + k ∧ 0x50 + k < 0x50 + chip8_fontset.length := by
    rw [fontset_length]; omega
  simp only [initialise_device]
  rw [if_pos hc, toUChar_val, Nat.add_sub_cancel_left, Nat.mod_eq_of_lt hb]

/-- C16. After `initialise_device`, whatever the state held before: `pc = 0x200`,
`I = 0`, `stackPointer = 0`, both timers are 0, `shouldRender` is false, the 16
registers, the 16 stack slots and the 2048 display cells are 0,
`memory[0x50 + k] = chip8_fontset[k]` for `k` in `0..79`, and every other
memory byte is 0. -/
theorem C16_initialise_device (c : chip8) :
    (initialise_device c).pc.val = 0x200 ∧
    (initialise_device c).indexRegister.val = 0 ∧
    (initialise_device c).stackPointer.val = 0 ∧
    (initialise_device c).delayTimer.val = 0 ∧
    (initialise_device c).soundTimer.val = 0 ∧
    (initialise_device c).shouldRender = false ∧
    (∀ i, i < 16 → ((initialise_device c).V i).val = 0) ∧
    (∀ i, i < 16 → ((initialise_device c).stack i).val = 0) ∧
    (∀ i, i < 2048 → ((initialise_device c).display i).val = 0) ∧
    (∀ k, k < 80 → ((initialise_device c).memory (0x50 + k)).val = chip8_fontset.getD k 0) ∧
    (∀ i, i < 4096 → ¬ (0x50 ≤ i ∧ i < 0x50 + 80) →
      ((initialise_device c).memory i).val = 0) := by
  refine ⟨rfl, rfl, rfl, rfl, rfl, rfl, ?_, ?_, ?_, initialise_device_font c, ?_⟩
  · intro i hi
    simp [initialise_device, REGISTERS, hi]
  · intro i hi
    simp [initialise_device, STACKDEPTH, hi]
  · intro i hi
    simp [initialise_device, DISPLAY, hi]
  · intro i hi hno
    have hno2 : ¬ (0x50 ≤ i ∧ i < 0x50 + chip8_fontset.length) := by
      rw [fontset_length]; exact hno
    have hm : i < MEMSIZE := hi
    simp only [initialise_device]
    rw [if_neg hno2, if_pos hm]
    rfl

/-! ## The program `60 a 61 b 80 14` -/

set_option maxRecDepth 20000 in
theorem nibbles_6 : ∀ x < 16, ∀ kk < 256,
    (0x6000 + 0x100 * x + kk) &&& 0xF000 = 0x6000 ∧
    ((0x6000 + 0x100 * x + kk) &&& 0xF00) >>> 8 = x ∧
    (0x6000 + 0x100 * x + kk) &&& 0x00FF = kk := by
  decide

/-- Closed form of one cycle whose fetched opcode is `6xkk`. -/
theorem execute_6xkk (k : Scancodes) (state : Nat → UChar) (rand : Nat) (c : chip8)
    (x kk : Nat) (hx : x < 16) (hkk : kk < 256)
    (h : fetch c = .ok (0x6000 + 0x100 * x + kk)) :
    execute_clock_cycle k state rand c = .ok (advance
      (setV { c with opcode := toUShort (0x6000 + 0x100 * x + kk) } x (toUChar kk)) 2) := by
  have hlt := fetch_lt h
  have hn := nibbles_6 x hx kk hkk
  simp [execute_clock_cycle, h, bind, Except.bind, toUShort_val_of_lt hlt, hn.1, hn.2.1, hn.2.2,
    pure, Except.pure]

theorem fetch_bytes (hi lo : Nat) (hlo : lo < 256) : (hi <<< 8) ||| lo = 0x100 * hi + lo := by
  rw [Nat.shiftLeft_eq, Nat.mul_comm hi]
  exact (Nat.mul_add_lt_is_or (i := 8) hlo hi).symm

/-- The fetch in terms of the two bytes at `pc`. -/
theorem fetch_eq (c : chip8) (hpc : c.pc.val + 1 < 4096) :
    fetch c = .ok (0x100 * (c.memory c.pc.val).val + (c.memory (c.pc.val + 1)).val) := by
  have h0 : c.pc.val < MEMSIZE := by simp only [MEMSIZE]; omega
  have h1 : c.pc.val + 1 < MEMSIZE := by simp only [MEMSIZE]; omega
  simp only [fetch, readMemory, h0, h1, if_true, bind, Except.bind, pure, Except.pure]
  rw [fetch_bytes _ _ (c.memory (c.pc.val + 1)).isLt]

/-- The byte that `place` puts at `a + j`. -/
theorem place_memory (c : chip8) (a : Nat) (bytes : List Nat) (j : Nat)
    (hj : j < bytes.length) :
    ((place c a bytes).memory (a + j)).val = bytes.getD j 0 % 256 := by
  simp only [place]
  rw [if_pos ⟨by omega, by omega⟩, Nat.add_sub_cancel_left]
  rfl

/-- The fetch in a state whose `pc` and the two bytes at `pc` are known. -/
theorem fetch_at (c : chip8) (p hi lo : Nat) (hp : c.pc.val = p) (hb : p + 1 < 4096)
    (h0 : (c.memory p).val = hi) (h1 : (c.memory (p + 1)).val = lo) :
    fetch c = .ok (0x100 * hi + lo) := by
  rw [fetch_eq c (by omega), hp, h0, h1]

/-- Closed form of one cycle whose fetched opcode is `8xy4`. -/
theorem execute_8xy4 (k : Scancodes) (state : Nat → UChar) (rand : Nat) (c : chip8)
    (x y : Nat) (hx : x < 16) (hy : y < 16)
    (h : fetch c = .ok (0x8000 + 0x100 * x + 0x10 * y + 4)) :
    execute_clock_cycle k state rand c = .ok (advance (setV
      (setV { c with opcode := toUShort (0x8000 + 0x100 * x + 0x10 * y + 4) } 0xF
        (toUChar (if (c.V x).val + (c.V y).val > 255 then 1 else 0)))
      x (toUChar ((c.V x).val + (c.V y).val))) 2) := by
  have hn := nibbles_8 x hx y hy 4 (by decide)
  have hlt := fetch_lt h
  rw [execute_8 k state rand c _ h hn.1,
    case_8xy4 _ (by simpa [toUShort_val_of_lt hlt] using hn.2.2.2)]
  simp only [toUShort_val_of_lt hlt, hn.2.1, hn.2.2.1]

/-- C12. For all bytes `a`, `b`: from the state `initialise_device` produces,
with the six bytes `60 a 61 b 80 14` placed at `0x200..0x205`, three
`execute_clock_cycle` steps return states, the last of which has
`V[0] = (a + b) mod 256`, `V[0xF] = 1` exactly when `a + b > 255`, `V[1] = b`
and `pc = 0x206`; with `a = 0x0A`, `b = 0x05` this is `V[0] = 15`, `V[0xF] = 0`. -/
theorem C12_add_program (k : Scancodes) (state : Nat → UChar) (rand : Nat) (c0 : chip8)
    (a b : Nat) (ha : a < 256) (hb : b < 256) :
    ∃ c1 c2 c3,
      execute_clock_cycle k state rand
        (place (initialise_device c0) 0x200 [0x60, a, 0x61, b, 0x80, 0x14]) = .ok c1 ∧
      execute_clock_cycle k state rand c1 = .ok c2 ∧
      execute_clock_cycle k state rand c2 = .ok c3 ∧
      (c3.V 0).val = (a + b) % 256 ∧
      (c3.V 0xF).val = (if a + b > 255 then 1 else 0) ∧
      (c3.V 1).val = b ∧
      c3.pc.val = 0x206 ∧
      (a = 0x0A → b = 0x05 → (c3.V 0).val = 15 ∧ (c3.V 0xF).val = 0) := by
  have ma : a % 256 = a := Nat.mod_eq_of_lt ha
  have mb : b % 256 = b := Nat.mod_eq_of_lt hb
  have hmem : ∀ j, j < 6 →
      ((place (initialise_device c0) 0x200 [0x60, a, 0x61, b, 0x80, 0x14]).memory
        (0x200 + j)).val = [0x60, a, 0x61, b, 0x80, 0x14].getD j 0 % 256 :=
    fun j hj => place_memory _ _ _ j hj
  -- first cycle: `60 a`
  have f1 : fetch (place (initialise_device c0) 0x200 [0x60, a, 0x61, b, 0x80, 0x14])
      = .ok (0x6000 + 0x100 * 0 + a) := by
    have := fetch_at (place (initialise_device c0) 0x200 [0x60, a, 0x61, b, 0x80, 0x14])
      0x200 0x60 a rfl (by decide) (hmem 0 (by decide))
      (by have := hmem 1 (by decide); simpa [ma] using this)
    simpa using this
  have e1 := execute_6xkk k state rand _ 0 a (by decide) ha f1
  -- second cycle: `61 b`
  have f2 : fetch (advance (setV
      { place (initialise_device c0) 0x200 [0x60, a, 0x61, b, 0x80, 0x14] with
        opcode := toUShort (0x6000 + 0x100 * 0 + a) } 0 (toUChar a)) 2)
      = .ok (0x6000 + 0x100 * 1 + b) := by
    have := fetch_at (advance (setV
      { place (initialise_device c0) 0x200 [0x60, a, 0x61, b, 0x80, 0x14] with
        opcode := toUShort (0x6000 + 0x100 * 0 + a) } 0 (toUChar a)) 2)
      0x202 0x61 b rfl (by decide) (hmem 2 (by decide))
      (by have := hmem 3 (by decide); simpa [mb] using this)
    simpa using this
  have e2 := execute_6xkk k state rand _ 1 b (by decide) hb f2
  -- third cycle: `80 14`
  have f3 : fetch (advance (setV
      { advance (setV
          { place (initialise_device c0) 0x200 [0x60, a, 0x61, b, 0x80, 0x14] with
            opcode := toUShort (0x6000 + 0x100 * 0 + a) } 0 (toUChar a)) 2 with
        opcode := toUShort (0x6000 + 0x100 * 1 + b) } 1 (toUChar b)) 2)
      = .ok (0x8000 + 0x100 * 0 + 0x10 * 1 + 4) := by
    exact fetch_at _ 0x204 0x80 0x14 rfl (by decide) (hmem 4 (by decide)) (hmem 5 (by decide))
  have e3 := execute_8xy4 k state rand _ 0 1 (by decide) (by decide) f3
  refine ⟨_, _, _, e1, e2, e3, ?_, ?_, ?_, ?_, ?_⟩
  · simp [advance, setV, toUChar_val, toUShort, ma, mb]
  · simp [advance, setV, toUChar_val, toUShort, ma, mb]
    split_ifs <;> decide
  · simp [advance, setV, toUChar_val, toUShort, ma, mb]
  · rfl
  · intro h1 h2
    subst h1 h2
    simp [advance, setV, toUChar_val, toUShort]

/-- Witness for C12 with `a = 0x0A`, `b = 0x05`. -/
theorem C12_add_program_witness :
    (0x0A : Nat) < 256 ∧ (0x05 : Nat) < 256 ∧
    ∃ c1 c2 c3,
      execute_clock_cycle sdl2 no_keys 0
        (place (initialise_device zero_state) 0x200 [0x60, 0x0A, 0x61, 0x05, 0x80, 0x14])
          = .ok c1 ∧
      execute_clock_cycle sdl2 no_keys 0 c1 = .ok c2 ∧
      execute_clock_cycle sdl2 no_keys 0 c2 = .ok c3 ∧
      (c3.V 0).val = 15 ∧ (c3.V 0xF).val = 0 ∧ (c3.V 1).val = 5 ∧ c3.pc.val = 0x206 := by
  obtain ⟨c1, c2, c3, h1, h2, h3, -, -, hv1, hpc, h⟩ :=
    C12_add_program sdl2 no_keys 0 zero_state 0x0A 0x05 (by decide) (by decide)
  exact ⟨by decide, by decide, c1, c2, c3, h1, h2, h3, (h rfl rfl).1, (h rfl rfl).2, hv1, hpc⟩

/-! ## `Fx29` and the font -/

/-- Closed form of the `Fx29` case. -/
theorem case_Fx29 (k : Scancodes) (state : Nat → UChar) (c : chip8)
    (hlo : c.opcode.val &&& 0x00FF = 0x29) :
    case_0xF000 k state c = .ok (advance { c with indexRegister :=
      (toUShort (0x50 + (c.V ((c.opcode.val &&& 0x0F00) >>> 8)).val * 5)) } 2) := by
  simp [case_0xF000, hlo]

/-- Bytes below the address at which `place` starts are untouched. -/
theorem place_memory_below (c : chip8) (a : Nat) (bytes : List Nat) (i : Nat) (hi : i < a) :
    (place c a bytes).memory i = c.memory i := by
  simp only [place]
  rw [if_neg (by omega)]

/-- C17. In a state whose memory is the one `initialise_device` produces with
a program placed at `0x200` upward, with `V[x] = d` for a digit `d ≤ 15`:
executing `Fx29` returns a state with `I = 0x50 + 5*d`, the five bytes
`memory[I..I+4]` are `chip8_fontset[5*d .. 5*d+4]`, and `pc` is the old `pc`
plus 2. -/
theorem C17_font_sprite_address (k : Scancodes) (state : Nat → UChar) (rand : Nat)
    (c0 : chip8) (prog : List Nat) (c : chip8) (x d : Nat) (hx : x < 16) (hd : d ≤ 15)
    (hmem : c.memory = (place (initialise_device c0) 0x200 prog).memory)
    (hV : (c.V x).val = d)
    (hop : fetch c = .ok (0xF029 + 0x100 * x)) :
    ∃ c1, execute_clock_cycle k state rand c = .ok c1 ∧
      c1.indexRegister.val = 0x50 + 5 * d ∧
      (∀ j, j < 5 →
        (c1.memory (c1.indexRegister.val + j)).val = chip8_fontset.getD (5 * d + j) 0) ∧
      c1.pc.val = c.pc.val + 2 := by
  have hn := nibbles_F x hx 0x29 (by decide)
  have hw : 0xF029 + 0x100 * x = 0xF000 + 0x100 * x + 0x29 := by omega
  rw [hw] at hop
  have hlt := fetch_lt hop
  have hpc := fetch_pc hop
  have hlo : ({ c with opcode := toUShort (0xF000 + 0x100 * x + 0x29) } : chip8).opcode.val
      &&& 0x00FF = 0x29 := by
    simpa [toUShort_val_of_lt hlt] using hn.2.2
  rw [execute_F k state rand c _ hop hn.1, case_Fx29 k state _ hlo]
  simp only [toUShort_val_of_lt hlt, hn.2.1, hV]
  have hI : (toUShort (0x50 + d * 5)).val = 0x50 + 5 * d := by
    rw [toUShort_val_of_lt (by omega)]
    omega
  refine ⟨_, rfl, hI, ?_, ?_⟩
  · intro j hj
    show (c.memory ((toUShort (0x50 + d * 5)).val + j)).val = _
    rw [hI, hmem, place_memory_below _ _ _ _ (by omega), Nat.add_assoc,
      initialise_device_font c0 (5 * d + j) (by omega)]
  · simp [advance, toUShort]
    omega

/-- Witness for C17 with the digit `0xA`: `I = 0x82` and the glyph rows are
`F0 90 F0 90 90`. -/
theorem C17_font_sprite_address_witness :
    fetch c17_state = .ok (0xF029 + 0x100 * 0) ∧ (c17_state.V 0).val = 0xA ∧
    ∃ c1, execute_clock_cycle sdl2 no_keys 0 c17_state = .ok c1 ∧
      c1.indexRegister.val = 0x82 ∧
      (c1.memory 0x82).val = 0xF0 ∧ (c1.memory 0x83).val = 0x90 ∧
      (c1.memory 0x84).val = 0xF0 ∧ (c1.memory 0x85).val = 0x90 ∧
      (c1.memory 0x86).val = 0x90 := by
  refine ⟨rfl, by decide, ?_⟩
  obtain ⟨c1, h, hI, hrows, -⟩ :=
    C17_font_sprite_address sdl2 no_keys 0 zero_state [0xF0, 0x29] c17_state 0 0xA
      (by decide) (by decide) rfl (by decide) rfl
  refine ⟨c1, h, hI, ?_, ?_, ?_, ?_, ?_⟩
  · have := hrows 0 (by decide); rw [hI] at this; exact this
  · have := hrows 1 (by decide); rw [hI] at this; exact this
  · have := hrows 2 (by decide); rw [hI] at this; exact this
  · have := hrows 3 (by decide); rw [hI] at this; exact this
  · have := hrows 4 (by decide); rw [hI] at this; exact this

/-! ## `Ex9E` and `ExA1` -/

set_option maxRecDepth 20000 in
theorem nibbles_E : ∀ x < 16, ∀ lo < 256,
    (0xE000 + 0x100 * x + lo) &&& 0xF000 = 0xE000 ∧
    ((0xE000 + 0x100 * x + lo) &&& 0x0F00) >>> 8 = x ∧
    (0xE000 + 0x100 * x + lo) &&& 0x00FF = lo := by
  decide

theorem execute_E (k : Scancodes) (state : Nat → UChar) (rand : Nat) (c : chip8) (w : Nat)
    (h : fetch c = .ok w) (hw : w &&& 0xF000 = 0xE000) :
    execute_clock_cycle k state rand c = case_0xE000 k state { c with opcode := toUShort w } := by
  have hlt := fetch_lt h
  simp [execute_clock_cycle, h, bind, Except.bind, toUShort_val_of_lt hlt, hw]

/-- The entry of `key_mapping` read for a logical key below 16, and the test
made on it. -/
theorem readKeyMapping_lt (k : Scancodes) (state : Nat → UChar) (i : Nat) (hi : i < 16) :
    ∃ s, readKeyMapping k i = .ok s ∧ (is_key_down k state i = true ↔ (state s).val ≠ 0) := by
  have hlen : i < (key_mapping k).length := by simpa [key_mapping] using hi
  refine ⟨(key_mapping k)[i], ?_, ?_⟩
  · simp only [readKeyMapping, List.getElem?_eq_getElem hlen]
  · simp only [is_key_down, List.getElem?_eq_getElem hlen]
    simp

/-- C18. For every state with `V[x] ≤ 15`: when the fetched opcode is `Ex9E`
the cycle returns the state with `pc` advanced by 4 if the key with logical
code `V[x]` is down and by 2 otherwise; when it is `ExA1`, by 4 if that key is
not down and by 2 otherwise (so of the two increments exactly one is 4); in
both cases every field other than `pc` and `opcode` is unchanged. -/
theorem C18_key_skips (k : Scancodes) (state : Nat → UChar) (rand : Nat) (c : chip8)
    (x : Nat) (hx : x < 16) (hV : (c.V x).val ≤ 15) :
    (fetch c = .ok (0xE09E + 0x100 * x) →
      ∃ c1, execute_clock_cycle k state rand c = .ok c1 ∧
        c1.pc.val = c.pc.val + (if is_key_down k state (c.V x).val = true then 4 else 2) ∧
        c1.V = c.V ∧ c1.indexRegister = c.indexRegister ∧ c1.memory = c.memory ∧
        c1.stack = c.stack ∧ c1.stackPointer = c.stackPointer ∧ c1.display = c.display ∧
        c1.delayTimer = c.delayTimer ∧ c1.soundTimer = c.soundTimer ∧
        c1.shouldRender = c.shouldRender) ∧
    (fetch c = .ok (0xE0A1 + 0x100 * x) →
      ∃ c1, execute_clock_cycle k state rand c = .ok c1 ∧
        c1.pc.val = c.pc.val + (if is_key_down k state (c.V x).val = true then 2 else 4) ∧
        c1.V = c.V ∧ c1.indexRegister = c.indexRegister ∧ c1.memory = c.memory ∧
        c1.stack = c.stack ∧ c1.stackPointer = c.stackPointer ∧ c1.display = c.display ∧
        c1.delayTimer = c.delayTimer ∧ c1.soundTimer = c.soundTimer ∧
        c1.shouldRender = c.shouldRender) := by
  obtain ⟨s, hs, hdown⟩ := readKeyMapping_lt k state (c.V x).val (by omega)
  constructor
  · intro hop
    have hn := nibbles_E x hx 0x9E (by decide)
    have hw : 0xE09E + 0x100 * x = 0xE000 + 0x100 * x + 0x9E := by omega
    rw [hw] at hop
    have hlt := fetch_lt hop
    have hpc := fetch_pc hop
    rw [execute_E k state rand c _ hop hn.1]
    simp only [case_0xE000, toUShort_val_of_lt hlt, hn.2.1, hn.2.2, hs, bind, Except.bind,
      if_true]
    by_cases hk : (state s).val ≠ 0
    · rw [if_pos hk, if_pos (hdown.mpr hk)]
      refine ⟨_, rfl, ?_, rfl, rfl, rfl, rfl, rfl, rfl, rfl, rfl, rfl⟩
      simp [advance, toUShort]
      omega
    · rw [if_neg hk, if_neg (fun h => hk (hdown.mp h))]
      refine ⟨_, rfl, ?_, rfl, rfl, rfl, rfl, rfl, rfl, rfl, rfl, rfl⟩
      simp [advance, toUShort]
      omega
  · intro hop
    have hn := nibbles_E x hx 0xA1 (by decide)
    have hw : 0xE0A1 + 0x100 * x = 0xE000 + 0x100 * x + 0xA1 := by omega
    rw [hw] at hop
    have hlt := fetch_lt hop
    have hpc := fetch_pc hop
    rw [execute_E k state rand c _ hop hn.1]
    simp only [case_0xE000, toUShort_val_of_lt hlt, hn.2.1, hn.2.2, hs, bind, Except.bind,
      if_true]
    by_cases hk : (state s).val ≠ 0
    · rw [if_neg (not_not.mpr hk), if_pos (hdown.mpr hk)]
      refine ⟨_, rfl, ?_, rfl, rfl, rfl, rfl, rfl, rfl, rfl, rfl, rfl⟩
      simp [advance, toUShort]
      omega
    · rw [if_pos hk, if_neg (fun h => hk (hdown.mp h))]
      refine ⟨_, rfl, ?_, rfl, rfl, rfl, rfl, rfl, rfl, rfl, rfl, rfl⟩
      simp [advance, toUShort]
      omega

/-- Witness for C18 with logical key 0 (physical key `X`) down: `E09E` skips,
`E0A1` does not. -/
theorem C18_key_skips_witness :
    is_key_down sdl2 keys_X 0 = true ∧
    (∃ c1, execute_clock_cycle sdl2 keys_X 0 c18_state_9E = .ok c1 ∧ c1.pc.val = 0x204) ∧
    (∃ c1, execute_clock_cycle sdl2 keys_X 0 c18_state_A1 = .ok c1 ∧ c1.pc.val = 0x202) := by
  refine ⟨by decide, ?_, ?_⟩
  · obtain ⟨c1, h, hpc, -⟩ :=
      (C18_key_skips sdl2 keys_X 0 c18_state_9E 0 (by decide) (by decide)).1 rfl
    exact ⟨c1, h, hpc⟩
  · obtain ⟨c1, h, hpc, -⟩ :=
      (C18_key_skips sdl2 keys_X 0 c18_state_A1 0 (by decide) (by decide)).2 rfl
    exact ⟨c1, h, hpc⟩

/-! ## What every cycle preserves -/

theorem same_control_refl (s : chip8) : same_control s s := ⟨rfl, rfl, rfl, rfl⟩

theorem same_control_trans {a b c : chip8} (h1 : same_control a b) (h2 : same_control b c) :
    same_control a c :=
  ⟨h2.1.trans h1.1, h2.2.1.trans h1.2.1, h2.2.2.1.trans h1.2.2.1, h2.2.2.2.trans h1.2.2.2⟩

/-- A relation that is reflexive, transitive and established by every
iteration of a loop holds between the state before and after the loop. -/
theorem foldlM_rel {f : chip8 → Nat → Except Fault chip8} (R : chip8 → chip8 → Prop)
    (hrefl : ∀ s, R s s) (htrans : ∀ a b c, R a b → R b c → R a c)
    (hstep : ∀ s i t, f s i = .ok t → R s t) :
    ∀ (l : List Nat) (s t : chip8), l.foldlM f s = .ok t → R s t
  | [], s, t, h => by
    simp only [List.foldlM_nil, pure, Except.pure, Except.ok.injEq] at h
    subst h
    exact hrefl s
  | i :: l, s, t, h => by
    rw [List.foldlM_cons] at h
    cases hf : f s i with
    | error e =>
      rw [hf] at h
      simp [bind, Except.bind] at h
    | ok u =>
      rw [hf] at h
      exact htrans s u t (hstep s i u hf) (foldlM_rel R hrefl htrans hstep l u t h)

/-! ### The draw loops -/

theorem draw_pixel_keeps (x y yline pixel : Nat) (s : chip8) (xline : Nat) (t : chip8)
    (h : draw_pixel x y yline pixel s xline = .ok t) :
    same_control s t ∧ (display_binary s → display_binary t) := by
  unfold draw_pixel at h
  by_cases hp : pixel &&& (0x80 >>> xline) ≠ 0
  · rw [if_pos hp] at h
    by_cases hd : x + xline + ((y + yline) * 64) < DISPLAY
    · simp only [readDisplay, writeDisplay, hd, if_true, bind, Except.bind] at h
      by_cases hz : (s.display (x + xline + ((y + yline) * 64))).val ≠ 0
      · simp only [if_pos hz, setV, Except.ok.injEq] at h
        subst h
        refine ⟨⟨rfl, rfl, rfl, rfl⟩, ?_⟩
        intro hb i hi
        by_cases e : i = x + xline + ((y + yline) * 64)
        · subst e
          simp only [Function.update_same, toUChar_val]
          rcases hb _ hi with h0 | h1
          · exact absurd h0 hz
          · rw [h1]; left; decide
        · simp only [Function.update_noteq e]
          exact hb i hi
      · simp only [if_neg hz, Except.ok.injEq] at h
        subst h
        refine ⟨⟨rfl, rfl, rfl, rfl⟩, ?_⟩
        intro hb i hi
        by_cases e : i = x + xline + ((y + yline) * 64)
        · subst e
          simp only [Function.update_same, toUChar_val]
          have h0 : (s.display (x + xline + ((y + yline) * 64))).val = 0 := not_not.mp hz
          rw [h0]; right; decide
        · simp only [Function.update_noteq e]
          exact hb i hi
    · simp [readDisplay, hd, bind, Except.bind] at h
  · rw [if_neg hp] at h
    simp only [Except.ok.injEq] at h
    subst h
    exact ⟨same_control_refl s, id⟩

theorem draw_row_keeps (x y : Nat) (s : chip8) (yline : Nat) (t : chip8)
    (h : draw_row x y s yline = .ok t) :
    same_control s t ∧ (display_binary s → display_binary t) := by
  unfold draw_row at h
  by_cases hm : s.indexRegister.val + yline < MEMSIZE
  · simp only [readMemory, hm, if_true, bind, Except.bind] at h
    exact foldlM_rel (fun a b => same_control a b ∧ (display_binary a → display_binary b))
      (fun a => ⟨same_control_refl a, id⟩)
      (fun a b c h1 h2 => ⟨same_control_trans h1.1 h2.1, fun hb => h2.2 (h1.2 hb)⟩)
      (fun a i b hab => draw_pixel_keeps x y yline _ a i b hab) _ s t h
  · simp [readMemory, hm, bind, Except.bind] at h

/-- What the `Dxyn` case leaves in place: stack and timers, a display that is
still binary, and `pc` advanced by 2. -/
theorem case_0xD000_keeps (d t : chip8) (h : case_0xD000 d = .ok t) :
    t.stack = d.stack ∧ t.delayTimer = d.delayTimer ∧ t.soundTimer = d.soundTimer ∧
    t.pc = toUShort (d.pc.val + 2) ∧ (display_binary d → display_binary t) := by
  unfold case_0xD000 at h
  simp only [bind, Except.bind, pure, Except.pure] at h
  cases hl : (List.range (d.opcode.val &&& 0x000F)).foldlM
      (draw_row (d.V ((d.opcode.val &&& 0x0F00) >>> 8)).val
        (d.V ((d.opcode.val &&& 0x00F0) >>> 4)).val) (setV d 0xF (toUChar 0)) with
  | error e =>
    rw [hl] at h
    simp at h
  | ok u =>
    rw [hl] at h
    simp only [Except.ok.injEq] at h
    subst h
    have hk := foldlM_rel (fun a b => same_control a b ∧ (display_binary a → display_binary b))
      (fun a => ⟨same_control_refl a, id⟩)
      (fun a b c h1 h2 => ⟨same_control_trans h1.1 h2.1, fun hb => h2.2 (h1.2 hb)⟩)
      (fun a i b hab => draw_row_keeps _ _ a i b hab) _ _ u hl
    obtain ⟨⟨hpc, hst, hdt, hsnd⟩, hbin⟩ := hk
    refine ⟨hst, hdt, hsnd, ?_, fun hb => hbin hb⟩
    show toUShort (u.pc.val + 2) = _
    rw [hpc]
    rfl

/-! ### The loops of `Fx0A`, `Fx55`, `Fx65` -/

theorem same_frame_refl (s : chip8) : same_frame s s := ⟨rfl, rfl, rfl, rfl⟩

theorem same_frame_trans {a b c : chip8} (h1 : same_frame a b) (h2 : same_frame b c) :
    same_frame a c :=
  ⟨h2.1.trans h1.1, h2.2.1.trans h1.2.1, h2.2.2.1.trans h1.2.2.1, h2.2.2.2.trans h1.2.2.2⟩

theorem store_step_keeps (s : chip8) (i : Nat) (t : chip8) (h : store_step s i = .ok t) :
    same_frame s t ∧ t.pc = s.pc := by
  unfold store_step writeMemory at h
  by_cases hm : s.indexRegister.val + i < MEMSIZE
  · rw [if_pos hm] at h
    simp only [Except.ok.injEq] at h
    subst h
    exact ⟨⟨rfl, rfl, rfl, rfl⟩, rfl⟩
  · rw [if_neg hm] at h
    simp at h

theorem load_step_keeps (s : chip8) (i : Nat) (t : chip8) (h : load_step s i = .ok t) :
    same_frame s t ∧ t.pc = s.pc := by
  unfold load_step readMemory at h
  by_cases hm : s.indexRegister.val + i < MEMSIZE
  · simp only [hm, if_true, bind, Except.bind, pure, Except.pure, Except.ok.injEq] at h
    subst h
    exact ⟨⟨rfl, rfl, rfl, rfl⟩, rfl⟩
  · simp [hm, bind, Except.bind] at h

theorem wait_key_step_keeps (k : Scancodes) (state : Nat → UChar) (s : chip8) (i : Nat)
    (t : chip8) (h : wait_key_step k state s i = .ok t) :
    same_frame s t ∧ t.pc.val ≤ s.pc.val + 2 := by
  unfold wait_key_step at h
  cases hr : readKeyMapping k i with
  | error e =>
    rw [hr] at h
    simp [bind, Except.bind] at h
  | ok sc =>
    rw [hr] at h
    simp only [bind, Except.bind] at h
    by_cases hk : (state sc).val ≠ 0
    · rw [if_pos hk] at h
      simp only [pure, Except.pure, Except.ok.injEq] at h
      subst h
      refine ⟨⟨rfl, rfl, rfl, rfl⟩, ?_⟩
      show (s.pc.val + 2) % 65536 ≤ s.pc.val + 2
      exact Nat.mod_le _ _
    · rw [if_neg hk] at h
      simp only [pure, Except.pure, Except.ok.injEq] at h
      subst h
      exact ⟨same_frame_refl s, by omega⟩

/-- The `Fx0A` loop over the keys in `l` advances `pc` by at most `2` per key. -/
theorem wait_key_loop_keeps (k : Scancodes) (state : Nat → UChar) :
    ∀ (l : List Nat) (s t : chip8), l.foldlM (wait_key_step k state) s = .ok t →
      same_frame s t ∧ t.pc.val ≤ s.pc.val + 2 * l.length
  | [], s, t, h => by
    simp only [List.foldlM_nil, pure, Except.pure, Except.ok.injEq] at h
    subst h
    exact ⟨same_frame_refl s, by omega⟩
  | i :: l, s, t, h => by
    rw [List.foldlM_cons] at h
    cases hf : wait_key_step k state s i with
    | error e =>
      rw [hf] at h
      simp [bind, Except.bind] at h
    | ok u =>
      rw [hf] at h
      have h1 := wait_key_step_keeps k state s i u hf
      have h2 := wait_key_loop_keeps k state l u t h
      refine ⟨same_frame_trans h1.1 h2.1, ?_⟩
      have := h1.2
      have := h2.2
      simp only [List.length_cons]
      omega

/-- A sequence of two fallible steps that returns has returned from both. -/
theorem bind_ok {α : Type} (e : Except Fault α) (f : α → Except Fault chip8) (t : chip8)
    (h : (e >>= f) = .ok t) : ∃ a, e = .ok a ∧ f a = .ok t := by
  cases e with
  | error x => simp [bind, Except.bind] at h
  | ok a => exact ⟨a, rfl, h⟩

theorem writeMemory_keeps (s : chip8) (i : Nat) (v : UChar) (t : chip8)
    (h : writeMemory s i v = .ok t) : same_frame s t ∧ t.pc = s.pc := by
  unfold writeMemory at h
  by_cases hm : i < MEMSIZE
  · rw [if_pos hm] at h
    simp only [Except.ok.injEq] at h
    subst h
    exact ⟨⟨rfl, rfl, rfl, rfl⟩, rfl⟩
  · rw [if_neg hm] at h
    simp at h

theorem advance_pc_le (c : chip8) (n : Nat) : (advance c n).pc.val ≤ c.pc.val + n := by
  show (c.pc.val + n) % 65536 ≤ c.pc.val + n
  exact Nat.mod_le _ _

/-- What the group `case (0xF000)` leaves in place. -/
theorem case_0xF000_keeps (k : Scancodes) (state : Nat → UChar) (d t : chip8)
    (h : case_0xF000 k state d = .ok t) :
    t.stack = d.stack ∧ t.display = d.display ∧
    (d.opcode.val &&& 0x00FF ≠ 0x15 → t.delayTimer = d.delayTimer) ∧
    (d.opcode.val &&& 0x00FF ≠ 0x18 → t.soundTimer = d.soundTimer) ∧
    t.pc.val ≤ d.pc.val + 32 ∧
    ((d.opcode.val &&& 0x00FF = 0x07 ∨ d.opcode.val &&& 0x00FF = 0x15 ∨
      d.opcode.val &&& 0x00FF = 0x18 ∨ d.opcode.val &&& 0x00FF = 0x1E ∨
      d.opcode.val &&& 0x00FF = 0x29 ∨ d.opcode.val &&& 0x00FF = 0x33 ∨
      d.opcode.val &&& 0x00FF = 0x55 ∨ d.opcode.val &&& 0x00FF = 0x65) →
      t.pc = toUShort (d.pc.val + 2)) := by
  unfold case_0xF000 at h
  simp only [] at h
  split_ifs at h with h07 h0A h15 h18 h1E h29 h33 h55 h65
  · simp only [Except.ok.injEq] at h
    subst h
    exact ⟨rfl, rfl, fun _ => rfl, fun _ => rfl, by
      have := advance_pc_le (setV d ((d.opcode.val &&& 0x0F00) >>> 8) d.delayTimer) 2
      exact Nat.le_trans this (by show d.pc.val + 2 ≤ d.pc.val + 32; omega), fun _ => rfl⟩
  · obtain ⟨⟨hst, hdt, hsnd, hdisp⟩, hpc⟩ := wait_key_loop_keeps k state _ d t h
    refine ⟨hst, hdisp, fun _ => hdt, fun _ => hsnd, ?_, ?_⟩
    · simpa using hpc
    · intro hl
      rw [h0A] at hl
      exact absurd hl (by decide)
  · simp only [Except.ok.injEq] at h
    subst h
    exact ⟨rfl, rfl, fun hne => absurd h15 hne, fun _ => rfl, by
      show (d.pc.val + 2) % 65536 ≤ d.pc.val + 32
      have := Nat.mod_le (d.pc.val + 2) 65536
      omega, fun _ => rfl⟩
  · simp only [Except.ok.injEq] at h
    subst h
    exact ⟨rfl, rfl, fun _ => rfl, fun hne => absurd h18 hne, by
      show (d.pc.val + 2) % 65536 ≤ d.pc.val + 32
      have := Nat.mod_le (d.pc.val + 2) 65536
      omega, fun _ => rfl⟩
  · simp only [Except.ok.injEq] at h
    subst h
    exact ⟨rfl, rfl, fun _ => rfl, fun _ => rfl, by
      show (d.pc.val + 2) % 65536 ≤ d.pc.val + 32
      have := Nat.mod_le (d.pc.val + 2) 65536
      omega, fun _ => rfl⟩
  · simp only [Except.ok.injEq] at h
    subst h
    exact ⟨rfl, rfl, fun _ => rfl, fun _ => rfl, by
      show (d.pc.val + 2) % 65536 ≤ d.pc.val + 32
      have := Nat.mod_le (d.pc.val + 2) 65536
      omega, fun _ => rfl⟩
  · obtain ⟨c1, e1, h⟩ := bind_ok _ _ t h
    obtain ⟨c2, e2, h⟩ := bind_ok _ _ t h
    obtain ⟨c3, e3, h⟩ := bind_ok _ _ t h
    simp only [pure, Except.pure, Except.ok.injEq] at h
    subst h
    obtain ⟨f1, p1⟩ := writeMemory_keeps _ _ _ _ e1
    obtain ⟨f2, p2⟩ := writeMemory_keeps _ _ _ _ e2
    obtain ⟨f3, p3⟩ := writeMemory_keeps _ _ _ _ e3
    obtain ⟨hst, hdt, hsnd, hdisp⟩ := same_frame_trans (same_frame_trans f1 f2) f3
    have hpc : c3.pc = d.pc := p3.trans (p2.trans p1)
    refine ⟨hst, hdisp, fun _ => hdt, fun _ => hsnd, ?_, fun _ => ?_⟩
    · have := advance_pc_le c3 2
      rw [hpc] at this
      omega
    · show toUShort (c3.pc.val + 2) = _
      rw [hpc]
  · obtain ⟨c1, e1, h⟩ := bind_ok _ _ t h
    simp only [pure, Except.pure, Except.ok.injEq] at h
    subst h
    obtain ⟨⟨hst, hdt, hsnd, hdisp⟩, hpc⟩ :=
      foldlM_rel (fun a b => same_frame a b ∧ b.pc = a.pc)
        (fun a => ⟨same_frame_refl a, rfl⟩)
        (fun a b c h1 h2 => ⟨same_frame_trans h1.1 h2.1, h2.2.trans h1.2⟩)
        store_step_keeps _ d c1 e1
    refine ⟨hst, hdisp, fun _ => hdt, fun _ => hsnd, ?_, fun _ => ?_⟩
    · have := advance_pc_le c1 2
      rw [hpc] at this
      omega
    · show toUShort (c1.pc.val + 2) = _
      rw [hpc]
  · obtain ⟨c1, e1, h⟩ := bind_ok _ _ t h
    simp only [pure, Except.pure, Except.ok.injEq] at h
    subst h
    obtain ⟨⟨hst, hdt, hsnd, hdisp⟩, hpc⟩ :=
      foldlM_rel (fun a b => same_frame a b ∧ b.pc = a.pc)
        (fun a => ⟨same_frame_refl a, rfl⟩)
        (fun a b c h1 h2 => ⟨same_frame_trans h1.1 h2.1, h2.2.trans h1.2⟩)
        load_step_keeps _ d c1 e1
    refine ⟨hst, hdisp, fun _ => hdt, fun _ => hsnd, ?_, fun _ => ?_⟩
    · have := advance_pc_le c1 2
      rw [hpc] at this
      omega
    · show toUShort (c1.pc.val + 2) = _
      rw [hpc]
  · simp only [Except.ok.injEq] at h
    subst h
    refine ⟨rfl, rfl, fun _ => rfl, fun _ => rfl, by omega, ?_⟩
    intro hl
    rcases hl with e | e | e | e | e | e | e | e <;> contradiction

/-! ### The groups `0`, `8` and `E` -/

/-- What the group `case (0x8000)` leaves in place, and when it advances `pc`. -/
theorem case_0x8000_keeps (d t : chip8) (h : case_0x8000 d = .ok t) :
    same_frame d t ∧ (t.pc = d.pc ∨ t.pc = toUShort (d.pc.val + 2)) ∧
    ((d.opcode.val &&& 0x000F ≤ 7 ∨ d.opcode.val &&& 0x000F = 0xE) →
      t.pc = toUShort (d.pc.val + 2)) := by
  simp only [case_0x8000] at h
  by_cases h0 : d.opcode.val &&& 0x000F = 0
  · rw [if_pos h0] at h
    cases h; exact ⟨⟨rfl, rfl, rfl, rfl⟩, Or.inr rfl, fun _ => rfl⟩
  rw [if_neg h0] at h
  by_cases h1 : d.opcode.val &&& 0x000F = 1
  · rw [if_pos h1] at h
    cases h; exact ⟨⟨rfl, rfl, rfl, rfl⟩, Or.inr rfl, fun _ => rfl⟩
  rw [if_neg h1] at h
  by_cases h2 : d.opcode.val &&& 0x000F = 2
  · rw [if_pos h2] at h
    cases h; exact ⟨⟨rfl, rfl, rfl, rfl⟩, Or.inr rfl, fun _ => rfl⟩
  rw [if_neg h2] at h
  by_cases h3 : d.opcode.val &&& 0x000F = 3
  · rw [if_pos h3] at h
    cases h; exact ⟨⟨rfl, rfl, rfl, rfl⟩, Or.inr rfl, fun _ => rfl⟩
  rw [if_neg h3] at h
  by_cases h4 : d.opcode.val &&& 0x000F = 4
  · rw [if_pos h4] at h
    split_ifs at h <;> (cases h; exact ⟨⟨rfl, rfl, rfl, rfl⟩, Or.inr rfl, fun _ => rfl⟩)
  rw [if_neg h4] at h
  by_cases h5 : d.opcode.val &&& 0x000F = 5
  · rw [if_pos h5] at h
    split_ifs at h <;> (cases h; exact ⟨⟨rfl, rfl, rfl, rfl⟩, Or.inr rfl, fun _ => rfl⟩)
  rw [if_neg h5] at h
  by_cases h6 : d.opcode.val &&& 0x000F = 6
  · rw [if_pos h6] at h
    cases h; exact ⟨⟨rfl, rfl, rfl, rfl⟩, Or.inr rfl, fun _ => rfl⟩
  rw [if_neg h6] at h
  by_cases h7 : d.opcode.val &&& 0x000F = 7
  · rw [if_pos h7] at h
    split_ifs at h <;> (cases h; exact ⟨⟨rfl, rfl, rfl, rfl⟩, Or.inr rfl, fun _ => rfl⟩)
  rw [if_neg h7] at h
  by_cases hE : d.opcode.val &&& 0x000F = 0xE
  · rw [if_pos hE] at h
    split_ifs at h <;> (cases h; exact ⟨⟨rfl, rfl, rfl, rfl⟩, Or.inr rfl, fun _ => rfl⟩)
  rw [if_neg hE] at h
  cases h
  refine ⟨⟨rfl, rfl, rfl, rfl⟩, Or.inl rfl, ?_⟩
  intro hl
  omega

/-- What the group `case (0x0000)` leaves in place, and what it does to `pc`. -/
theorem case_0x0000_keeps (d t : chip8) (h : case_0x0000 d = .ok t) :
    t.stack = d.stack ∧ t.delayTimer = d.delayTimer ∧ t.soundTimer = d.soundTimer ∧
    (display_binary d → display_binary t) ∧
    (d.opcode.val = 0x00E0 → t.pc = toUShort (d.pc.val + 2)) ∧
    (t.pc = d.pc ∨ t.pc = toUShort (d.pc.val + 2) ∨
      ∃ i, i < 16 ∧ t.pc = toUShort ((toUShort (d.stack i).val).val + 2)) := by
  unfold case_0x0000 at h
  split_ifs at h with hE0 hEE
  · simp only [Except.ok.injEq] at h
    subst h
    refine ⟨rfl, rfl, rfl, ?_, fun _ => rfl, Or.inr (Or.inl rfl)⟩
    intro _ i hi
    left
    have hd : i < DISPLAY := hi
    simp [advance, hd]
  · obtain ⟨top, e1, h⟩ := bind_ok _ _ t h
    simp only [pure, Except.pure, Except.ok.injEq] at h
    subst h
    unfold readStack at e1
    by_cases hs : (intToUShort ((d.stackPointer.val : Int) - 1)).val < STACKDEPTH
    · simp only [hs, if_true, Except.ok.injEq] at e1
      subst e1
      refine ⟨rfl, rfl, rfl, fun hb => hb, fun he => absurd he hE0, Or.inr (Or.inr ?_)⟩
      exact ⟨_, hs, rfl⟩
    · simp [hs] at e1
  · simp only [Except.ok.injEq] at h
    subst h
    exact ⟨rfl, rfl, rfl, fun hb => hb, fun he => absurd he hE0, Or.inl rfl⟩

/-- What the group `case (0xE000)` leaves in place, and what it does to `pc`. -/
theorem case_0xE000_keeps (k : Scancodes) (state : Nat → UChar) (d t : chip8)
    (h : case_0xE000 k state d = .ok t) :
    same_frame d t ∧ (t.pc = toUShort (d.pc.val + 2) ∨ t.pc = toUShort (d.pc.val + 4)) := by
  simp only [case_0xE000] at h
  split_ifs at h with h9E hA1
  · obtain ⟨s, -, h⟩ := bind_ok _ _ t h
    split_ifs at h <;> simp only [pure, Except.pure, Except.ok.injEq] at h <;> subst h <;>
      (first
        | exact ⟨⟨rfl, rfl, rfl, rfl⟩, Or.inr rfl⟩
        | exact ⟨⟨rfl, rfl, rfl, rfl⟩, Or.inl rfl⟩)
  · obtain ⟨s, -, h⟩ := bind_ok _ _ t h
    split_ifs at h <;> simp only [pure, Except.pure, Except.ok.injEq] at h <;> subst h <;>
      (first
        | exact ⟨⟨rfl, rfl, rfl, rfl⟩, Or.inr rfl⟩
        | exact ⟨⟨rfl, rfl, rfl, rfl⟩, Or.inl rfl⟩)

/-! ### One cycle, by top nibble -/

/-- The ways a cycle that returns can have run, by the top nibble of the fetched
opcode `w`; `d` is the state with the opcode stored. -/
theorem cycle_cases (k : Scancodes) (state : Nat → UChar) (rand : Nat) (c t : chip8) (w : Nat)
    (hf : fetch c = .ok w) (h : execute_clock_cycle k state rand c = .ok t) :
    (w &&& 0xF000 = 0x0000 ∧ case_0x0000 { c with opcode := toUShort w } = .ok t) ∨
    (w &&& 0xF000 = 0x1000 ∧ same_frame c t ∧ t.pc = toUShort (w &&& 0x0FFF)) ∨
    (w &&& 0xF000 = 0x2000 ∧ c.stackPointer.val < 16 ∧
      t.stack = Function.update c.stack c.stackPointer.val c.pc ∧
      t.delayTimer = c.delayTimer ∧ t.soundTimer = c.soundTimer ∧ t.display = c.display ∧
      t.pc = toUShort (w &&& 0x0FFF)) ∨
    ((w &&& 0xF000 = 0x3000 ∨ w &&& 0xF000 = 0x4000 ∨ w &&& 0xF000 = 0x5000 ∨
        w &&& 0xF000 = 0x9000) ∧ same_frame c t ∧
      (t.pc = toUShort (c.pc.val + 2) ∨ t.pc = toUShort (c.pc.val + 4))) ∨
    ((w &&& 0xF000 = 0x6000 ∨ w &&& 0xF000 = 0x7000 ∨ w &&& 0xF000 = 0xA000 ∨
        w &&& 0xF000 = 0xC000) ∧ same_frame c t ∧ t.pc = toUShort (c.pc.val + 2)) ∨
    (w &&& 0xF000 = 0x8000 ∧ case_0x8000 { c with opcode := toUShort w } = .ok t) ∨
    (w &&& 0xF000 = 0xB000 ∧ same_frame c t ∧
      t.pc = toUShort ((w &&& 0x0FFF) + (c.V 0).val)) ∨
    (w &&& 0xF000 = 0xD000 ∧ case_0xD000 { c with opcode := toUShort w } = .ok t) ∨
    (w &&& 0xF000 = 0xE000 ∧ case_0xE000 k state { c with opcode := toUShort w } = .ok t) ∨
    (w &&& 0xF000 = 0xF000 ∧ case_0xF000 k state { c with opcode := toUShort w } = .ok t) := by
  have hlt := fetch_lt hf
  simp only [execute_clock_cycle, hf, bind, Except.bind, toUShort_val_of_lt hlt] at h
  by_cases h0 : w &&& 0xF000 = 0x0000
  · rw [if_pos h0] at h
    exact Or.inl ⟨h0, h⟩
  rw [if_neg h0] at h
  by_cases h1 : w &&& 0xF000 = 0x1000
  · rw [if_pos h1] at h
    cases h
    exact Or.inr (Or.inl ⟨h1, ⟨rfl, rfl, rfl, rfl⟩, rfl⟩)
  rw [if_neg h1] at h
  by_cases h2 : w &&& 0xF000 = 0x2000
  · rw [if_pos h2] at h
    by_cases hs : c.stackPointer.val < STACKDEPTH
    · simp only [writeStack, hs, if_true, pure, Except.pure] at h
      cases h
      exact Or.inr (Or.inr (Or.inl ⟨h2, hs, rfl, rfl, rfl, rfl, rfl⟩))
    · simp [writeStack, hs] at h
  rw [if_neg h2] at h
  by_cases h3 : w &&& 0xF000 = 0x3000
  · rw [if_pos h3] at h
    refine Or.inr (Or.inr (Or.inr (Or.inl ⟨Or.inl h3, ?_⟩)))
    split_ifs at h <;> (cases h; first
      | exact ⟨⟨rfl, rfl, rfl, rfl⟩, Or.inr rfl⟩
      | exact ⟨⟨rfl, rfl, rfl, rfl⟩, Or.inl rfl⟩)
  rw [if_neg h3] at h
  by_cases h4 : w &&& 0xF000 = 0x4000
  · rw [if_pos h4] at h
    refine Or.inr (Or.inr (Or.inr (Or.inl ⟨Or.inr (Or.inl h4), ?_⟩)))
    split_ifs at h <;> (cases h; first
      | exact ⟨⟨rfl, rfl, rfl, rfl⟩, Or.inr rfl⟩
      | exact ⟨⟨rfl, rfl, rfl, rfl⟩, Or.inl rfl⟩)
  rw [if_neg h4] at h
  by_cases h5 : w &&& 0xF000 = 0x5000
  · rw [if_pos h5] at h
    refine Or.inr (Or.inr (Or.inr (Or.inl ⟨Or.inr (Or.inr (Or.inl h5)), ?_⟩)))
    split_ifs at h <;> (cases h; first
      | exact ⟨⟨rfl, rfl, rfl, rfl⟩, Or.inr rfl⟩
      | exact ⟨⟨rfl, rfl, rfl, rfl⟩, Or.inl rfl⟩)
  rw [if_neg h5] at h
  by_cases h6 : w &&& 0xF000 = 0x6000
  · rw [if_pos h6] at h
    cases h
    exact Or.inr (Or.inr (Or.inr (Or.inr (Or.inl ⟨Or.inl h6, ⟨rfl, rfl, rfl, rfl⟩, rfl⟩))))
  rw [if_neg h6] at h
  by_cases h7 : w &&& 0xF000 = 0x7000
  · rw [if_pos h7] at h
    cases h
    exact Or.inr (Or.inr (Or.inr (Or.inr (Or.inl
      ⟨Or.inr (Or.inl h7), ⟨rfl, rfl, rfl, rfl⟩, rfl⟩))))
  rw [if_neg h7] at h
  by_cases h8 : w &&& 0xF000 = 0x8000
  · rw [if_pos h8] at h
    exact Or.inr (Or.inr (Or.inr (Or.inr (Or.inr (Or.inl ⟨h8, h⟩)))))
  rw [if_neg h8] at h
  by_cases h9 : w &&& 0xF000 = 0x9000
  · rw [if_pos h9] at h
    refine Or.inr (Or.inr (Or.inr (Or.inl ⟨Or.inr (Or.inr (Or.inr h9)), ?_⟩)))
    split_ifs at h <;> (cases h; first
      | exact ⟨⟨rfl, rfl, rfl, rfl⟩, Or.inr rfl⟩
      | exact ⟨⟨rfl, rfl, rfl, rfl⟩, Or.inl rfl⟩)
  rw [if_neg h9] at h
  by_cases hA : w &&& 0xF000 = 0xA000
  · rw [if_pos hA] at h
    cases h
    exact Or.inr (Or.inr (Or.inr (Or.inr (Or.inl
      ⟨Or.inr (Or.inr (Or.inl hA)), ⟨rfl, rfl, rfl, rfl⟩, rfl⟩))))
  rw [if_neg hA] at h
  by_cases hB : w &&& 0xF000 = 0xB000
  · rw [if_pos hB] at h
    cases h
    exact Or.inr (Or.inr (Or.inr (Or.inr (Or.inr (Or.inr (Or.inl
      ⟨hB, ⟨rfl, rfl, rfl, rfl⟩, rfl⟩))))))
  rw [if_neg hB] at h
  by_cases hC : w &&& 0xF000 = 0xC000
  · rw [if_pos hC] at h
    cases h
    exact Or.inr (Or.inr (Or.inr (Or.inr (Or.inl
      ⟨Or.inr (Or.inr (Or.inr hC)), ⟨rfl, rfl, rfl, rfl⟩, rfl⟩))))
  rw [if_neg hC] at h
  by_cases hD : w &&& 0xF000 = 0xD000
  · rw [if_pos hD] at h
    exact Or.inr (Or.inr (Or.inr (Or.inr (Or.inr (Or.inr (Or.inr (Or.inl ⟨hD, h⟩)))))))
  rw [if_neg hD] at h
  by_cases hE : w &&& 0xF000 = 0xE000
  · rw [if_pos hE] at h
    exact Or.inr (Or.inr (Or.inr (Or.inr (Or.inr (Or.inr (Or.inr (Or.inr
      (Or.inl ⟨hE, h⟩))))))))
  rw [if_neg hE] at h
  by_cases hF : w &&& 0xF000 = 0xF000
  · rw [if_pos hF] at h
    exact Or.inr (Or.inr (Or.inr (Or.inr (Or.inr (Or.inr (Or.inr (Or.inr
      (Or.inr ⟨hF, h⟩))))))))
  rw [if_neg hF] at h
  simp at h

/-! ## States reached without an out-of-bounds access -/

/-- A cycle that returns has fetched an opcode. -/
theorem cycle_fetch (k : Scancodes) (state : Nat → UChar) (rand : Nat) (c t : chip8)
    (h : execute_clock_cycle k state rand c = .ok t) : ∃ w, fetch c = .ok w := by
  unfold execute_clock_cycle at h
  obtain ⟨w, hw, -⟩ := bind_ok _ _ t h
  exact ⟨w, hw⟩

theorem load_rom_fields (c : chip8) (rom : List Nat) (t : chip8)
    (h : load_rom c rom = .ok t) :
    t.pc = c.pc ∧ t.stack = c.stack ∧ t.display = c.display ∧ t.V = c.V ∧
    t.memory = (place c OFFSET rom).memory := by
  unfold load_rom at h
  split_ifs at h
  cases h
  exact ⟨rfl, rfl, rfl, rfl, rfl⟩

theorem update_timers_fields (c : chip8) :
    (update_timers c).pc = c.pc ∧ (update_timers c).stack = c.stack ∧
    (update_timers c).display = c.display := by
  simp only [update_timers]
  split_ifs <;> exact ⟨rfl, rfl, rfl⟩

/-! ## The layout agrees with the checked accesses -/

theorem fetch_laid_out_of_ok {c : chip8} {w : Nat} (h : fetch c = .ok w) :
    fetch_laid_out c = .ok w := by
  have hp := fetch_pc h
  have h1 : c.pc.val < MEMSIZE := by simp only [MEMSIZE]; omega
  have h2 : c.pc.val + 1 < MEMSIZE := by simp only [MEMSIZE]; omega
  unfold fetch readMemory at h
  unfold fetch_laid_out readMemory_laid_out
  rw [if_pos h1, if_pos h2] at h ⊢
  exact h

theorem store_step_laid_out_of_ok {s t : chip8} {i : Nat} (h : store_step s i = .ok t) :
    store_step_laid_out s i = .ok t := by
  unfold store_step writeMemory at h
  unfold store_step_laid_out writeMemory_laid_out
  by_cases hi : s.indexRegister.val + i < MEMSIZE
  · rw [if_pos hi] at h ⊢
    exact h
  · rw [if_neg hi] at h
    simp at h

theorem store_loop_laid_out_of_ok :
    ∀ (l : List Nat) (s t : chip8), l.foldlM store_step s = .ok t →
      l.foldlM store_step_laid_out s = .ok t
  | [], s, t, h => h
  | i :: l, s, t, h => by
    rw [List.foldlM_cons] at h ⊢
    obtain ⟨u, hu, ht⟩ := bind_ok _ _ t h
    rw [store_step_laid_out_of_ok hu]
    exact store_loop_laid_out_of_ok l u t ht

/-- Where `execute_clock_cycle` returns, that is on every cycle that keeps its
accesses inside the arrays, the cycle through the layout returns the same
state. -/
theorem laid_out_extends (k : Scancodes) (state : Nat → UChar) (rand : Nat) (c t : chip8)
    (h : execute_clock_cycle k state rand c = .ok t) :
    execute_clock_cycle_laid_out k state rand c = .ok t := by
  obtain ⟨w, hf⟩ := cycle_fetch k state rand c t h
  have hlt := fetch_lt hf
  unfold execute_clock_cycle_laid_out
  rw [fetch_laid_out_of_ok hf]
  simp only [bind, Except.bind, toUShort_val_of_lt hlt]
  by_cases h6 : w &&& 0xF000 = 0x6000
  · rw [if_pos h6]
    simpa [execute_clock_cycle, hf, bind, Except.bind, toUShort_val_of_lt hlt, h6] using h
  rw [if_neg h6]
  by_cases hF : w &&& 0xF000 = 0xF000 ∧ w &&& 0x00FF = 0x0055
  · rw [if_pos hF]
    rw [execute_F k state rand c w hf hF.1] at h
    have hlo : ({ c with opcode := toUShort w } : chip8).opcode.val &&& 0x00FF = 0x55 := by
      show (toUShort w).val &&& 0x00FF = 0x55
      rw [toUShort_val_of_lt hlt]
      exact hF.2
    simp only [case_0xF000, hlo] at h
    simp only [show ¬ (0x55 = 0x0007) by decide, show ¬ (0x55 = 0x000A) by decide,
      show ¬ (0x55 = 0x0015) by decide, show ¬ (0x55 = 0x0018) by decide,
      show ¬ (0x55 = 0x001E) by decide, show ¬ (0x55 = 0x0029) by decide,
      show ¬ (0x55 = 0x0033) by decide, if_false, if_true] at h
    obtain ⟨c1, hc1, ht⟩ := bind_ok _ _ t h
    have hv : ({ c with opcode := toUShort w } : chip8).opcode.val = w :=
      toUShort_val_of_lt hlt
    rw [hv] at hc1
    rw [store_loop_laid_out_of_ok _ _ _ hc1]
    exact ht
  · rw [if_neg hF]
    exact h

/-! ## The display holds only 0 and 1 -/

theorem display_binary_of_eq {c t : chip8} (h : t.display = c.display)
    (hb : display_binary c) : display_binary t := by
  intro i hi
  rw [h]
  exact hb i hi

/-- A cycle that returns with every access inside the arrays keeps the display
binary. -/
theorem cycle_display_binary (k : Scancodes) (state : Nat → UChar) (rand : Nat)
    (c t : chip8) (h : execute_clock_cycle k state rand c = .ok t)
    (hb : display_binary c) : display_binary t := by
  obtain ⟨w, hf⟩ := cycle_fetch k state rand c t h
  rcases cycle_cases k state rand c t w hf h with
    ⟨-, h0⟩ | ⟨-, hfr, -⟩ | ⟨-, -, -, -, -, hd, -⟩ | ⟨-, hfr, -⟩ | ⟨-, hfr, -⟩ | ⟨-, h8⟩ |
    ⟨-, hfr, -⟩ | ⟨-, hD⟩ | ⟨-, hE⟩ | ⟨-, hF⟩
  · exact (case_0x0000_keeps _ t h0).2.2.2.1 hb
  · exact display_binary_of_eq hfr.2.2.2 hb
  · exact display_binary_of_eq hd hb
  · exact display_binary_of_eq hfr.2.2.2 hb
  · exact display_binary_of_eq hfr.2.2.2 hb
  · exact display_binary_of_eq (case_0x8000_keeps _ t h8).1.2.2.2 hb
  · exact display_binary_of_eq hfr.2.2.2 hb
  · exact (case_0xD000_keeps _ t hD).2.2.2.2 hb
  · exact display_binary_of_eq (case_0xE000_keeps k state _ t hE).1.2.2.2 hb
  · exact display_binary_of_eq (case_0xF000_keeps k state _ t hF).2.1 hb

/-- Every state reached without an out-of-bounds access has a binary display. -/
theorem reachable_display_binary (c : chip8) (hr : ReachableInBounds c) :
    display_binary c := by
  induction hr with
  | start c0 rom c h =>
    refine display_binary_of_eq (load_rom_fields _ rom c h).2.2.1 ?_
    intro i hi
    left
    have hd : i < DISPLAY := hi
    simp [initialise_device, hd]
  | cycle k state rand c t _ h ih => exact cycle_display_binary k state rand c t h ih
  | timers c _ ih => exact display_binary_of_eq (update_timers_fields c).2.2 ih

/-- The program `AF FF 61 09 F1 55`.  Its first two cycles set `I = 0xFFF` and
`V[1] = 9`.  The third, `F155`, stores `V[0]` at `memory[4095]` and `V[1]` at
`memory[4096]`: the checked model reports the access past the array, and
through the layout the byte 9 arrives in `display[0]`. -/
theorem store_past_memory : ∃ c t, ReachableInBounds c ∧ fetch c = .ok 0xF155 ∧
    c.indexRegister.val = 4095 ∧ (c.V 1).val = 9 ∧
    execute_clock_cycle sdl2 no_keys 0 c = .error .out_of_bounds ∧
    execute_clock_cycle_laid_out sdl2 no_keys 0 c = .ok t ∧ (t.display 0).val = 9 := by
  have h0 : load_rom (initialise_device zero_state) store_past_memory_rom
      = .ok (place (initialise_device zero_state) OFFSET store_past_memory_rom) := rfl
  obtain ⟨c, h, hf, hI, hV, he, t, hl, hd⟩ : ∃ c,
      (execute_clock_cycle sdl2 no_keys 0
          (place (initialise_device zero_state) OFFSET store_past_memory_rom) >>=
        execute_clock_cycle sdl2 no_keys 0) = .ok c ∧ fetch c = .ok 0xF155 ∧
      c.indexRegister.val = 4095 ∧ (c.V 1).val = 9 ∧
      execute_clock_cycle sdl2 no_keys 0 c = .error .out_of_bounds ∧
      ∃ t, execute_clock_cycle_laid_out sdl2 no_keys 0 c = .ok t ∧ (t.display 0).val = 9 :=
    ⟨_, rfl, rfl, by decide, by decide, rfl, _, rfl, by decide⟩
  obtain ⟨c1, e1, e2⟩ := bind_ok _ _ c h
  have r1 := ReachableInBounds.cycle _ _ _ _ _ (ReachableInBounds.start _ _ _ h0) e1
  exact ⟨c, t, ReachableInBounds.cycle _ _ _ _ _ r1 e2, hf, hI, hV, he, hl, hd⟩

/-- C19 (the claim as stated fails). A cycle, for the opcode `F155`, that
starts with every display cell 0 or 1 and ends with `display[0] = 9`: after
`AF FF 61 09` the state has `I = 4095` and `V[1] = 9`, and the store
`memory[I + 1] = V[1]` of line 476 goes past `memory[]` (the checked cycle
reports it) into `display[0]`. -/
theorem C19_store_past_memory_breaks_display : ∃ c t, ReachableInBounds c ∧
    display_binary c ∧ fetch c = .ok 0xF155 ∧
    execute_clock_cycle sdl2 no_keys 0 c = .error .out_of_bounds ∧
    execute_clock_cycle_laid_out sdl2 no_keys 0 c = .ok t ∧
    (t.display 0).val = 9 ∧ ¬ display_binary t := by
  obtain ⟨c, t, hr, hf, -, -, he, hl, hd⟩ := store_past_memory
  refine ⟨c, t, hr, reachable_display_binary c hr, hf, he, hl, hd, ?_⟩
  intro hb
  have := hb 0 (by decide)
  omega

/-- C19 (amended). Every display cell holds 0 or 1 after `initialise_device`;
`load_rom` keeps this, `update_timers` keeps it, and so does every
`execute_clock_cycle`, whatever the opcode, that returns with every array
access inside its array (so a draw has addressed only indices below 2048 and a
store only addresses below 4096).  Hence it holds in every state reached
without an out-of-bounds access. -/
theorem C19_display_binary :
    (∀ c, display_binary (initialise_device c)) ∧
    (∀ c rom t, load_rom c rom = .ok t → display_binary c → display_binary t) ∧
    (∀ k state rand c t, execute_clock_cycle k state rand c = .ok t →
      display_binary c → display_binary t) ∧
    (∀ c, display_binary c → display_binary (update_timers c)) ∧
    (∀ c, ReachableInBounds c → display_binary c) := by
  have hinit : ∀ c, display_binary (initialise_device c) := by
    intro c i hi
    left
    have hd : i < DISPLAY := hi
    simp [initialise_device, hd]
  have hload : ∀ c rom t, load_rom c rom = .ok t → display_binary c → display_binary t :=
    fun c rom t h hb => display_binary_of_eq (load_rom_fields c rom t h).2.2.1 hb
  have htim : ∀ c, display_binary c → display_binary (update_timers c) :=
    fun c hb => display_binary_of_eq (update_timers_fields c).2.2 hb
  exact ⟨hinit, hload, cycle_display_binary, htim, reachable_display_binary⟩

/-! ## The range of `pc` -/

/-- A cycle that returns with every access inside the arrays keeps the stack
entries at most 4094 and leaves `pc` at most `0xFFF + 0xFF`. -/
theorem cycle_pc_bound (k : Scancodes) (state : Nat → UChar) (rand : Nat) (c t : chip8)
    (h : execute_clock_cycle k state rand c = .ok t)
    (hs : ∀ i, i < 16 → (c.stack i).val ≤ 4094) :
    t.pc.val ≤ 4350 ∧ ∀ i, i < 16 → (t.stack i).val ≤ 4094 := by
  obtain ⟨w, hf⟩ := cycle_fetch k state rand c t h
  have hpc := fetch_pc hf
  have hnnn : w &&& 0x0FFF ≤ 0x0FFF := Nat.and_le_right
  have hadd : ∀ n, n ≤ 32 → (toUShort (c.pc.val + n)).val ≤ 4350 := by
    intro n hn
    rw [toUShort_val_of_lt (by omega)]
    omega
  rcases cycle_cases k state rand c t w hf h with
    ⟨-, h0⟩ | ⟨-, hfr, hp⟩ | ⟨-, hsp, hst, -, -, -, hp⟩ | ⟨-, hfr, hp⟩ | ⟨-, hfr, hp⟩ |
    ⟨-, h8⟩ | ⟨-, hfr, hp⟩ | ⟨-, hD⟩ | ⟨-, hE⟩ | ⟨-, hF⟩
  · obtain ⟨hst, -, -, -, -, hp⟩ := case_0x0000_keeps _ t h0
    refine ⟨?_, fun i hi => by rw [hst]; exact hs i hi⟩
    rcases hp with hp | hp | ⟨i, hi, hp⟩
    · rw [hp]
      show c.pc.val ≤ 4350
      omega
    · rw [hp]
      exact hadd 2 (by omega)
    · rw [hp]
      have := hs i hi
      show (toUShort ((toUShort (c.stack i).val).val + 2)).val ≤ 4350
      rw [toUShort_val_of_lt (n := (c.stack i).val) (by omega), toUShort_val_of_lt (by omega)]
      omega
  · refine ⟨?_, fun i hi => by rw [hfr.1]; exact hs i hi⟩
    rw [hp, toUShort_val_of_lt (by omega)]
    omega
  · refine ⟨?_, ?_⟩
    · rw [hp, toUShort_val_of_lt (by omega)]
      omega
    · intro i hi
      rw [hst]
      by_cases e : i = c.stackPointer.val
      · subst e
        rw [Function.update_same]
        omega
      · rw [Function.update_noteq e]
        exact hs i hi
  · refine ⟨?_, fun i hi => by rw [hfr.1]; exact hs i hi⟩
    rcases hp with hp | hp <;> rw [hp]
    · exact hadd 2 (by omega)
    · exact hadd 4 (by omega)
  · refine ⟨?_, fun i hi => by rw [hfr.1]; exact hs i hi⟩
    rw [hp]
    exact hadd 2 (by omega)
  · obtain ⟨hfr, hp, -⟩ := case_0x8000_keeps _ t h8
    refine ⟨?_, fun i hi => by rw [hfr.1]; exact hs i hi⟩
    rcases hp with hp | hp <;> rw [hp]
    · show c.pc.val ≤ 4350
      omega
    · exact hadd 2 (by omega)
  · refine ⟨?_, fun i hi => by rw [hfr.1]; exact hs i hi⟩
    have hv := (c.V 0).isLt
    rw [hp, toUShort_val_of_lt (by omega)]
    omega
  · obtain ⟨hst, -, -, hp, -⟩ := case_0xD000_keeps _ t hD
    refine ⟨?_, fun i hi => by rw [hst]; exact hs i hi⟩
    rw [hp]
    exact hadd 2 (by omega)
  · obtain ⟨hfr, hp⟩ := case_0xE000_keeps k state _ t hE
    refine ⟨?_, fun i hi => by rw [hfr.1]; exact hs i hi⟩
    rcases hp with hp | hp <;> rw [hp]
    · exact hadd 2 (by omega)
    · exact hadd 4 (by omega)
  · obtain ⟨hst, -, -, -, hp, -⟩ := case_0xF000_keeps k state _ t hF
    refine ⟨?_, fun i hi => by rw [hst]; exact hs i hi⟩
    have : ({ c with opcode := toUShort w } : chip8).pc.val = c.pc.val := rfl
    omega

/-- In every state reached without an out-of-bounds access `pc ≤ 0xFFF + 0xFF`
and the stack holds only addresses at which an instruction was fetched. -/
theorem reachable_pc_bound (c : chip8) (hr : ReachableInBounds c) :
    c.pc.val ≤ 4350 ∧ ∀ i, i < 16 → (c.stack i).val ≤ 4094 := by
  induction hr with
  | start c0 rom c h =>
    obtain ⟨hp, hst, -, -, -⟩ := load_rom_fields _ rom c h
    rw [hp, hst]
    refine ⟨by show (toUShort 0x200).val ≤ 4350; decide, ?_⟩
    intro i hi
    have hd : i < STACKDEPTH := hi
    simp [initialise_device, hd]
  | cycle k state rand c t _ h ih => exact cycle_pc_bound k state rand c t h ih.2
  | timers c _ ih =>
    obtain ⟨hp, hst, -⟩ := update_timers_fields c
    rw [hp, hst]
    exact ih

/-- The program `60 FF BF FF` (set `V[0] = 0xFF`, jump to `0xFFF + V[0]`)
reaches `pc = 4350` in two cycles. -/
theorem jump_past_memory : ∃ c, ReachableInBounds c ∧ c.pc.val = 4350 := by
  have h0 : load_rom (initialise_device zero_state) [0x60, 0xFF, 0xBF, 0xFF]
      = .ok (place (initialise_device zero_state) OFFSET [0x60, 0xFF, 0xBF, 0xFF]) := rfl
  obtain ⟨t, h, hp⟩ : ∃ t,
      (execute_clock_cycle sdl2 no_keys 0
          (place (initialise_device zero_state) OFFSET [0x60, 0xFF, 0xBF, 0xFF]) >>=
        execute_clock_cycle sdl2 no_keys 0) = .ok t ∧ t.pc.val = 4350 :=
    ⟨_, rfl, by decide⟩
  obtain ⟨t1, e1, e2⟩ := bind_ok _ _ t h
  exact ⟨t, ReachableInBounds.cycle _ _ _ _ _ (ReachableInBounds.cycle _ _ _ _ _
    (ReachableInBounds.start _ _ _ h0) e1) e2, hp⟩

/-- C13 (the claim as stated fails). A reachable state with `pc` above 4095:
after `60 FF BF FF` the program counter is 4350. -/
theorem C13_pc_can_exceed_4095 : ∃ c, ReachableInBounds c ∧ ¬ (c.pc.val ≤ 4095) := by
  obtain ⟨c, hr, hp⟩ := jump_past_memory
  exact ⟨c, hr, by omega⟩

/-- The program `AF FF 60 FF F0 1E 60 60 61 00 F1 55 60 FF BF FF` through the
layout.  Its `F155` stores the bytes `60 00` at `memory[4350..4351]`, which are
`display[254..255]`; its `BFFF` jumps to 4350; the ninth cycle fetches `6000`
there and leaves `pc = 4352`.  So the bound 4350 on `pc` needs the accesses to
stay inside the arrays. -/
theorem run_past_memory : ∃ t,
    run_laid_out sdl2 no_keys 0 9
      (place (initialise_device zero_state) OFFSET run_past_memory_rom) = .ok t ∧
    t.pc.val = 4352 :=
  ⟨_, rfl, by decide⟩

/-- C13 (amended). In every state reached from the initial state
(`initialise_device`, then `load_rom` of at most 3584 bytes) by `update_timers`
calls and by `execute_clock_cycle` calls that return with every array access
inside its array, `pc` lies in `[0, 4350]`, that is at most `0xFFF + 0xFF`. -/
theorem C13_pc_bound (c : chip8) (hr : ReachableInBounds c) : c.pc.val ≤ 4350 :=
  (reachable_pc_bound c hr).1

/-- Witness for C13 (amended): the bound is attained. -/
theorem C13_pc_bound_witness : ∃ c, ReachableInBounds c ∧ c.pc.val = 4350 ∧ c.pc.val ≤ 4350 := by
  obtain ⟨c, hr, hp⟩ := jump_past_memory
  exact ⟨c, hr, hp, C13_pc_bound c hr⟩

/-! ## Which instructions advance `pc` by 2 -/

/-- C14 (the claim as stated fails). `F00A` is not a jump, call, return or
skip, and with no key down the cycle returns with `pc` unchanged, not advanced
by 2. -/
theorem C14_wait_key_does_not_advance :
    fetch c6_state = .ok 0xF00A ∧ ¬ jump_call_return_or_skip 0xF00A ∧
    ∃ t, execute_clock_cycle sdl2 no_keys 0 c6_state = .ok t ∧
      t.pc.val = c6_state.pc.val ∧ t.pc.val ≠ c6_state.pc.val + 2 :=
  ⟨rfl, by decide, _, rfl, by decide, by decide⟩

/-- C14 (amended). For every state whose fetched opcode is one of `00E0`,
`6xkk`, `7xkk`, `8xy0`..`8xy7`, `8xyE`, `Annn`, `Cxkk`, `Dxyn`, `Fx07`, `Fx15`,
`Fx18`, `Fx1E`, `Fx29`, `Fx33`, `Fx55`, `Fx65`, every `execute_clock_cycle`
that returns leaves `pc` equal to the old `pc` plus exactly 2; and when the
opcode is `Fx0A` and no key is down, it leaves `pc` unchanged. -/
theorem C14_plain_instructions_advance (k : Scancodes) (state : Nat → UChar) (rand : Nat)
    (c t : chip8) (w : Nat) (hf : fetch c = .ok w)
    (h : execute_clock_cycle k state rand c = .ok t) :
    (plain_instruction w → t.pc.val = c.pc.val + 2) ∧
    ((∃ x, x < 16 ∧ w = 0xF00A + 0x100 * x) →
      (∀ i, i < 16 → is_key_down k state i = false) → t.pc = c.pc) := by
  have hlt := fetch_lt hf
  have hpc := fetch_pc hf
  have hadd : (toUShort (c.pc.val + 2)).val = c.pc.val + 2 := toUShort_val_of_lt (by omega)
  have hop : ({ c with opcode := toUShort w } : chip8).opcode.val = w := toUShort_val_of_lt hlt
  have hE0 : w = 0x00E0 → w &&& 0xF000 = 0 := by
    intro e
    subst e
    decide
  constructor
  · intro hp
    unfold plain_instruction at hp
    rcases cycle_cases k state rand c t w hf h with
      ⟨ht, h0⟩ | ⟨ht, -, -⟩ | ⟨ht, -⟩ | ⟨ht, -, -⟩ | ⟨-, -, hp2⟩ |
      ⟨ht, h8⟩ | ⟨ht, -, -⟩ | ⟨-, hD⟩ | ⟨ht, -⟩ | ⟨ht, hF⟩
    · have hw : w = 0x00E0 := by
        rcases hp with e | e | e | e | e | e | ⟨e, -⟩ | ⟨e, -⟩
        · exact e
        all_goals omega
      rw [(case_0x0000_keeps _ t h0).2.2.2.2.1 (hop.trans hw)]
      exact hadd
    · rcases hp with e | e | e | e | e | e | ⟨e, -⟩ | ⟨e, -⟩
      · have := hE0 e
        omega
      all_goals omega
    · rcases hp with e | e | e | e | e | e | ⟨e, -⟩ | ⟨e, -⟩
      · have := hE0 e
        omega
      all_goals omega
    · rcases hp with e | e | e | e | e | e | ⟨e, -⟩ | ⟨e, -⟩
      · have := hE0 e
        omega
      all_goals omega
    · rw [hp2]
      exact hadd
    · have hn : w &&& 0x000F ≤ 7 ∨ w &&& 0x000F = 0xE := by
        rcases hp with e | e | e | e | e | e | ⟨-, e⟩ | ⟨e, -⟩
        · have := hE0 e
          omega
        · omega
        · omega
        · omega
        · omega
        · omega
        · exact e
        · omega
      rw [(case_0x8000_keeps _ t h8).2.2 (by rw [hop]; exact hn)]
      exact hadd
    · rcases hp with e | e | e | e | e | e | ⟨e, -⟩ | ⟨e, -⟩
      · have := hE0 e
        omega
      all_goals omega
    · rw [(case_0xD000_keeps _ t hD).2.2.2.1]
      exact hadd
    · rcases hp with e | e | e | e | e | e | ⟨e, -⟩ | ⟨e, -⟩
      · have := hE0 e
        omega
      all_goals omega
    · have hlo : w &&& 0x00FF = 0x07 ∨ w &&& 0x00FF = 0x15 ∨ w &&& 0x00FF = 0x18 ∨
          w &&& 0x00FF = 0x1E ∨ w &&& 0x00FF = 0x29 ∨ w &&& 0x00FF = 0x33 ∨
          w &&& 0x00FF = 0x55 ∨ w &&& 0x00FF = 0x65 := by
        rcases hp with e | e | e | e | e | e | ⟨e, -⟩ | ⟨-, e⟩
        · have := hE0 e
          omega
        · omega
        · omega
        · omega
        · omega
        · omega
        · omega
        · exact e
      rw [(case_0xF000_keeps k state _ t hF).2.2.2.2.2 (by rw [hop]; exact hlo)]
      exact hadd
  · rintro ⟨x, hx, rfl⟩ hkeys
    have hn := nibbles_F x hx 0x0A (by decide)
    have hw : 0xF00A + 0x100 * x = 0xF000 + 0x100 * x + 0x0A := by omega
    rw [hw] at hf hop
    rw [execute_F k state rand c _ hf hn.1, case_Fx0A k state _ (by rw [hop]; exact hn.2.2),
      foldlM_fixed (List.range 16) (fun i hi =>
        wait_key_step_up k state _ i (List.mem_range.mp hi) (hkeys i (List.mem_range.mp hi)))] at h
    cases h
    rfl

/-- Witness for C14 (amended): `8014` advances `pc` from `0x200` to `0x202`. -/
theorem C14_plain_instructions_advance_witness :
    fetch c1_state = .ok 0x8014 ∧ plain_instruction 0x8014 ∧
    ∃ t, execute_clock_cycle sdl2 no_keys 0 c1_state = .ok t ∧ t.pc.val = c1_state.pc.val + 2 :=
  ⟨rfl, by decide, _, rfl,
    (C14_plain_instructions_advance sdl2 no_keys 0 c1_state _ 0x8014 rfl rfl).1 (by decide)⟩

/-! ## Opcodes outside the instruction table -/

/-- In group `8` a low nibble other than `0`..`7` and `E` is not handled: the
cycle returns the state with only the `opcode` field written. -/
theorem unmatched_8_returns (k : Scancodes) (state : Nat → UChar) (rand : Nat) (c : chip8)
    (w : Nat) (hf : fetch c = .ok w) (ht : w &&& 0xF000 = 0x8000)
    (hn : ¬ (w &&& 0x000F ≤ 7 ∨ w &&& 0x000F = 0xE)) :
    execute_clock_cycle k state rand c = .ok { c with opcode := toUShort w } := by
  have hlt := fetch_lt hf
  rw [execute_8 k state rand c w hf ht]
  simp only [case_0x8000, toUShort_val_of_lt hlt]
  repeat rw [if_neg (by omega)]

/-- In group `F` a low byte other than the ten listed ones is not handled: the
cycle returns the state with only the `opcode` field written. -/
theorem unmatched_F_returns (k : Scancodes) (state : Nat → UChar) (rand : Nat) (c : chip8)
    (w : Nat) (hf : fetch c = .ok w) (ht : w &&& 0xF000 = 0xF000)
    (hn : ¬ (w &&& 0x00FF = 0x07 ∨ w &&& 0x00FF = 0x0A ∨ w &&& 0x00FF = 0x15 ∨
      w &&& 0x00FF = 0x18 ∨ w &&& 0x00FF = 0x1E ∨ w &&& 0x00FF = 0x29 ∨
      w &&& 0x00FF = 0x33 ∨ w &&& 0x00FF = 0x55 ∨ w &&& 0x00FF = 0x65)) :
    execute_clock_cycle k state rand c = .ok { c with opcode := toUShort w } := by
  have hlt := fetch_lt hf
  rw [execute_F k state rand c w hf ht]
  simp only [case_0xF000, toUShort_val_of_lt hlt]
  repeat rw [if_neg (by omega)]

/-- In group `E` a low byte other than `9E` and `A1` ends the process. -/
theorem unmatched_E_exits (k : Scancodes) (state : Nat → UChar) (rand : Nat) (c : chip8)
    (w : Nat) (hf : fetch c = .ok w) (ht : w &&& 0xF000 = 0xE000)
    (hn : ¬ (w &&& 0x00FF = 0x9E ∨ w &&& 0x00FF = 0xA1)) :
    execute_clock_cycle k state rand c = .error .exit_failure := by
  have hlt := fetch_lt hf
  rw [execute_E k state rand c w hf ht]
  simp only [case_0xE000, toUShort_val_of_lt hlt]
  repeat rw [if_neg (by omega)]

/-- C15 (the code departs from the claim). Of the opcodes outside the
instruction table only `ExFF` ends in the fatal error. `8008` and `F000`
return normally with every field but `opcode` unchanged (so the same opcode is
fetched again), and `5011` and `9011` run as the skips `5xy0` and `9xy0`. -/
theorem C15_unmatched_opcodes_return :
    execute_clock_cycle sdl2 no_keys 0 (place zero_state 0x200 [0x80, 0x08])
      = .ok { place zero_state 0x200 [0x80, 0x08] with opcode := toUShort 0x8008 } ∧
    execute_clock_cycle sdl2 no_keys 0 (place zero_state 0x200 [0xF0, 0x00])
      = .ok { place zero_state 0x200 [0xF0, 0x00] with opcode := toUShort 0xF000 } ∧
    (∃ t, execute_clock_cycle sdl2 no_keys 0 (place zero_state 0x200 [0x50, 0x11]) = .ok t ∧
      t.pc.val = 0x204) ∧
    (∃ t, execute_clock_cycle sdl2 no_keys 0 (place zero_state 0x200 [0x90, 0x11]) = .ok t ∧
      t.pc.val = 0x202) ∧
    execute_clock_cycle sdl2 no_keys 0 (place zero_state 0x200 [0xE0, 0xFF])
      = .error .exit_failure :=
  ⟨unmatched_8_returns sdl2 no_keys 0 _ 0x8008 rfl (by decide) (by decide),
    unmatched_F_returns sdl2 no_keys 0 _ 0xF000 rfl (by decide) (by decide),
    ⟨_, rfl, by decide⟩, ⟨_, rfl, by decide⟩,
    unmatched_E_exits sdl2 no_keys 0 _ 0xE0FF rfl (by decide) (by decide)⟩

/-! ## The timers -/

set_option maxRecDepth 20000 in
theorem form_Fx15 : ∀ hi < 256, (0x100 * hi + 0x15) &&& 0xF000 = 0xF000 →
    ∃ x, x < 16 ∧ 0x100 * hi + 0x15 = 0xF015 + 0x100 * x := by
  decide

set_option maxRecDepth 20000 in
theorem form_Fx18 : ∀ hi < 256, (0x100 * hi + 0x18) &&& 0xF000 = 0xF000 →
    ∃ x, x < 16 ∧ 0x100 * hi + 0x18 = 0xF018 + 0x100 * x := by
  decide

/-- An opcode that the decoder sends to the `Fx15` case has the form `Fx15`. -/
theorem opcode_is_Fx15 (w : Nat) (hlt : w < 65536) (ht : w &&& 0xF000 = 0xF000)
    (hlo : w &&& 0x00FF = 0x15) : ∃ x, x < 16 ∧ w = 0xF015 + 0x100 * x := by
  have hm : w % 256 = 0x15 := by rw [← and_255]; exact hlo
  have e : w = 0x100 * (w / 256) + 0x15 := by omega
  rw [e] at ht ⊢
  exact form_Fx15 (w / 256) (by omega) ht

/-- An opcode that the decoder sends to the `Fx18` case has the form `Fx18`. -/
theorem opcode_is_Fx18 (w : Nat) (hlt : w < 65536) (ht : w &&& 0xF000 = 0xF000)
    (hlo : w &&& 0x00FF = 0x18) : ∃ x, x < 16 ∧ w = 0xF018 + 0x100 * x := by
  have hm : w % 256 = 0x18 := by rw [← and_255]; exact hlo
  have e : w = 0x100 * (w / 256) + 0x18 := by omega
  rw [e] at ht ⊢
  exact form_Fx18 (w / 256) (by omega) ht

/-- A cycle that returns leaves `delayTimer` alone unless the decoder took the
`Fx15` case, and `soundTimer` alone unless it took the `Fx18` case. -/
theorem cycle_timers (k : Scancodes) (state : Nat → UChar) (rand : Nat) (c t : chip8) (w : Nat)
    (hf : fetch c = .ok w) (h : execute_clock_cycle k state rand c = .ok t) :
    (¬ (w &&& 0xF000 = 0xF000 ∧ w &&& 0x00FF = 0x15) → t.delayTimer = c.delayTimer) ∧
    (¬ (w &&& 0xF000 = 0xF000 ∧ w &&& 0x00FF = 0x18) → t.soundTimer = c.soundTimer) := by
  have hop : ({ c with opcode := toUShort w } : chip8).opcode.val = w :=
    toUShort_val_of_lt (fetch_lt hf)
  rcases cycle_cases k state rand c t w hf h with
    ⟨-, h0⟩ | ⟨-, hfr, -⟩ | ⟨-, -, -, hd, hs, -, -⟩ | ⟨-, hfr, -⟩ | ⟨-, hfr, -⟩ | ⟨-, h8⟩ |
    ⟨-, hfr, -⟩ | ⟨-, hD⟩ | ⟨-, hE⟩ | ⟨ht, hF⟩
  · exact ⟨fun _ => (case_0x0000_keeps _ t h0).2.1, fun _ => (case_0x0000_keeps _ t h0).2.2.1⟩
  · exact ⟨fun _ => hfr.2.1, fun _ => hfr.2.2.1⟩
  · exact ⟨fun _ => hd, fun _ => hs⟩
  · exact ⟨fun _ => hfr.2.1, fun _ => hfr.2.2.1⟩
  · exact ⟨fun _ => hfr.2.1, fun _ => hfr.2.2.1⟩
  · exact ⟨fun _ => (case_0x8000_keeps _ t h8).1.2.1, fun _ => (case_0x8000_keeps _ t h8).1.2.2.1⟩
  · exact ⟨fun _ => hfr.2.1, fun _ => hfr.2.2.1⟩
  · exact ⟨fun _ => (case_0xD000_keeps _ t hD).2.1, fun _ => (case_0xD000_keeps _ t hD).2.2.1⟩
  · exact ⟨fun _ => (case_0xE000_keeps k state _ t hE).1.2.1,
      fun _ => (case_0xE000_keeps k state _ t hE).1.2.2.1⟩
  · obtain ⟨-, -, hd, hs, -, -⟩ := case_0xF000_keeps k state _ t hF
    rw [hop] at hd hs
    exact ⟨fun hne => hd (fun e => hne ⟨ht, e⟩), fun hne => hs (fun e => hne ⟨ht, e⟩)⟩

/-- Closed form of the `Fx15` case. -/
theorem case_Fx15 (k : Scancodes) (state : Nat → UChar) (c : chip8)
    (hlo : c.opcode.val &&& 0x00FF = 0x15) :
    case_0xF000 k state c = .ok (advance { c with delayTimer :=
      (c.V ((c.opcode.val &&& 0x0F00) >>> 8)) } 2) := by
  simp [case_0xF000, hlo]

/-- Closed form of the `Fx18` case. -/
theorem case_Fx18 (k : Scancodes) (state : Nat → UChar) (c : chip8)
    (hlo : c.opcode.val &&& 0x00FF = 0x18) :
    case_0xF000 k state c = .ok (advance { c with soundTimer :=
      (c.V ((c.opcode.val &&& 0x0F00) >>> 8)) } 2) := by
  simp [case_0xF000, hlo]

theorem update_timers_le (c : chip8) :
    (update_timers c).delayTimer.val ≤ c.delayTimer.val ∧
    (update_timers c).soundTimer.val ≤ c.soundTimer.val := by
  have hd := c.delayTimer.isLt
  have hs := c.soundTimer.isLt
  unfold update_timers
  by_cases h1 : c.delayTimer.val > 0 <;> by_cases h2 : c.soundTimer.val > 0 <;>
    simp only [h1, h2, if_true, if_false, intToUChar] <;>
    refine ⟨?_, ?_⟩ <;> (first | trivial | omega)

/-- C20. For a cycle that returns with fetched opcode `w`: if `w` is not of the
form `Fx15` then `delayTimer` is unchanged, and if it is `Fx15` then
`delayTimer` becomes `V[x]`; likewise `soundTimer` with `Fx18`. `update_timers`
never increases either timer. Hence at every step each timer is non-increasing
except at a step that executes `Fx15` (delay) or `Fx18` (sound). -/
theorem C20_timers_change_only_when_set (k : Scancodes) (state : Nat → UChar) (rand : Nat)
    (c t : chip8) (w : Nat) (hf : fetch c = .ok w)
    (h : execute_clock_cycle k state rand c = .ok t) :
    ((∀ x, x < 16 → w ≠ 0xF015 + 0x100 * x) → t.delayTimer = c.delayTimer) ∧
    ((∀ x, x < 16 → w ≠ 0xF018 + 0x100 * x) → t.soundTimer = c.soundTimer) ∧
    (∀ x, x < 16 → w = 0xF015 + 0x100 * x → t.delayTimer = c.V x) ∧
    (∀ x, x < 16 → w = 0xF018 + 0x100 * x → t.soundTimer = c.V x) ∧
    (t.delayTimer.val ≤ c.delayTimer.val ∨
      ∃ x, x < 16 ∧ w = 0xF015 + 0x100 * x ∧ t.delayTimer = c.V x) ∧
    (t.soundTimer.val ≤ c.soundTimer.val ∨
      ∃ x, x < 16 ∧ w = 0xF018 + 0x100 * x ∧ t.soundTimer = c.V x) ∧
    (update_timers t).delayTimer.val ≤ t.delayTimer.val ∧
    (update_timers t).soundTimer.val ≤ t.soundTimer.val := by
  have hlt := fetch_lt hf
  obtain ⟨hd, hs⟩ := cycle_timers k state rand c t w hf h
  have hop : ({ c with opcode := toUShort w } : chip8).opcode.val = w := toUShort_val_of_lt hlt
  have set15 : ∀ x, x < 16 → w = 0xF015 + 0x100 * x → t.delayTimer = c.V x := by
    intro x hx hw
    have hn := nibbles_F x hx 0x15 (by decide)
    have e : 0xF015 + 0x100 * x = 0xF000 + 0x100 * x + 0x15 := by omega
    rw [e] at hw
    subst hw
    rw [execute_F k state rand c _ hf hn.1, case_Fx15 k state _ (by rw [hop]; exact hn.2.2)] at h
    cases h
    show c.V (((toUShort (0xF000 + 0x100 * x + 0x15)).val &&& 0x0F00) >>> 8) = c.V x
    rw [toUShort_val_of_lt hlt, hn.2.1]
  have set18 : ∀ x, x < 16 → w = 0xF018 + 0x100 * x → t.soundTimer = c.V x := by
    intro x hx hw
    have hn := nibbles_F x hx 0x18 (by decide)
    have e : 0xF018 + 0x100 * x = 0xF000 + 0x100 * x + 0x18 := by omega
    rw [e] at hw
    subst hw
    rw [execute_F k state rand c _ hf hn.1, case_Fx18 k state _ (by rw [hop]; exact hn.2.2)] at h
    cases h
    show c.V (((toUShort (0xF000 + 0x100 * x + 0x18)).val &&& 0x0F00) >>> 8) = c.V x
    rw [toUShort_val_of_lt hlt, hn.2.1]
  have keep15 : (∀ x, x < 16 → w ≠ 0xF015 + 0x100 * x) → t.delayTimer = c.delayTimer := by
    intro hne
    apply hd
    rintro ⟨ht, hlo⟩
    obtain ⟨x, hx, e⟩ := opcode_is_Fx15 w hlt ht hlo
    exact hne x hx e
  have keep18 : (∀ x, x < 16 → w ≠ 0xF018 + 0x100 * x) → t.soundTimer = c.soundTimer := by
    intro hne
    apply hs
    rintro ⟨ht, hlo⟩
    obtain ⟨x, hx, e⟩ := opcode_is_Fx18 w hlt ht hlo
    exact hne x hx e
  refine ⟨keep15, keep18, set15, set18, ?_, ?_, (update_timers_le t).1, (update_timers_le t).2⟩
  · by_cases hx : ∃ x, x < 16 ∧ w = 0xF015 + 0x100 * x
    · obtain ⟨x, hx, e⟩ := hx
      exact Or.inr ⟨x, hx, e, set15 x hx e⟩
    · left
      rw [keep15 (fun x hx16 e => hx ⟨x, hx16, e⟩)]
  · by_cases hx : ∃ x, x < 16 ∧ w = 0xF018 + 0x100 * x
    · obtain ⟨x, hx, e⟩ := hx
      exact Or.inr ⟨x, hx, e, set18 x hx e⟩
    · left
      rw [keep18 (fun x hx16 e => hx ⟨x, hx16, e⟩)]

/-- Witness for C20: `F015` sets `delayTimer` to `V[0] = 7` and leaves
`soundTimer = 5`. -/
theorem C20_timers_change_only_when_set_witness :
    fetch c20_state = .ok 0xF015 ∧
    ∃ t, execute_clock_cycle sdl2 no_keys 0 c20_state = .ok t ∧
      t.delayTimer = c20_state.V 0 ∧ t.soundTimer = c20_state.soundTimer := by
  have h := C20_timers_change_only_when_set sdl2 no_keys 0 c20_state _ 0xF015 rfl rfl
  exact ⟨rfl, _, rfl, h.2.2.1 0 (by decide) rfl, h.2.1 (fun x hx => by omega)⟩

/-! ## `8xF5`: subtraction with `y = 0xF` -/

/-- C21. When the fetched opcode is `8xF5` with `x ≠ 0xF`, the subtrahend is
the flag the instruction has just written, not the old content of `V[0xF]`:
one `execute_clock_cycle` returns a state with `V[0xF] = f` and
`V[x] = (Vx - f) mod 256`, where `f` is 1 if `Vx > VF` and 0 otherwise, and
`Vx`, `VF` are `V[x]` and `V[0xF]` before the cycle. -/
theorem C21_sub_flag_operand (k : Scancodes) (state : Nat → UChar) (rand : Nat) (c : chip8)
    (x : Nat) (hx : x < 16) (hxF : x ≠ 0xF)
    (hop : fetch c = .ok (0x80F5 + 0x100 * x)) :
    ∃ c1, execute_clock_cycle k state rand c = .ok c1 ∧
      (c1.V 0xF).val = (if (c.V x).val > (c.V 0xF).val then 1 else 0) ∧
      ((c1.V x).val : Int) =
        (((c.V x).val : Int) - (if (c.V x).val > (c.V 0xF).val then 1 else 0)) % 256 ∧
      ((c.V x).val > (c.V 0xF).val → (c1.V x).val = (c.V x).val - 1) ∧
      (¬ (c.V x).val > (c.V 0xF).val → (c1.V x).val = (c.V x).val) := by
  have hn := nibbles_8 x hx 0xF (by decide) 5 (by decide)
  have hw : 0x80F5 + 0x100 * x = 0x8000 + 0x100 * x + 0x10 * 0xF + 5 := by omega
  rw [hw] at hop
  have hlt := fetch_lt hop
  have hFx : (15 : Nat) ≠ x := fun h => hxF h.symm
  rw [execute_8 k state rand c _ hop hn.1,
    case_8xy5 _ (by simpa [toUShort_val_of_lt hlt] using hn.2.2.2)]
  simp only [toUShort_val_of_lt hlt, hn.2.1, hn.2.2.1]
  have hvx := (c.V x).isLt
  have hvF := (c.V 0xF).isLt
  by_cases hgt : (c.V x).val > (c.V 0xF).val
  · simp only [if_pos hgt, setV, Function.update_noteq hxF, Function.update_same]
    have hx1 : (Function.update (Function.update c.V 0xF (toUChar 1)) x
        (intToUChar (((c.V x).val : Int) - ((toUChar 1).val : Int))) x).val
        = (c.V x).val - 1 := by
      rw [Function.update_same]
      simp only [intToUChar, toUChar_val]
      omega
    refine ⟨_, rfl, ?_, ?_, fun _ => ?_, fun h => absurd hgt h⟩
    · simp only [advance]
      rw [Function.update_noteq hFx, Function.update_same]
      rfl
    · simp only [advance]
      rw [hx1]
      omega
    · simp only [advance]
      exact hx1
  · simp only [if_neg hgt, setV, Function.update_noteq hxF, Function.update_same]
    have hx0 : (Function.update (Function.update c.V 0xF (toUChar 0)) x
        (intToUChar (((c.V x).val : Int) - ((toUChar 0).val : Int))) x).val
        = (c.V x).val := by
      rw [Function.update_same]
      simp only [intToUChar, toUChar_val]
      omega
    refine ⟨_, rfl, ?_, ?_, fun h => absurd h hgt, fun _ => ?_⟩
    · simp only [advance]
      rw [Function.update_noteq hFx, Function.update_same]
      rfl
    · simp only [advance]
      rw [hx0]
      omega
    · simp only [advance]
      exact hx0

/-- Witness for C21: with `V[0] = 7` and `V[0xF] = 3` the result is
`V[0xF] = 1` and `V[0] = 6`, that is `7 - 1` and not `7 - 3`. -/
theorem C21_sub_flag_operand_witness :
    fetch c21_state = .ok (0x80F5 + 0x100 * 0) ∧
    (c21_state.V 0).val = 7 ∧ (c21_state.V 0xF).val = 3 ∧
    ∃ c1, execute_clock_cycle sdl2 no_keys 0 c21_state = .ok c1 ∧
      (c1.V 0xF).val = 1 ∧ (c1.V 0).val = 6 := by
  obtain ⟨c1, h, hf, -, hsub, -⟩ :=
    C21_sub_flag_operand sdl2 no_keys 0 c21_state 0 (by decide) (by decide) rfl
  exact ⟨rfl, by decide, by decide, c1, h, hf, hsub (by decide)⟩

end Chip8
